import Mathlib

/-! The wingman scraper: record extraction, deduplication, scroll convergence,
the capture listener, the result cache, the search endpoint and the sync.

A shallow embedding of `apps/scraper/client.go`, of the types of
`apps/scraper/models.go`, of `doSearch` and `handleSearch` in
`apps/scraper/server.go`, of `TransformJob` and `PushToConvex` in
`apps/scraper/convex.go` and of the deduplication of `runSync` in
`apps/scraper/main.go`.

Go strings and byte slices are lists of bytes (`Bytes`, each entry below 256).
A Go map is the list of its entries, in which an assignment to a present key
replaces the value in place.  The two library calls that `extractJobs` relies
on are modelled by executable functions:

* `base64DecodeString` follows `base64.StdEncoding.DecodeString`: carriage
  returns and line feeds are ignored, the rest must be whole four-character
  quanta, only the last of which may be padded; trailing bits are not checked
  (the standard encoding is not strict).
* `parseJSON` follows the syntax check of `json.Unmarshal`, and the
  `decode...` functions follow its type-directed store into the Go types of
  `models.go`: a value of the wrong JSON type for its Go field is an error,
  `null` empties a slice, map or pointer and leaves a struct as it is, object
  keys select struct fields without regard to case, and keys that select no
  field are passed over.  A JSON number that is stored into a value of type
  `any` is kept as its token when `strconv.ParseFloat` accepts it, and is an
  error when it is beyond the range of `float64`; the value of the float is
  not computed.

The scroll loop of `ScrapeAll` runs against `arrivals`, which gives for every
pass the bodies that the listener appended to the capture buffer before the
pass drains it.  What the browser does in a call of `SearchJobs` or
`ScrapeAll` is a `Session`; the steps that the call takes on the browser are
recorded in its `Outcome`.  Times are integers of nanoseconds, and the calls
of the mutation in `PushToConvex` are answered by a function of the number of
the call and its batch.  The listener of the capture buffer runs over a list
of network events, the loop of `Init` over the titles that the page gives, and
callers of `doSearch` that run at the same time are a pool whose steps are the
statements of the callers, taken in the order of a schedule.
-/

namespace Wingman

/-! ## Bytes -/

/-- A Go `string` or `[]byte`. -/
abbrev Bytes := List Nat

/-- The UTF-8 bytes of a string literal. -/
def utf8 (s : String) : Bytes :=
  (s.toList.flatMap String.utf8EncodeChar).map UInt8.toNat

/-! ## `encoding/base64`, standard encoding -/

/-- The entry of the standard alphabet's decode map for a character. -/
def b64Value (c : Nat) : Option Nat :=
  if 65 ≤ c ∧ c ≤ 90 then some (c - 65)
  else if 97 ≤ c ∧ c ≤ 122 then some (c - 71)
  else if 48 ≤ c ∧ c ≤ 57 then some (c + 4)
  else if c = 43 then some 62
  else if c = 47 then some 63
  else none

/-- The character of the standard alphabet for a six-bit value. -/
def b64Char (n : Nat) : Nat :=
  if n < 26 then n + 65
  else if n < 52 then n + 71
  else if n < 62 then n - 4
  else if n = 62 then 43
  else 47

/-- Decoding of the quanta of an input from which line breaks were removed:
whole quanta of four alphabet characters, the last one possibly padded with
one or two `=` (byte 61). -/
def b64Quanta : Bytes → Option Bytes
  | [] => some []
  | a :: b :: c :: d :: rest =>
    if rest = [] ∧ d = 61 then
      if c = 61 then
        match b64Value a, b64Value b with
        | some x, some y => some [x * 4 + y / 16]
        | _, _ => none
      else
        match b64Value a, b64Value b, b64Value c with
        | some x, some y, some z => some [x * 4 + y / 16, (y % 16) * 16 + z / 4]
        | _, _, _ => none
    else
      match b64Value a, b64Value b, b64Value c, b64Value d, b64Quanta rest with
      | some x, some y, some z, some w, some out =>
        some ((x * 4 + y / 16) :: ((y % 16) * 16 + z / 4) :: ((z % 4) * 64 + w) :: out)
      | _, _, _, _, _ => none
  | _ => none

/-- The model of `base64.StdEncoding.DecodeString`; `none` is a non-nil error. -/
def base64DecodeString (s : Bytes) : Option Bytes :=
  b64Quanta (s.filter (fun c => c ≠ 10 ∧ c ≠ 13))

/-- The model of `base64.StdEncoding.EncodeToString`. -/
def base64EncodeToString : Bytes → Bytes
  | [] => []
  | [a] => [b64Char (a / 4), b64Char ((a % 4) * 16), 61, 61]
  | [a, b] => [b64Char (a / 4), b64Char ((a % 4) * 16 + b / 16), b64Char ((b % 16) * 4), 61]
  | a :: b :: c :: rest =>
    b64Char (a / 4) :: b64Char ((a % 4) * 16 + b / 16) :: b64Char ((b % 16) * 4 + c / 64)
      :: b64Char (c % 64) :: base64EncodeToString rest

/-! ## `encoding/json`: reading a document -/

/-- A JSON document as read by `encoding/json`; an object keeps its members
in document order, repeated keys included. -/
inductive JValue where
  | null
  | bool (b : Bool)
  | number (token : Bytes)
  | string (s : Bytes)
  | array (elems : List JValue)
  | object (members : List (Bytes × JValue))

/-- The scanner's white space: space, tab, carriage return, line feed. -/
def isSpace (c : Nat) : Bool :=
  c = 32 || c = 9 || c = 13 || c = 10

def skipSpace : Bytes → Bytes
  | [] => []
  | c :: rest => if isSpace c then skipSpace rest else c :: rest

def hexDigit (c : Nat) : Option Nat :=
  if 48 ≤ c ∧ c ≤ 57 then some (c - 48)
  else if 97 ≤ c ∧ c ≤ 102 then some (c - 87)
  else if 65 ≤ c ∧ c ≤ 70 then some (c - 55)
  else none

/-- The value of four hexadecimal digits. -/
def hex4 (a b c d : Nat) : Option Nat :=
  match hexDigit a, hexDigit b, hexDigit c, hexDigit d with
  | some x, some y, some z, some w => some (x * 4096 + y * 256 + z * 16 + w)
  | _, _, _, _ => none

/-- The UTF-8 encoding of a code point (`utf8.EncodeRune`). -/
def encodeRune (r : Nat) : Bytes :=
  if r < 128 then [r]
  else if r < 2048 then [192 + r / 64, 128 + r % 64]
  else if r < 65536 then [224 + r / 4096, 128 + (r / 64) % 64, 128 + r % 64]
  else [240 + r / 262144, 128 + (r / 4096) % 64, 128 + (r / 64) % 64, 128 + r % 64]

/-- The replacement character U+FFFD. -/
def runeError : Nat := 65533

def isCont (c : Nat) : Bool :=
  128 ≤ c && c ≤ 191

/-- The number of bytes that follow the lead byte `b0` in the well-formed
UTF-8 sequence at the head of `b0 :: rest`, or `none` when the head is
ill-formed (`utf8.DecodeRune` then yields U+FFFD and width 1). -/
def runeTail (b0 : Nat) (rest : Bytes) : Option Nat :=
  if 194 ≤ b0 ∧ b0 ≤ 223 then
    match rest with
    | b1 :: _ => if isCont b1 then some 1 else none
    | _ => none
  else if 224 ≤ b0 ∧ b0 ≤ 239 then
    match rest with
    | b1 :: b2 :: _ =>
      if (if b0 = 224 then 160 else 128) ≤ b1 ∧ b1 ≤ (if b0 = 237 then 159 else 191) ∧ isCont b2
      then some 2 else none
    | _ => none
  else if 240 ≤ b0 ∧ b0 ≤ 244 then
    match rest with
    | b1 :: b2 :: b3 :: _ =>
      if (if b0 = 240 then 144 else 128) ≤ b1 ∧ b1 ≤ (if b0 = 244 then 143 else 191)
        ∧ isCont b2 ∧ isCont b3
      then some 3 else none
    | _ => none
  else none

/-- Prefix a scanned result with already decoded bytes. -/
def emit (out : Bytes) (r : Option (Bytes × Bytes)) : Option (Bytes × Bytes) :=
  r.map (fun p => (out ++ p.1, p.2))

/-- An escape sequence, given the input after its backslash: the bytes it
stands for and the number of input bytes it takes after the backslash.  A
surrogate that is not the first half of a well-formed pair becomes U+FFFD
and takes only its own six bytes. -/
def unescape (rest : Bytes) : Option (Bytes × Nat) :=
  match rest with
  | [] => none
  | e :: rest1 =>
    if e = 34 ∨ e = 92 ∨ e = 47 then some ([e], 1)
    else if e = 98 then some ([8], 1)
    else if e = 102 then some ([12], 1)
    else if e = 110 then some ([10], 1)
    else if e = 114 then some ([13], 1)
    else if e = 116 then some ([9], 1)
    else if e = 117 then
      match rest1 with
      | h1 :: h2 :: h3 :: h4 :: rest2 =>
        match hex4 h1 h2 h3 h4 with
        | none => none
        | some u =>
          if 55296 ≤ u ∧ u < 57344 then
            match rest2 with
            | b :: v :: l1 :: l2 :: l3 :: l4 :: _ =>
              match hex4 l1 l2 l3 l4 with
              | some u2 =>
                if b = 92 ∧ v = 117 ∧ u < 56320 ∧ 56320 ≤ u2 ∧ u2 < 57344 then
                  some (encodeRune ((u - 55296) * 1024 + (u2 - 56320) + 65536), 11)
                else some (encodeRune runeError, 5)
              | none => some (encodeRune runeError, 5)
            | _ => some (encodeRune runeError, 5)
          else some (encodeRune u, 5)
      | _ => none
    else none

/-- The body of a string literal after its opening quote: the unquoted bytes
and the input after the closing quote.  `copy` counts the continuation bytes
of a well-formed UTF-8 sequence still to be copied, `drop` the bytes of an
escape sequence still to be passed over.  Control characters are rejected,
escapes are resolved and ill-formed UTF-8 is replaced by U+FFFD, as `unquote`
does. -/
def scanString : Nat → Nat → Bytes → Option (Bytes × Bytes)
  | _, _, [] => none
  | copy, drop + 1, _ :: rest => scanString copy drop rest
  | copy + 1, 0, c :: rest => emit [c] (scanString copy 0 rest)
  | 0, 0, c :: rest =>
    if c = 34 then some ([], rest)
    else if c = 92 then
      match unescape rest with
      | some (out, n) => emit out (scanString 0 n rest)
      | none => none
    else if c < 32 then none
    else if c < 128 then emit [c] (scanString 0 0 rest)
    else
      match runeTail c rest with
      | some n => emit [c] (scanString n 0 rest)
      | none => emit (encodeRune runeError) (scanString 0 0 rest)

def isDigit (c : Nat) : Bool :=
  48 ≤ c && c ≤ 57

/-- A non-empty run of digits and the input after it. -/
def scanDigits (s : Bytes) : Option (Bytes × Bytes) :=
  match s.span isDigit with
  | ([], _) => none
  | (ds, rest) => some (ds, rest)

/-- The optional fraction and exponent of a number. -/
def scanFracExp (s : Bytes) : Option (Bytes × Bytes) :=
  let frac : Option (Bytes × Bytes) :=
    match s with
    | 46 :: rest => emit [46] (scanDigits rest)
    | _ => some ([], s)
  match frac with
  | none => none
  | some (f, s1) =>
    match s1 with
    | e :: rest =>
      if e = 101 ∨ e = 69 then
        match rest with
        | sg :: rest1 =>
          if sg = 43 ∨ sg = 45 then emit (f ++ [e, sg]) (scanDigits rest1)
          else emit (f ++ [e]) (scanDigits rest)
        | [] => none
      else some (f, s1)
    | [] => some (f, s1)

/-- A number without its sign: `0` or a run of digits not starting with `0`,
then the optional fraction and exponent. -/
def scanUnsigned (s : Bytes) : Option (Bytes × Bytes) :=
  match s with
  | c :: rest =>
    if c = 48 then emit [48] (scanFracExp rest)
    else if isDigit c then
      emit (c :: (rest.span isDigit).1) (scanFracExp (rest.span isDigit).2)
    else none
  | [] => none

/-- A number token, with its optional minus sign, and the input after it. -/
def scanNumber (s : Bytes) : Option (Bytes × Bytes) :=
  match s with
  | c :: rest => if c = 45 then emit [45] (scanUnsigned rest) else scanUnsigned s
  | [] => none

/-- The scanner's limit on nested arrays and objects. -/
def maxNestingDepth : Nat := 10000

mutual
/-- One JSON value at the head of the input (after white space), with the
input that follows it; `depth` counts the enclosing arrays and objects. -/
def parseValue : Nat → Nat → Bytes → Option (JValue × Bytes)
  | 0, _, _ => none
  | fuel + 1, depth, s =>
    match skipSpace s with
    | [] => none
    | c :: rest =>
      if c = 123 then
        if depth ≥ maxNestingDepth then none
        else
          match skipSpace rest with
          | [] => none
          | c1 :: rest1 =>
            if c1 = 125 then some (JValue.object [], rest1)
            else parseMembers fuel (depth + 1) (c1 :: rest1) []
      else if c = 91 then
        if depth ≥ maxNestingDepth then none
        else
          match skipSpace rest with
          | [] => none
          | c1 :: rest1 =>
            if c1 = 93 then some (JValue.array [], rest1)
            else parseElements fuel (depth + 1) (c1 :: rest1) []
      else if c = 34 then
        (scanString 0 0 rest).map (fun p => (JValue.string p.1, p.2))
      else if c = 116 then
        match rest with
        | 114 :: 117 :: 101 :: rest1 => some (JValue.bool true, rest1)
        | _ => none
      else if c = 102 then
        match rest with
        | 97 :: 108 :: 115 :: 101 :: rest1 => some (JValue.bool false, rest1)
        | _ => none
      else if c = 110 then
        match rest with
        | 117 :: 108 :: 108 :: rest1 => some (JValue.null, rest1)
        | _ => none
      else (scanNumber (c :: rest)).map (fun p => (JValue.number p.1, p.2))
/-- The elements of an array from its next element on. -/
def parseElements : Nat → Nat → Bytes → List JValue → Option (JValue × Bytes)
  | 0, _, _, _ => none
  | fuel + 1, depth, s, acc =>
    match parseValue fuel depth s with
    | none => none
    | some (v, rest) =>
      match skipSpace rest with
      | [] => none
      | c :: rest1 =>
        if c = 44 then parseElements fuel depth rest1 (acc ++ [v])
        else if c = 93 then some (JValue.array (acc ++ [v]), rest1)
        else none
/-- The members of an object from its next key on. -/
def parseMembers : Nat → Nat → Bytes → List (Bytes × JValue) → Option (JValue × Bytes)
  | 0, _, _, _ => none
  | fuel + 1, depth, s, acc =>
    match skipSpace s with
    | [] => none
    | q :: rest =>
      if q = 34 then
        match scanString 0 0 rest with
        | none => none
        | some (key, rest1) =>
          match skipSpace rest1 with
          | [] => none
          | c :: rest2 =>
            if c = 58 then
              match parseValue fuel depth rest2 with
              | none => none
              | some (v, rest3) =>
                match skipSpace rest3 with
                | [] => none
                | d :: rest4 =>
                  if d = 44 then parseMembers fuel depth rest4 (acc ++ [(key, v)])
                  else if d = 125 then some (JValue.object (acc ++ [(key, v)]), rest4)
                  else none
            else none
      else none
end

/-- The document that `json.Unmarshal` reads from `data`: one value, white
space around it and nothing else; `none` is a syntax error.  Every nested call
of the reader follows at least one consumed byte at most two calls earlier, so
twice the length of the input bounds the depth of the calls, and more fuel
gives the same result (`parseValue_fuel`). -/
def parseJSON (data : Bytes) : Option JValue :=
  match parseValue (2 * data.length + 2) 0 data with
  | some (v, rest) => if skipSpace rest = [] then some v else none
  | none => none

/-! ## Go maps -/

/-- The entries of a Go `map[string]V`. -/
abbrev GoMap (V : Type) := List (Bytes × V)

/-- The lookup `m[k]` with its `ok` flag. -/
def mapGet {V : Type} : GoMap V → Bytes → Option V
  | [], _ => none
  | (k1, v1) :: rest, k => if k1 = k then some v1 else mapGet rest k

/-- The assignment `m[k] = v`: the value of a key that is present is
overwritten, a new key adds an entry. -/
def mapSet {V : Type} : GoMap V → Bytes → V → GoMap V
  | [], k, v => [(k, v)]
  | (k1, v1) :: rest, k, v => if k1 = k then (k1, v) :: rest else (k1, v1) :: mapSet rest k v

/-- The keys of a map. -/
def mapKeys {V : Type} (m : GoMap V) : List Bytes :=
  m.map Prod.fst

/-! ## `encoding/json`: storing a document into the types of `models.go` -/

/-- The number that a sequence of decimal digits writes. -/
def digitsValue (digits : Bytes) : Nat :=
  digits.foldl (fun acc c => 10 * acc + (c - 48)) 0

/-- The least magnitude that does not round to a `float64`: the largest
`float64`, `2^1024 - 2^971`, plus half a unit in its last place, which is
`2^1024 - 2^970` (`floatLimit_eq`). -/
def floatLimit : Nat :=
  179769313486231580793728971405303415079934132710037826936173778980444968292764750946649017977587207096330286416692887910946555547851940402630657488671505820681908902000708383676273854845817711531764475730270069855571366959622842914819860834936475292719074168444365510704342711559699508093042880177904174497792

/-- The digits of the integer part of a number token and what follows them. -/
def tokenInt (token : Bytes) : Bytes × Bytes :=
  match token with
  | 45 :: rest => rest.span isDigit
  | _ => token.span isDigit

/-- The digits of the fraction of a number token and what follows them. -/
def tokenFrac (afterInt : Bytes) : Bytes × Bytes :=
  match afterInt with
  | 46 :: rest => rest.span isDigit
  | _ => ([], afterInt)

/-- The exponent of a number token, from what follows its fraction. -/
def tokenExp (afterFrac : Bytes) : Int :=
  match afterFrac with
  | _ :: 45 :: digits => -(digitsValue digits : Int)
  | _ :: 43 :: digits => (digitsValue digits : Int)
  | _ :: digits => (digitsValue digits : Int)
  | [] => 0

/-- Whether `strconv.ParseFloat(token, 64)` returns a range error for the
token of a JSON number: its magnitude, the digits of the integer part and of
the fraction times ten to the exponent less the number of fraction digits, is
`floatLimit` or more, so that it rounds to an infinity.  A magnitude that is
too small rounds to zero without an error. -/
def floatOverflows (token : Bytes) : Bool :=
  let whole := tokenInt token
  let frac := tokenFrac whole.2
  let mantissa := digitsValue (whole.1 ++ frac.1)
  let scale : Int := tokenExp frac.2 - (frac.1.length : Int)
  if scale ≥ 0 then decide (mantissa * 10 ^ scale.toNat ≥ floatLimit)
  else decide (mantissa ≥ floatLimit * 10 ^ (-scale).toNat)

/-- `func (d *decodeState) convertNumber(s string) (any, error)` without
`UseNumber`: the number, kept as its token, or `none` for the
`UnmarshalTypeError` of a token that `strconv.ParseFloat` does not accept. -/
def convertNumber (token : Bytes) : Option JValue :=
  if floatOverflows token then none else some (JValue.number token)

mutual
/-- The Go value of type `any` that a document decodes to: a number goes
through `convertNumber`, an object becomes a `map[string]any`, in which a
repeated key keeps its last value.  `none` is the error that `json.Unmarshal`
returns when a number of the document is not accepted. -/
def toAny : JValue → Option JValue
  | JValue.number token => convertNumber token
  | JValue.array elems => (toAnyList elems).map JValue.array
  | JValue.object members => (storeMembers members []).map JValue.object
  | v => some v
def toAnyList : List JValue → Option (List JValue)
  | [] => some []
  | v :: rest =>
    match toAny v, toAnyList rest with
    | some a, some as => some (a :: as)
    | _, _ => none
/-- The members of an object stored one after the other into a map. -/
def storeMembers : List (Bytes × JValue) → GoMap JValue → Option (GoMap JValue)
  | [], m => some m
  | (k, v) :: rest, m =>
    match toAny v with
    | some a => storeMembers rest (mapSet m k a)
    | none => none
end

mutual
/-- Whether every number of a document is within the range of `float64`. -/
def numbersFit : JValue → Bool
  | JValue.number token => !floatOverflows token
  | JValue.array elems => numbersFitList elems
  | JValue.object members => numbersFitMembers members
  | _ => true
def numbersFitList : List JValue → Bool
  | [] => true
  | v :: rest => numbersFit v && numbersFitList rest
def numbersFitMembers : List (Bytes × JValue) → Bool
  | [] => true
  | (_, v) :: rest => numbersFit v && numbersFitMembers rest
end

/-- `type Job = map[string]any`; `none` is the nil map. -/
abbrev Job := Option (GoMap JValue)

/-- `type HitItem struct`. -/
structure HitItem where
  Source : Job

/-- `type Hits struct`. -/
structure Hits where
  Hits : List HitItem

/-- `type JobsResponse struct`; `Hits` is a pointer, `none` when nil. -/
structure JobsResponse where
  Results : List Job
  Jobs : List Job
  Data : List Job
  Items : List Job
  Content : List Job
  Hits : Option Hits

/-- The folding of the rest of a key, `drop` bytes of which belong to a
letter already folded. -/
def foldFrom : Nat → Bytes → Bytes
  | _, [] => []
  | drop + 1, _ :: rest => foldFrom drop rest
  | 0, c :: rest =>
    if 97 ≤ c ∧ c ≤ 122 then (c - 32) :: foldFrom 0 rest
    else if c = 197 ∧ rest.take 1 = [191] then 83 :: foldFrom 1 rest
    else if c = 226 ∧ rest.take 2 = [132, 170] then 75 :: foldFrom 2 rest
    else c :: foldFrom 0 rest

/-- The folded form of an object key under which struct fields are matched
without regard to case: ASCII letters in upper case, and the two non-ASCII
letters whose case folding is an ASCII letter (U+017F, U+212A) as that
letter. -/
def foldName (key : Bytes) : Bytes :=
  foldFrom 0 key

/-- Whether an object key selects the struct field with the given JSON name. -/
def isField (name : String) (key : Bytes) : Bool :=
  foldName key = foldName (utf8 name)

/-- Storing a document into a variable of type `Job` that holds `old`:
`null` makes it nil, an object is stored member by member into the map
already there (a fresh one if nil), anything else is a type error, and so is a
number of the object beyond the range of `float64`. -/
def decodeJob (old : Job) : JValue → Option Job
  | JValue.null => some none
  | JValue.object members => (storeMembers members (old.getD [])).map some
  | _ => none

/-- Storing the elements of an array into a slice: the element at an index
below the old length is stored into the element already there. -/
def decodeElems {α : Type} (zero : α) (elem : α → JValue → Option α) :
    List α → List JValue → Option (List α)
  | _, [] => some []
  | old, v :: rest =>
    match elem (old.headD zero) v, decodeElems zero elem old.tail rest with
    | some a, some as => some (a :: as)
    | _, _ => none

/-- Storing a document into a `[]Job`. -/
def decodeJobs (old : List Job) : JValue → Option (List Job)
  | JValue.null => some []
  | JValue.array elems => decodeElems none decodeJob old elems
  | _ => none

/-- Storing a document into a `HitItem`; `null` leaves a struct as it is. -/
def decodeHitItem (old : HitItem) : JValue → Option HitItem
  | JValue.null => some old
  | JValue.object members =>
    members.foldlM (fun (item : HitItem) (kv : Bytes × JValue) =>
      if isField "_source" kv.1 then
        (decodeJob item.Source kv.2).map (fun j => ({ Source := j } : HitItem))
      else some item) old
  | _ => none

/-- Storing a document into a `[]HitItem`. -/
def decodeHitItems (old : List HitItem) : JValue → Option (List HitItem)
  | JValue.null => some []
  | JValue.array elems => decodeElems { Source := none } decodeHitItem old elems
  | _ => none

/-- Storing a document into a `Hits`. -/
def decodeHits (old : Hits) : JValue → Option Hits
  | JValue.null => some old
  | JValue.object members =>
    members.foldlM (fun (h : Hits) (kv : Bytes × JValue) =>
      if isField "hits" kv.1 then
        (decodeHitItems h.Hits kv.2).map (fun l => ({ Hits := l } : Hits))
      else some h) old
  | _ => none

/-- Storing a document into a `*Hits`: `null` makes the pointer nil, any
other document is stored into the struct pointed to (a new one if nil). -/
def decodeHitsPtr (old : Option Hits) : JValue → Option (Option Hits)
  | JValue.null => some none
  | v => (decodeHits (old.getD { Hits := [] }) v).map some

/-- Storing one member of the envelope object into its struct field; a key
that selects no field is passed over. -/
def storeField (r : JobsResponse) (kv : Bytes × JValue) : Option JobsResponse :=
  if isField "results" kv.1 then
    (decodeJobs r.Results kv.2).map (fun l => { r with Results := l })
  else if isField "jobs" kv.1 then
    (decodeJobs r.Jobs kv.2).map (fun l => { r with Jobs := l })
  else if isField "data" kv.1 then
    (decodeJobs r.Data kv.2).map (fun l => { r with Data := l })
  else if isField "items" kv.1 then
    (decodeJobs r.Items kv.2).map (fun l => { r with Items := l })
  else if isField "content" kv.1 then
    (decodeJobs r.Content kv.2).map (fun l => { r with Content := l })
  else if isField "hits" kv.1 then
    (decodeHitsPtr r.Hits kv.2).map (fun h => { r with Hits := h })
  else some r

/-- Storing a document into a `JobsResponse`. -/
def decodeJobsResponse (old : JobsResponse) : JValue → Option JobsResponse
  | JValue.null => some old
  | JValue.object members => members.foldlM storeField old
  | _ => none

/-- `var structured JobsResponse; json.Unmarshal(raw, &structured)`: the
struct when the error is nil, `none` for a syntax or a type error. -/
def unmarshalJobsResponse (raw : Bytes) : Option JobsResponse :=
  (parseJSON raw).bind
    (decodeJobsResponse
      { Results := [], Jobs := [], Data := [], Items := [], Content := [], Hits := none })

/-- `var directList []Job; json.Unmarshal(raw, &directList)`. -/
def unmarshalJobList (raw : Bytes) : Option (List Job) :=
  (parseJSON raw).bind (decodeJobs [])

/-! ## `client.go` -/

/-- The bytes that `extractJobs` parses: the base64 decoding of the body when
that succeeds, is not empty and begins with `{` or `[`, else the body. -/
def rawBody (body : Bytes) : Bytes :=
  match base64DecodeString body with
  | some decoded =>
    if decoded.length > 0 then
      if decoded.head? = some 123 ∨ decoded.head? = some 91 then decoded else body
    else body
  | none => body

/-- The first list of the given ones that is not empty. -/
def firstNonEmpty : List (List Job) → Option (List Job)
  | [] => none
  | list :: rest => if list.length > 0 then some list else firstNonEmpty rest

/-- The `_source` maps of the hits that have one. -/
def hitSources (hits : List HitItem) : List Job :=
  (hits.filter (fun hit => hit.Source.isSome)).map (fun hit => hit.Source)

/-- The part of `extractJobs` that reads the structured envelope: the
returned list, or `none` when control falls through to the bare list. -/
def fromEnvelope (raw : Bytes) : Option (List Job) :=
  match unmarshalJobsResponse raw with
  | none => none
  | some structured =>
    match firstNonEmpty [structured.Results, structured.Jobs, structured.Data,
        structured.Items, structured.Content] with
    | some list => some list
    | none =>
      match structured.Hits with
      | none => none
      | some hits =>
        if hits.Hits.length > 0 then
          if (hitSources hits.Hits).length > 0 then some (hitSources hits.Hits) else none
        else none

/-- The part of `extractJobs` after `raw` is chosen. -/
def extractFrom (raw body : Bytes) : Except Bytes (List Job) :=
  match fromEnvelope raw with
  | some list => Except.ok list
  | none =>
    match unmarshalJobList raw with
    | some directList =>
      if directList.length > 0 then Except.ok directList
      else Except.error (utf8 "could not extract jobs: "
        ++ (if body.length > 200 then body.take 200 else body))
    | none => Except.error (utf8 "could not extract jobs: "
        ++ (if body.length > 200 then body.take 200 else body))

/-- `func extractJobs(body string) ([]Job, error)`. -/
def extractJobs (body : Bytes) : Except Bytes (List Job) :=
  extractFrom (rawBody body) body

/-- The type assertion `j[name].(string)`. -/
def stringField (j : Job) (name : String) : Option Bytes :=
  match j with
  | none => none
  | some m =>
    match mapGet m (utf8 name) with
    | some (JValue.string s) => some s
    | _ => none

/-- `func jobID(j Job) string`. -/
def jobID (j : Job) : Bytes :=
  match stringField j "id" with
  | some (c :: cs) => c :: cs
  | _ =>
    match stringField j "objectID" with
    | some (c :: cs) => c :: cs
    | _ => []

/-- The records of a body as `collectJobs` and `drainNew` append them: none
when `extractJobs` returns an error. -/
def bodyJobs (body : Bytes) : List Job :=
  match extractJobs body with
  | Except.ok jobs => jobs
  | Except.error _ => []

/-- `func (nc *networkCapture) collectJobs() []Job`, on the captured bodies. -/
def collectJobs (bodies : List Bytes) : List Job :=
  bodies.foldl (fun all body => all ++ bodyJobs body) []

/-- `func (nc *networkCapture) drainNew(lastIndex *int) []Job`: the records of
the bodies from `lastIndex` on, and the new value of `lastIndex`. -/
def drainNew (bodies : List Bytes) (lastIndex : Nat) : List Job × Nat :=
  ((bodies.drop lastIndex).foldl (fun newJobs body => newJobs ++ bodyJobs body) [],
    bodies.length)

/-- The loop of `ScrapeAll` that stores drained records by identifier:
`id := jobID(j); if id != "" { allJobs[id] = j }`. -/
def mergeJobs (allJobs : GoMap Job) (jobs : List Job) : GoMap Job :=
  jobs.foldl (fun m j => if jobID j ≠ [] then mapSet m (jobID j) j else m) allJobs

/-- The variables of step 3 of `ScrapeAll`, with the capture buffer `bodies`
of `nc` and the number `scrolls` of passes of the scroll loop made so far. -/
structure ScrollState where
  bodies : List Bytes
  lastBodyIndex : Nat
  allJobs : GoMap Job
  emptyScrolls : Nat
  scrolls : Nat

/-- `maxScrolls` after `if maxScrolls <= 0 { maxScrolls = 200 }`. -/
def scrollBudget (maxScrolls : Int) : Nat :=
  if maxScrolls ≤ 0 then 200 else maxScrolls.toNat

/-- `newCount := len(allJobs) - prevCount` for a pass that starts with the
map `before` and ends with the map `after`. -/
def newCount (before after : GoMap Job) : Int :=
  (after.length : Int) - (before.length : Int)

/-- One pass of the body of the scroll loop, `arrived` being the bodies that
the listener appended to the buffer before this pass drains it: the state
after the pass, and whether the pass ends in `break`. -/
def scrollRound (arrived : List Bytes) (st : ScrollState) : ScrollState × Bool :=
  let bodies := st.bodies ++ arrived
  let drained := drainNew bodies st.lastBodyIndex
  let allJobs := mergeJobs st.allJobs drained.1
  if newCount st.allJobs allJobs = 0 then
    ({ bodies := bodies, lastBodyIndex := drained.2, allJobs := allJobs,
       emptyScrolls := st.emptyScrolls + 1, scrolls := st.scrolls + 1 },
      decide (st.emptyScrolls + 1 ≥ 3))
  else
    ({ bodies := bodies, lastBodyIndex := drained.2, allJobs := allJobs,
       emptyScrolls := 0, scrolls := st.scrolls + 1 }, false)

/-- `for scroll := ...; scroll <= maxScrolls; scroll++`, entered with
`remaining` values of `scroll` not above `maxScrolls` left; `arrivals k` are
the bodies captured for pass `k`. -/
def scrollLoop (arrivals : Nat → List Bytes) : Nat → Nat → ScrollState → ScrollState
  | 0, _, st => st
  | remaining + 1, scroll, st =>
    match scrollRound (arrivals scroll) st with
    | (st1, true) => st1
    | (st1, false) => scrollLoop arrivals remaining (scroll + 1) st1

/-- The state in which the scroll loop is entered: the initial page, drained
from the bodies `arrivals 0` captured before the first drain. -/
def firstPage (arrivals : Nat → List Bytes) : ScrollState :=
  let page0 := drainNew (arrivals 0) 0
  { bodies := arrivals 0, lastBodyIndex := page0.2, allJobs := mergeJobs [] page0.1,
    emptyScrolls := 0, scrolls := 0 }

/-- Step 3 of `ScrapeAll`: the initial page and the scroll loop from
`scroll := 1`. -/
def scrapePages (arrivals : Nat → List Bytes) (maxScrolls : Int) : ScrollState :=
  scrollLoop arrivals (scrollBudget maxScrolls) 1 (firstPage arrivals)

/-- The state after the initial page and `k` passes of the loop body, none of
which is taken to end the loop. -/
def pagesAfter (arrivals : Nat → List Bytes) : Nat → ScrollState
  | 0 => firstPage arrivals
  | k + 1 => (scrollRound (arrivals (k + 1)) (pagesAfter arrivals k)).1


/-! ## `client.go`: the capture buffer and the two scrape operations -/

/-- `type networkCapture struct`, without its mutexes and its page:
`pendingRequests` maps a request identifier to its URL, `gotResult` counts
the signals waiting in the channel. -/
structure networkCapture where
  pendingRequests : GoMap Bytes
  bodies : List Bytes
  gotResult : Nat

/-- `func newNetworkCapture(page *rod.Page) *networkCapture`. -/
def newNetworkCapture : networkCapture :=
  { pendingRequests := [], bodies := [], gotResult := 0 }

/-- The bodies that `drainNew` reads: those from `lastIndex` on. -/
def drainRange (bodies : List Bytes) (lastIndex : Nat) : List Bytes :=
  bodies.drop lastIndex

/-- What happens to a capture buffer and its cursor between and at the
drains: the listener appends a body, or the controller drains. -/
inductive BufferEvent where
  | append (body : Bytes)
  | drain

/-- A capture buffer with the cursor held by its reader, and for every drain
made so far the bodies that it read and the records that it returned. -/
structure Drained where
  bodies : List Bytes
  lastIndex : Nat
  read : List (List Bytes)
  returned : List (List Job)

/-- The effect of one event. -/
def bufferStep (s : Drained) : BufferEvent → Drained
  | BufferEvent.append body => { s with bodies := s.bodies ++ [body] }
  | BufferEvent.drain =>
    { bodies := s.bodies, lastIndex := (drainNew s.bodies s.lastIndex).2,
      read := s.read ++ [drainRange s.bodies s.lastIndex],
      returned := s.returned ++ [(drainNew s.bodies s.lastIndex).1] }

/-- The effect of a sequence of events on a new buffer read from cursor 0. -/
def bufferRun (events : List BufferEvent) : Drained :=
  events.foldl bufferStep { bodies := [], lastIndex := 0, read := [], returned := [] }

/-- `type HiringCafeClient struct`: besides the browser and its page, the
`ready` flag. -/
structure HiringCafeClient where
  ready : Bool

/-- `type ScrapeResult struct`. -/
structure ScrapeResult where
  Query : Bytes
  Total : Int
  Scraped : Int
  Jobs : List Job

/-- The steps that a scrape operation takes on the browser, in order: the
creation of a capture buffer with its listener (`newNetworkCapture` and
`start`), the two search actions, a wait for a capture signal with its bound
in seconds, and a scroll to the bottom of the page. -/
inductive Step where
  | capture (nc : networkCapture)
  | performSearch (query : Bytes)
  | clearSearchAndBrowse
  | waitForResult (seconds : Nat)
  | scrollToBottom

/-- What the browser does during one scrape operation: the error of the
search action if it fails, whether a capture signal arrives within the wait
for the first page, the bodies captured for the initial page and for every
pass of the scroll loop, and the order in which `range` visits a map. -/
structure Session where
  inputError : Option Bytes
  firstResult : Bool
  arrivals : Nat → List Bytes
  rangeOrder : GoMap Job → GoMap Job

/-- What a scrape operation returns and does: its result or error, the
client after it, and its steps on the browser. -/
structure Outcome where
  result : Except Bytes ScrapeResult
  client : HiringCafeClient
  steps : List Step

/-- `func (c *HiringCafeClient) SearchJobs(query string) (*ScrapeResult, error)`. -/
def SearchJobs (c : HiringCafeClient) (env : Session) (query : Bytes) : Outcome :=
  if c.ready = false then
    { result := Except.error (utf8 "client not initialized"), client := c, steps := [] }
  else
    match env.inputError with
    | some err =>
      { result := Except.error err, client := c,
        steps := [Step.capture newNetworkCapture, Step.performSearch query] }
    | none =>
      if env.firstResult = false then
        { result := Except.error (utf8 "timeout (45s)"), client := c,
          steps := [Step.capture newNetworkCapture, Step.performSearch query,
            Step.waitForResult 45] }
      else
        let jobs := collectJobs (newNetworkCapture.bodies ++ env.arrivals 0)
        { result := Except.ok
            { Query := query, Total := 0, Scraped := jobs.length, Jobs := jobs },
          client := c,
          steps := [Step.capture newNetworkCapture, Step.performSearch query,
            Step.waitForResult 45] }

/-- `func (c *HiringCafeClient) ScrapeAll(query string, maxScrolls int)
(*ScrapeResult, error)`. -/
def ScrapeAll (c : HiringCafeClient) (env : Session) (query : Bytes) (maxScrolls : Int) :
    Outcome :=
  if c.ready = false then
    { result := Except.error (utf8 "client not initialized"), client := c, steps := [] }
  else
    let search := if query ≠ [] then Step.performSearch query else Step.clearSearchAndBrowse
    match env.inputError with
    | some err =>
      { result := Except.error err, client := c,
        steps := [Step.capture newNetworkCapture, search] }
    | none =>
      if env.firstResult = false then
        { result := Except.error (utf8 "timeout waiting for first page"), client := c,
          steps := [Step.capture newNetworkCapture, search, Step.waitForResult 45] }
      else
        let st := scrapePages env.arrivals maxScrolls
        let jobs := (env.rangeOrder st.allJobs).map Prod.snd
        { result := Except.ok
            { Query := query, Total := 0, Scraped := jobs.length, Jobs := jobs },
          client := c,
          steps := [Step.capture newNetworkCapture, search, Step.waitForResult 45]
            ++ (List.replicate st.scrolls [Step.scrollToBottom, Step.waitForResult 8]).flatten }

/-! ## `client.go`: the run-time checks of `extractJobs` -/

/-- The slice expression `s[:n]`; `none` is the run-time panic for a bound out
of range. -/
def slicePrefix (s : Bytes) (n : Nat) : Option Bytes :=
  if n ≤ s.length then some (s.take n) else none

/-- The choice of `raw` with the index expression `decoded[0]` made partial:
`none` is the run-time panic for an index out of range. -/
def rawBodyChecked (body : Bytes) : Option Bytes :=
  match base64DecodeString body with
  | some decoded =>
    if decoded.length > 0 then
      match decoded[0]? with
      | none => none
      | some first => if first = 123 ∨ first = 91 then some decoded else some body
    else some body
  | none => some body

/-- The reading of the envelope with the dereference of `structured.Hits`
made partial: the outer `none` is the run-time panic for a nil pointer. -/
def fromEnvelopeChecked (raw : Bytes) : Option (Option (List Job)) :=
  match unmarshalJobsResponse raw with
  | none => some none
  | some structured =>
    match firstNonEmpty [structured.Results, structured.Jobs, structured.Data,
        structured.Items, structured.Content] with
    | some list => some (some list)
    | none =>
      if structured.Hits.isSome then
        match structured.Hits with
        | none => none
        | some hits =>
          if hits.Hits.length > 0 then
            if (hitSources hits.Hits).length > 0 then some (some (hitSources hits.Hits))
            else some none
          else some none
      else some none

/-- `extractJobs` with its index expression, its slice expression and its
pointer dereference made partial: `none` is a run-time panic. -/
def extractJobsChecked (body : Bytes) : Option (Except Bytes (List Job)) :=
  match rawBodyChecked body with
  | none => none
  | some raw =>
    match fromEnvelopeChecked raw with
    | none => none
    | some (some list) => some (Except.ok list)
    | some none =>
      match unmarshalJobList raw with
      | some (j :: rest) => some (Except.ok (j :: rest))
      | _ =>
        match (if body.length > 200 then slicePrefix body 200 else some body) with
        | none => none
        | some preview => some (Except.error (utf8 "could not extract jobs: " ++ preview))

/-! ## `server.go`: the result cache -/

/-- `type CacheEntry struct`; `CachedAt` in nanoseconds. -/
structure CacheEntry where
  Result : ScrapeResult
  CachedAt : Int

/-- `type Server struct`, without its mutexes; `cacheTTL` in nanoseconds. -/
structure Server where
  client : HiringCafeClient
  cache : GoMap CacheEntry
  cacheTTL : Int

/-- `time.Minute`, in nanoseconds. -/
def minute : Int := 60 * 1000000000

/-- `func NewServer() *Server`. -/
def NewServer : Server :=
  { client := { ready := false }, cache := [], cacheTTL := 15 * minute }

/-- What `doSearch` returns and does: its result or error, the server after
it, and the call of `SearchJobs` if it made one. -/
structure Searched where
  result : Except Bytes ScrapeResult
  server : Server
  scrape : Option Outcome

/-- The part of `doSearch` after the cache check: the scrape, and the update
of the cache at the time `stored`. -/
def scrapeAndStore (s : Server) (env : Session) (stored : Int) (query : Bytes) : Searched :=
  let call := SearchJobs s.client env query
  match call.result with
  | Except.error err =>
    { result := Except.error err, server := { s with client := call.client },
      scrape := some call }
  | Except.ok result =>
    { result := Except.ok result,
      server := { s with client := call.client,
                         cache := mapSet s.cache query { Result := result, CachedAt := stored } },
      scrape := some call }

/-- `func (s *Server) doSearch(query string) (*ScrapeResult, error)`, called
at the time `now`; `time.Since(entry.CachedAt)` is `now - entry.CachedAt`, and
`stored` is the later time at which a result is put into the cache. -/
def doSearch (s : Server) (env : Session) (now stored : Int) (query : Bytes) : Searched :=
  match mapGet s.cache query with
  | some entry =>
    if now - entry.CachedAt < s.cacheTTL then
      { result := Except.ok entry.Result, server := s, scrape := none }
    else scrapeAndStore s env stored query
  | none => scrapeAndStore s env stored query

/-! ## `convex.go`: the batches of a sync -/

/-- `type ConvexJob struct`; a `float64` read from a record is the token of
its number. -/
structure ConvexJob where
  ExternalID : Bytes
  Title : Bytes
  Company : Bytes
  ApplyURL : Bytes
  Source : Bytes
  Location : Bytes
  WorkplaceType : Bytes
  Countries : List Bytes
  SeniorityLevel : Option Bytes
  Commitment : List Bytes
  Category : Option Bytes
  RoleType : Option Bytes
  MinYoe : Option Bytes
  Skills : List Bytes
  Requirements : Option Bytes
  Description : Option Bytes
  SalaryMin : Option Bytes
  SalaryMax : Option Bytes
  SalaryCurrency : Option Bytes
  SalaryFrequency : Option Bytes
  IsCompensationTransparent : Bool
  CompanyLogo : Option Bytes
  CompanyWebsite : Option Bytes
  CompanyLinkedin : Option Bytes
  CompanyIndustry : Option Bytes
  CompanySize : Option Bytes
  CompanyTagline : Option Bytes
  PublishedAt : Option Bytes
  ScrapedAt : Int
  IsExpired : Bool
  deriving DecidableEq

/-- `func getFloat(m map[string]any, key string) float64`: the token of the
number under the key, `none` for the result 0 of a key that is absent or
holds no number. -/
def getFloat (m : GoMap JValue) (key : String) : Option Bytes :=
  match mapGet m (utf8 key) with
  | some (JValue.number token) => some token
  | _ => none

/-- The conversion `int(getFloat(r, key))`, given the integer `toInt token`
that the conversion of the `float64` of a token yields. -/
def intFloat (toInt : Bytes → Int) (r : GoMap JValue) (key : String) : Int :=
  match getFloat r key with
  | some token => toInt token
  | none => 0

/-- The decimal digits of an integer, as `%d` prints them. -/
def decimal (n : Nat) : Bytes :=
  utf8 (toString n)

/-- `const batchSize = 50`. -/
def batchSize : Nat := 50

/-- What `PushToConvex` returns and does: its error (`none` for nil), the
path and the `jobs` argument of every call of `callMutation` in order, and
the three totals that it logs. -/
structure Pushed where
  err : Option Bytes
  calls : List (Bytes × List ConvexJob)
  totalInserted : Int
  totalUpdated : Int
  totalSkipped : Int

/-- The loop `for i := 0; i < total; i += batchSize` from a value of `i` on;
`fuel` bounds the number of passes.  `callMutation k path batch` is the value
or the error that the `k`-th call (from 0) returns. -/
def pushBatches (toInt : Bytes → Int)
    (callMutation : Nat → Bytes → List ConvexJob → Except Bytes JValue)
    (jobs : List ConvexJob) : Nat → Nat → Pushed → Pushed
  | 0, _, acc => acc
  | fuel + 1, i, acc =>
    if i < jobs.length then
      let last := if i + batchSize > jobs.length then jobs.length else i + batchSize
      let batch := (jobs.take last).drop i
      let calls := acc.calls ++ [(utf8 "jobs:bulkUpsert", batch)]
      match callMutation acc.calls.length (utf8 "jobs:bulkUpsert") batch with
      | Except.error err =>
        { acc with
          err := some (utf8 "batch " ++ decimal (i + 1) ++ utf8 "-" ++ decimal last
            ++ utf8 " failed: " ++ err),
          calls := calls }
      | Except.ok (JValue.object r) =>
        pushBatches toInt callMutation jobs fuel (i + batchSize)
          { err := none, calls := calls,
            totalInserted := acc.totalInserted + intFloat toInt r "inserted",
            totalUpdated := acc.totalUpdated + intFloat toInt r "updated",
            totalSkipped := acc.totalSkipped + intFloat toInt r "skipped" }
      | Except.ok _ =>
        pushBatches toInt callMutation jobs fuel (i + batchSize) { acc with calls := calls }
    else acc

/-- `func (c *ConvexClient) PushToConvex(jobs []ConvexJob) error`.  A pass of
the loop adds 50 to `i`, so the loop makes no more passes than there are
jobs. -/
def PushToConvex (toInt : Bytes → Int)
    (callMutation : Nat → Bytes → List ConvexJob → Except Bytes JValue)
    (jobs : List ConvexJob) : Pushed :=
  pushBatches toInt callMutation jobs jobs.length 0
    { err := none, calls := [], totalInserted := 0, totalUpdated := 0, totalSkipped := 0 }

/-- The value of `ins`, `upd` or `skip` in a pass of the loop of
`PushToConvex`, by the key `inserted`, `updated` or `skipped`: the count that
the result of the call reports, and 0, which the totals keep, for a result
that is no `map[string]any`. -/
def reportedCount (toInt : Bytes → Int) (key : String) : Except Bytes JValue → Int
  | Except.ok (JValue.object r) => intFloat toInt r key
  | _ => 0

/-! ## `convex.go`: the job sent to the deployment -/

/-- The lookup `m[key]` in a `map[string]any` that may be nil. -/
def anyField (m : Job) (key : String) : Option JValue :=
  match m with
  | none => none
  | some entries => mapGet entries (utf8 key)

/-- The type assertion `m[key].(map[string]any)`. -/
def mapField (m : Job) (key : String) : Option (GoMap JValue) :=
  match anyField m key with
  | some (JValue.object entries) => some entries
  | _ => none

/-- `func getString(m map[string]any, key string) string`. -/
def getString (m : Job) (key : String) : Bytes :=
  match anyField m key with
  | some (JValue.string v) => v
  | _ => []

/-- `func getStringM(m map[string]any, key string) string`. -/
def getStringM (m : Job) (key : String) : Bytes :=
  match anyField m key with
  | some (JValue.string v) => v
  | _ => []

/-- `func getBool(m map[string]any, key string) bool`. -/
def getBool (m : Job) (key : String) : Bool :=
  match anyField m key with
  | some (JValue.bool v) => v
  | _ => false

/-- `func getBoolM(m map[string]any, key string) bool`. -/
def getBoolM (m : Job) (key : String) : Bool :=
  match anyField m key with
  | some (JValue.bool v) => v
  | _ => false

/-- `func strPtr(s string) *string`; `none` is nil. -/
def strPtr (s : Bytes) : Option Bytes :=
  if s = [] then none else some s

/-- `func strPtrM(m map[string]any, key string) *string`. -/
def strPtrM (m : Job) (key : String) : Option Bytes :=
  match anyField m key with
  | some (JValue.string v) => if v ≠ [] then some v else none
  | _ => none

/-- `func floatPtrM(m map[string]any, key string) *float64`, the number as its
token. -/
def floatPtrM (m : Job) (key : String) : Option Bytes :=
  match anyField m key with
  | some (JValue.number v) => some v
  | _ => none

/-- The strings among the elements of a `[]any`, in order. -/
def stringItems : List JValue → List Bytes
  | [] => []
  | JValue.string s :: rest => s :: stringItems rest
  | _ :: rest => stringItems rest

/-- `func getStringArrayM(m map[string]any, key string) []string`. -/
def getStringArrayM (m : Job) (key : String) : List Bytes :=
  match anyField m key with
  | some (JValue.array arr) => stringItems arr
  | _ => []

/-- The composite literal with which `TransformJob` begins; `now` is
`time.Now().UnixMilli()`. -/
def initialJob (now : Int) (raw : Job) : ConvexJob :=
  { ExternalID := getString raw "id", Title := [], Company := [],
    ApplyURL := getString raw "apply_url", Source := getString raw "source",
    Location := [], WorkplaceType := [], Countries := [], SeniorityLevel := none,
    Commitment := [], Category := none, RoleType := none, MinYoe := none, Skills := [],
    Requirements := none, Description := none, SalaryMin := none, SalaryMax := none,
    SalaryCurrency := none, SalaryFrequency := none, IsCompensationTransparent := false,
    CompanyLogo := none, CompanyWebsite := none, CompanyLinkedin := none,
    CompanyIndustry := none, CompanySize := none, CompanyTagline := none,
    PublishedAt := none, ScrapedAt := now, IsExpired := getBool raw "is_expired" }

/-- The section `// Job info` of `TransformJob`. -/
def jobInfo (raw : Job) (j : ConvexJob) : ConvexJob :=
  match mapField raw "job_information" with
  | some info =>
    let desc := getStringM (some info) "description"
    let desc := if desc.length > 10000 then desc.take 10000 else desc
    { j with Title := getStringM (some info) "title", Description := strPtr desc }
  | none => j

/-- The section `// Processed job data` of `TransformJob`. -/
def processedJobData (raw : Job) (j : ConvexJob) : ConvexJob :=
  match mapField raw "v5_processed_job_data" with
  | some pjd =>
    { j with
      Title := if j.Title = [] then getStringM (some pjd) "core_job_title" else j.Title,
      Company := getStringM (some pjd) "company_name",
      Location := getStringM (some pjd) "formatted_workplace_location",
      WorkplaceType := getStringM (some pjd) "workplace_type",
      SeniorityLevel := strPtrM (some pjd) "seniority_level",
      Category := strPtrM (some pjd) "job_category",
      RoleType := strPtrM (some pjd) "role_type",
      Requirements := strPtrM (some pjd) "requirements_summary",
      SalaryCurrency := strPtrM (some pjd) "listed_compensation_currency",
      SalaryFrequency := strPtrM (some pjd) "listed_compensation_frequency",
      IsCompensationTransparent := getBoolM (some pjd) "is_compensation_transparent",
      Countries := getStringArrayM (some pjd) "workplace_countries",
      Commitment := getStringArrayM (some pjd) "commitment",
      Skills := getStringArrayM (some pjd) "technical_tools",
      MinYoe := floatPtrM (some pjd) "min_industry_and_role_yoe",
      SalaryMin := floatPtrM (some pjd) "yearly_min_compensation",
      SalaryMax := floatPtrM (some pjd) "yearly_max_compensation",
      PublishedAt := floatPtrM (some pjd) "estimated_publish_date_millis",
      CompanyIndustry := strPtrM (some pjd) "company_sector_and_industry",
      CompanyTagline := strPtrM (some pjd) "company_tagline" }
  | none => j

/-- The section `// Processed company data` of `TransformJob`. -/
def processedCompanyData (raw : Job) (j : ConvexJob) : ConvexJob :=
  match mapField raw "v5_processed_company_data" with
  | some pcd =>
    { j with
      Company := if j.Company = [] then getStringM (some pcd) "name" else j.Company,
      CompanyLogo := strPtrM (some pcd) "image_url",
      CompanyWebsite := strPtrM (some pcd) "website",
      CompanyLinkedin := strPtrM (some pcd) "linkedin_url",
      CompanySize := floatPtrM (some pcd) "num_employees",
      CompanyIndustry :=
        if j.CompanyIndustry = none then
          match getStringArrayM (some pcd) "industries" with
          | first :: _ => some first
          | [] => j.CompanyIndustry
        else j.CompanyIndustry,
      CompanyTagline :=
        if j.CompanyTagline = none then strPtrM (some pcd) "tagline" else j.CompanyTagline }
  | none => j

/-- The section `// Defaults` of `TransformJob`. -/
def jobDefaults (j : ConvexJob) : ConvexJob :=
  { j with
    Title := if j.Title = [] then utf8 "Untitled" else j.Title,
    Company := if j.Company = [] then utf8 "Unknown" else j.Company,
    WorkplaceType := if j.WorkplaceType = [] then utf8 "Unknown" else j.WorkplaceType }

/-- `func TransformJob(raw Job) ConvexJob`, at the time `now` in milliseconds. -/
def TransformJob (now : Int) (raw : Job) : ConvexJob :=
  jobDefaults (processedCompanyData raw (processedJobData raw (jobInfo raw (initialJob now raw))))

/-! ## `main.go`: the identifier under which `runSync` keeps a record -/

/-- The key `id` of the loops of `runSync` over `result.Jobs`: `getString(job,
"id")`, and `getString(job, "objectID")` when that is empty. -/
def syncKey (job : Job) : Bytes :=
  if getString job "id" = [] then getString job "objectID" else getString job "id"

/-- The loop `for _, job := range result.Jobs` of `runSync`: every record with
a key is stored under it. -/
def syncMerge (allJobs : GoMap Job) (jobs : List Job) : GoMap Job :=
  jobs.foldl (fun m job => if syncKey job ≠ [] then mapSet m (syncKey job) job else m) allJobs

/-! ## `client.go`: the listener of the capture buffer -/

/-- `strings.Contains`. -/
def Contains (s substr : Bytes) : Bool :=
  s.tails.any (fun t => substr.isPrefixOf t)

/-- The statement `delete(m, k)`. -/
def mapDelete {V : Type} (m : GoMap V) (k : Bytes) : GoMap V :=
  m.filter (fun entry => entry.1 ≠ k)

/-- The fields of `proto.NetworkResponse` that the listener reads. -/
structure NetworkResponse where
  URL : Bytes
  Status : Int

/-- The fields of `proto.NetworkResponseReceived` that the listener reads. -/
structure NetworkResponseReceived where
  RequestID : Bytes
  Response : NetworkResponse

/-- The field of `proto.NetworkLoadingFinished` that the listener reads. -/
structure NetworkLoadingFinished where
  RequestID : Bytes

/-- `proto.NetworkGetResponseBodyResult`. -/
structure NetworkGetResponseBodyResult where
  Body : Bytes
  Base64Encoded : Bool

/-- The condition under which the first callback of `start` records a
response. -/
def isSearchResponse (r : NetworkResponse) : Bool :=
  Contains r.URL (utf8 "/api/search-jobs") &&
    !Contains r.URL (utf8 "get-total-count") &&
    r.Status == 200

/-- The first callback that `start` passes to `EachEvent`. -/
def onResponseReceived (nc : networkCapture) (e : NetworkResponseReceived) : networkCapture :=
  if isSearchResponse e.Response then
    { nc with pendingRequests := mapSet nc.pendingRequests e.RequestID e.Response.URL }
  else nc

/-- The string that the second callback appends for a fetched body. -/
def bodyString (bodyResult : NetworkGetResponseBodyResult) : Bytes :=
  if bodyResult.Base64Encoded then
    match base64DecodeString bodyResult.Body with
    | some decoded => decoded
    | none => bodyResult.Body
  else bodyResult.Body

/-- The second callback that `start` passes to `EachEvent`; `fetch` is what
the call of `proto.NetworkGetResponseBody` returns when the callback makes
it.  The send on `gotResult`, a channel of capacity 100, is dropped when the
channel is full. -/
def onLoadingFinished (nc : networkCapture) (e : NetworkLoadingFinished)
    (fetch : Except Bytes NetworkGetResponseBodyResult) : networkCapture :=
  let found := mapGet nc.pendingRequests e.RequestID
  let nc1 := { nc with pendingRequests := mapDelete nc.pendingRequests e.RequestID }
  match found with
  | none => nc1
  | some _ =>
    match fetch with
    | Except.error _ => nc1
    | Except.ok bodyResult =>
      { nc1 with
        bodies := nc1.bodies ++ [bodyString bodyResult],
        gotResult := if nc1.gotResult < 100 then nc1.gotResult + 1 else nc1.gotResult }

/-- The network events of the page as far as a request goes through them:
its response is received, its loading finishes, or its loading fails
(`proto.NetworkLoadingFailed`), which is how the browser reports a request
that is abandoned. -/
inductive NetworkEvent where
  | responseReceived (e : NetworkResponseReceived)
  | loadingFinished (e : NetworkLoadingFinished)
      (fetch : Except Bytes NetworkGetResponseBodyResult)
  | loadingFailed (requestID : Bytes)

/-- What the listener started by `start` does at an event: `EachEvent` calls
the callback whose argument type is the type of the event, and `start` passes
it two callbacks. -/
def listen (nc : networkCapture) : NetworkEvent → networkCapture
  | NetworkEvent.responseReceived e => onResponseReceived nc e
  | NetworkEvent.loadingFinished e fetch => onLoadingFinished nc e fetch
  | NetworkEvent.loadingFailed _ => nc

/-- The capture buffer after a sequence of events. -/
def listenAll (nc : networkCapture) (events : List NetworkEvent) : networkCapture :=
  events.foldl listen nc

/-- Whether a callback of the listener assigns or deletes the table entry of
the request `id` at the event. -/
def touches (id : Bytes) : NetworkEvent → Bool
  | NetworkEvent.responseReceived e => e.RequestID = id && isSearchResponse e.Response
  | NetworkEvent.loadingFinished e _ => e.RequestID = id
  | NetworkEvent.loadingFailed _ => false

/-- The request that an event is about. -/
def requestOf : NetworkEvent → Bytes
  | NetworkEvent.responseReceived e => e.RequestID
  | NetworkEvent.loadingFinished e _ => e.RequestID
  | NetworkEvent.loadingFailed requestID => requestID

/-- Following the words of the specification: a request is in flight from the
event at which its response headers are received until its loading has
finished or it is abandoned.  After a sequence of events the request `id` is
in flight when the last event about it is a response received. -/
def inFlight (events : List NetworkEvent) (id : Bytes) : Bool :=
  match (events.filter (fun ev => requestOf ev = id)).getLast? with
  | some (NetworkEvent.responseReceived _) => true
  | _ => false

/-! ## `client.go`: the challenge loop of `Init` -/

/-- The lower-case form of the rest of a title, `drop` bytes of which belong
to a letter already written. -/
def lowerFrom : Nat → Bytes → Bytes
  | _, [] => []
  | drop + 1, _ :: rest => lowerFrom drop rest
  | 0, c :: rest =>
    if 65 ≤ c ∧ c ≤ 90 then (c + 32) :: lowerFrom 0 rest
    else if c = 196 ∧ rest.take 1 = [176] then 105 :: lowerFrom 1 rest
    else if c = 226 ∧ rest.take 2 = [132, 170] then 107 :: lowerFrom 2 rest
    else c :: lowerFrom 0 rest

/-- `strings.ToLower`, as far as the ASCII letters of its result go: the ASCII
letters in lower case, and the two letters outside ASCII whose lower case is
an ASCII letter (U+0130, U+212A) as that letter.  Every other letter outside
ASCII is left as it is: its lower case is outside ASCII too, so it is part of
no occurrence of a word of ASCII letters. -/
def ToLower (s : Bytes) : Bytes :=
  lowerFrom 0 s

/-- The condition under which the loop of `Init` takes a title as that of the
page behind the challenge. -/
def titleSolved (t : Bytes) : Bool :=
  !Contains (ToLower t) (utf8 "vercel") &&
    !Contains (ToLower t) (utf8 "security") &&
    !Contains (ToLower t) (utf8 "checkpoint") &&
    t ≠ []

/-- What the browser does during `Init`: the error of `page.Navigate` (`none`
for nil) and, for every pass `i` of the loop, what `page.Eval` returns for the
title. -/
structure Launch where
  navigate : Option Bytes
  titles : Nat → Except Bytes Bytes

/-- The loop `for i := 0; i < 30; i++` of `Init` from a value of `i` on, with
`left` the number of values of `i` still to come: the number of titles read
and the value of `solved` after the loop. -/
def pollTitles (titles : Nat → Except Bytes Bytes) : Nat → Nat → Nat × Bool
  | 0, i => (i, false)
  | left + 1, i =>
    match titles i with
    | Except.ok t => if titleSolved t then (i + 1, true) else pollTitles titles left (i + 1)
    | Except.error _ => pollTitles titles left (i + 1)

/-- What `Init` returns and does: its error (`none` for nil), the client after
it, and the number of titles read. -/
structure Started where
  err : Option Bytes
  client : HiringCafeClient
  polls : Nat

/-- `func NewHiringCafeClient() *HiringCafeClient`. -/
def NewHiringCafeClient : HiringCafeClient :=
  { ready := false }

/-- `func (c *HiringCafeClient) Init() error`, for a browser that launches. -/
def Init (c : HiringCafeClient) (env : Launch) : Started :=
  match env.navigate with
  | some err => { err := some (utf8 "navigate: " ++ err), client := c, polls := 0 }
  | none =>
    let loop := pollTitles env.titles 30 0
    if !loop.2 then
      { err := some (utf8 "vercel challenge not solved within 30s"), client := c,
        polls := loop.1 }
    else { err := none, client := { c with ready := true }, polls := loop.1 }

/-! ## `server.go`: the search endpoint -/

/-- `type SearchRequest struct`. -/
structure SearchRequest where
  Query : Bytes
  Location : Bytes
  LocationCountry : Bytes
  WorkplaceTypes : List Bytes
  CommitmentTypes : List Bytes
  SeniorityLevels : List Bytes
  MaxPages : Int
  PageSize : Int
  DatePastDays : Int

/-- Storing a document into a `string`: `null` leaves it as it is, anything
but a string is a type error. -/
def decodeString (old : Bytes) : JValue → Option Bytes
  | JValue.null => some old
  | JValue.string s => some s
  | _ => none

/-- Storing a document into a `[]string`. -/
def decodeStrings (old : List Bytes) : JValue → Option (List Bytes)
  | JValue.null => some []
  | JValue.array elems => decodeElems [] decodeString old elems
  | _ => none

/-- `strconv.ParseInt(token, 10, 64)` on the token of a JSON number: an
optional minus sign and digits, within the range of `int64`. -/
def parseInt (token : Bytes) : Option Int :=
  match token with
  | 45 :: digits =>
    if digits ≠ [] ∧ digits.all isDigit = true ∧ digitsValue digits ≤ 2 ^ 63 then
      some (-(digitsValue digits : Int))
    else none
  | digits =>
    if digits ≠ [] ∧ digits.all isDigit = true ∧ digitsValue digits < 2 ^ 63 then
      some (digitsValue digits : Int)
    else none

/-- Storing a document into an `int`. -/
def decodeInt (old : Int) : JValue → Option Int
  | JValue.null => some old
  | JValue.number token => parseInt token
  | _ => none

/-- Storing one member of the request object into its struct field. -/
def storeSearchField (r : SearchRequest) (kv : Bytes × JValue) : Option SearchRequest :=
  if isField "query" kv.1 then
    (decodeString r.Query kv.2).map (fun v => { r with Query := v })
  else if isField "location" kv.1 then
    (decodeString r.Location kv.2).map (fun v => { r with Location := v })
  else if isField "location_country" kv.1 then
    (decodeString r.LocationCountry kv.2).map (fun v => { r with LocationCountry := v })
  else if isField "workplace_types" kv.1 then
    (decodeStrings r.WorkplaceTypes kv.2).map (fun v => { r with WorkplaceTypes := v })
  else if isField "commitment_types" kv.1 then
    (decodeStrings r.CommitmentTypes kv.2).map (fun v => { r with CommitmentTypes := v })
  else if isField "seniority_levels" kv.1 then
    (decodeStrings r.SeniorityLevels kv.2).map (fun v => { r with SeniorityLevels := v })
  else if isField "max_pages" kv.1 then
    (decodeInt r.MaxPages kv.2).map (fun v => { r with MaxPages := v })
  else if isField "page_size" kv.1 then
    (decodeInt r.PageSize kv.2).map (fun v => { r with PageSize := v })
  else if isField "date_past_days" kv.1 then
    (decodeInt r.DatePastDays kv.2).map (fun v => { r with DatePastDays := v })
  else some r

/-- Storing a document into a `SearchRequest`. -/
def decodeSearchRequest (old : SearchRequest) : JValue → Option SearchRequest
  | JValue.null => some old
  | JValue.object members => members.foldlM storeSearchField old
  | _ => none

/-- The value that `(*json.Decoder).Decode` reads from the start of a stream:
an object or an array ends with its closing bracket, whatever follows it; any
other value must be followed by white space or by the end of the stream. -/
def decoderValue (body : Bytes) : Option JValue :=
  match parseValue (2 * body.length + 2) 0 body with
  | none => none
  | some (JValue.object members, _) => some (JValue.object members)
  | some (JValue.array elems, _) => some (JValue.array elems)
  | some (v, []) => some v
  | some (v, c :: _) => if isSpace c then some v else none

/-- `var req SearchRequest; json.NewDecoder(r.Body).Decode(&req)`: the struct
when the error is nil. -/
def decodeBody (body : Bytes) : Option SearchRequest :=
  (decoderValue body).bind
    (decodeSearchRequest
      { Query := [], Location := [], LocationCountry := [], WorkplaceTypes := [],
        CommitmentTypes := [], SeniorityLevels := [], MaxPages := 0, PageSize := 0,
        DatePastDays := 0 })

/-- `type ErrorResponse struct`. -/
structure ErrorResponse where
  Error : Bytes
  Message : Bytes

/-- What a handler writes as the body of its response. -/
inductive Payload where
  | failure (e : ErrorResponse)
  | result (r : ScrapeResult)

/-- The status and the body that a handler writes. -/
structure Response where
  status : Nat
  data : Payload

/-- `http.StatusText` for the codes that `handleSearch` passes to it. -/
def StatusText (code : Nat) : Bytes :=
  if code = 400 then utf8 "Bad Request"
  else if code = 405 then utf8 "Method Not Allowed"
  else if code = 500 then utf8 "Internal Server Error"
  else []

/-- `func httpError(w http.ResponseWriter, status int, msg string)`. -/
def httpError (status : Nat) (msg : Bytes) : Response :=
  { status := status, data := Payload.failure { Error := StatusText status, Message := msg } }

/-- What `handleSearch` reads of a request: the method, the first value of the
parameter `q` of the URL (`none` when there is none) and the body. -/
structure Request where
  Method : Bytes
  q : Option Bytes
  Body : Bytes

/-- What `handleSearch` writes and does: the response, the server after it,
and the call of `doSearch` if it made one. -/
structure Handled where
  response : Response
  server : Server
  searched : Option Searched

/-- The part of `handleSearch` after the `switch`. -/
def searchQuery (s : Server) (env : Session) (now stored : Int) (query : Bytes) : Handled :=
  if query = [] then
    { response := httpError 400
        (utf8 "query is required (GET: ?q=..., POST: \x7b\"query\":\"...\"\x7d)"),
      server := s, searched := none }
  else
    let d := doSearch s env now stored query
    match d.result with
    | Except.error err =>
      { response := httpError 500 (utf8 "Scraping failed: " ++ err), server := d.server,
        searched := some d }
    | Except.ok result =>
      { response := { status := 200, data := Payload.result result }, server := d.server,
        searched := some d }

/-- `func (s *Server) handleSearch(w http.ResponseWriter, r *http.Request)`;
`jsonError body` is the text of the error that the decoder returns for a body
that it does not accept. -/
def handleSearch (s : Server) (env : Session) (now stored : Int) (jsonError : Bytes → Bytes)
    (r : Request) : Handled :=
  if r.Method = utf8 "GET" then searchQuery s env now stored (r.q.getD [])
  else if r.Method = utf8 "POST" then
    match decodeBody r.Body with
    | none =>
      { response := httpError 400 (utf8 "Invalid JSON: " ++ jsonError r.Body), server := s,
        searched := none }
    | some req => searchQuery s env now stored req.Query
  else { response := httpError 405 (utf8 "Use GET or POST"), server := s, searched := none }

/-! ## `server.go`: callers of `doSearch` that run at the same time -/

/-- Where a caller of `doSearch` stands: before the check of the cache, at
`s.mu.Lock()`, holding the lock before the call of `SearchJobs`, inside the
call of `SearchJobs`, holding the lock with the result before the update of
the cache, or returned. -/
inductive Phase where
  | check
  | lock
  | locked
  | scraping
  | store (result : ScrapeResult)
  | returned (result : Except Bytes ScrapeResult)

/-- A caller of `doSearch`: its query, what the browser does in its call of
`SearchJobs`, and where it stands. -/
structure Caller where
  query : Bytes
  env : Session
  phase : Phase

/-- The server with the callers of `doSearch` that run at the same time: `mu`
is whether `s.mu` is locked, `now` the time. -/
structure Pool where
  server : Server
  mu : Bool
  now : Int
  callers : List Caller

/-- Whether a caller holds `s.mu`. -/
def Caller.holds (c : Caller) : Bool :=
  match c.phase with
  | Phase.locked => true
  | Phase.scraping => true
  | Phase.store _ => true
  | _ => false

/-- Whether a caller is inside its call of `SearchJobs`, acting on the
browser. -/
def Caller.live (c : Caller) : Bool :=
  match c.phase with
  | Phase.scraping => true
  | _ => false

/-- The next statement of a caller, on the server `s` with the lock `mu` at
the time `now`: the caller after it, the server after it, and the lock after
it.  A caller at `s.mu.Lock()` goes on only when the lock is free; the
deferred `s.mu.Unlock()` runs when the caller returns. -/
def advance (s : Server) (mu : Bool) (now : Int) (c : Caller) : Caller × Server × Bool :=
  match c.phase with
  | Phase.check =>
    match mapGet s.cache c.query with
    | some entry =>
      if now - entry.CachedAt < s.cacheTTL then
        ({ c with phase := Phase.returned (Except.ok entry.Result) }, s, mu)
      else ({ c with phase := Phase.lock }, s, mu)
    | none => ({ c with phase := Phase.lock }, s, mu)
  | Phase.lock => if mu then (c, s, mu) else ({ c with phase := Phase.locked }, s, true)
  | Phase.locked => ({ c with phase := Phase.scraping }, s, mu)
  | Phase.scraping =>
    match (SearchJobs s.client c.env c.query).result with
    | Except.error err => ({ c with phase := Phase.returned (Except.error err) }, s, false)
    | Except.ok result => ({ c with phase := Phase.store result }, s, mu)
  | Phase.store result =>
    ({ c with phase := Phase.returned (Except.ok result) },
      { s with cache := mapSet s.cache c.query { Result := result, CachedAt := now } }, false)
  | Phase.returned _ => (c, s, mu)

/-- One step of the pool: the caller number `i` runs its next statement, and
time moves on by `tick`. -/
def Pool.step (tick : Int) (p : Pool) (i : Nat) : Pool :=
  match p.callers[i]? with
  | none => { p with now := p.now + tick }
  | some c =>
    let next := advance p.server p.mu p.now c
    { server := next.2.1, mu := next.2.2, now := p.now + tick,
      callers := p.callers.set i next.1 }

/-- The pool after the callers have run in the order of a schedule. -/
def Pool.run (tick : Int) (p : Pool) (schedule : List Nat) : Pool :=
  schedule.foldl (Pool.step tick) p

/-- The pool in which every caller is about to enter `doSearch` and the lock is
free. -/
def Pool.start (s : Server) (now : Int) (calls : List (Bytes × Session)) : Pool :=
  { server := s, mu := false, now := now,
    callers := calls.map (fun call => { query := call.1, env := call.2, phase := Phase.check }) }

/-- The number of callers that are acting on the browser. -/
def Pool.liveCount (p : Pool) : Nat :=
  (p.callers.filter Caller.live).length

/-- The number of callers that hold the lock. -/
def Pool.holders (p : Pool) : Nat :=
  (p.callers.filter Caller.holds).length

/-! ## Records and bodies of the scenarios -/

/-- The record `{"id": id}`. -/
def idRecord (id : String) : Job :=
  some [(utf8 "id", JValue.string (utf8 id))]

/-- The body `{"results":[{"id":"a"},{"id":"b"}]}`. -/
def bodyResultsAB : Bytes :=
  utf8 "\x7b\"results\":[\x7b\"id\":\"a\"\x7d,\x7b\"id\":\"b\"\x7d]\x7d"

/-- The body `{"jobs":[{"id":"b"},{"id":"c"}]}`. -/
def bodyJobsBC : Bytes :=
  utf8 "\x7b\"jobs\":[\x7b\"id\":\"b\"\x7d,\x7b\"id\":\"c\"\x7d]\x7d"

/-- The body `{"results":[{"id":"a"},{"id":"b","v":1}]}`. -/
def bodyResultsAB1 : Bytes :=
  utf8 "\x7b\"results\":[\x7b\"id\":\"a\"\x7d,\x7b\"id\":\"b\",\"v\":1\x7d]\x7d"

/-- The body `{"jobs":[{"id":"b","v":2},{"id":"c"}]}`. -/
def bodyJobsB2C : Bytes :=
  utf8 "\x7b\"jobs\":[\x7b\"id\":\"b\",\"v\":2\x7d,\x7b\"id\":\"c\"\x7d]\x7d"

/-- The body `{"results":[],"jobs":[{"id":"b"},{"id":"c"}],"data":[{"id":"d"}]}`. -/
def bodyEmptyResults : Bytes :=
  utf8 "\x7b\"results\":[],\"jobs\":[\x7b\"id\":\"b\"\x7d,\x7b\"id\":\"c\"\x7d],\"data\":[\x7b\"id\":\"d\"\x7d]\x7d"

/-- The body `{"results":[{"id":"a"}],"jobs":"x"}`. -/
def bodyJobsString : Bytes :=
  utf8 "\x7b\"results\":[\x7b\"id\":\"a\"\x7d],\"jobs\":\"x\"\x7d"

/-- The body `{"hits":{"hits":[{"_source":{"id":"x"}}]}}`. -/
def bodyHitsX : Bytes :=
  utf8 "\x7b\"hits\":\x7b\"hits\":[\x7b\"_source\":\x7b\"id\":\"x\"\x7d\x7d]\x7d\x7d"

/-- The body
`{"took":3,"hits":{"hits":[{"_id":"1"},{"_source":{"id":"x"}},{"_source":null},{"_source":{"id":"y"}}]}}`. -/
def bodyHitsMixed : Bytes :=
  utf8 "\x7b\"took\":3,\"hits\":\x7b\"hits\":[\x7b\"_id\":\"1\"\x7d,\x7b\"_source\":\x7b\"id\":\"x\"\x7d\x7d,\x7b\"_source\":null\x7d,\x7b\"_source\":\x7b\"id\":\"y\"\x7d\x7d]\x7d\x7d"

/-- The body `{"hits":{"hits":[{"_source":{"id":"x"}},{"_source":7}]}}`. -/
def bodyHitsNumber : Bytes :=
  utf8 "\x7b\"hits\":\x7b\"hits\":[\x7b\"_source\":\x7b\"id\":\"x\"\x7d\x7d,\x7b\"_source\":7\x7d]\x7d\x7d"

/-- The body ` [{"id":"a","n":1,"n":2}, {"objectID":"b"}, {}]`. -/
def bodyBareArray : Bytes :=
  utf8 " [\x7b\"id\":\"a\",\"n\":1,\"n\":2\x7d, \x7b\"objectID\":\"b\"\x7d, \x7b\x7d]"

/-- The text `[{"id":"a"}]`. -/
def textArrayA : Bytes :=
  utf8 "[\x7b\"id\":\"a\"\x7d]"

/-- The body `e30=`, the base64 encoding of `{}`. -/
def bodyEncodedEmpty : Bytes :=
  utf8 "e30="

/-- The body `[{"n":1},{"id":"a"}]`, whose first record has no identifier. -/
def bodyNoID : Bytes :=
  utf8 "[\x7b\"n\":1\x7d,\x7b\"id\":\"a\"\x7d]"

/-- The body `<html>busy</html>`, which no strategy decodes. -/
def bodyHTML : Bytes :=
  utf8 "<html>busy</html>"

/-- A session in which the search succeeds and the bodies
`{"results":[{"id":"a"},{"id":"b"}]}`, `[{"n":1},{"id":"a"}]` and
`{"jobs":[{"id":"b"},{"id":"c"}]}` are captured for the first page, nothing
afterwards. -/
def sessionThreeBodies : Session :=
  { inputError := none, firstResult := true,
    arrivals := fun k => if k = 0 then [bodyResultsAB, bodyNoID, bodyJobsBC] else [],
    rangeOrder := List.reverse }

/-- A session in which no capture signal arrives within the first wait. -/
def sessionSilent : Session :=
  { inputError := none, firstResult := false, arrivals := fun _ => [], rangeOrder := id }

/-- A job of which only the external identifier, the decimal digits of `n`,
is set. -/
def sampleJob (n : Nat) : ConvexJob :=
  { ExternalID := decimal n, Title := [], Company := [], ApplyURL := [], Source := [],
    Location := [], WorkplaceType := [], Countries := [], SeniorityLevel := none,
    Commitment := [], Category := none, RoleType := none, MinYoe := none, Skills := [],
    Requirements := none, Description := none, SalaryMin := none, SalaryMax := none,
    SalaryCurrency := none, SalaryFrequency := none, IsCompensationTransparent := false,
    CompanyLogo := none, CompanyWebsite := none, CompanyLinkedin := none,
    CompanyIndustry := none, CompanySize := none, CompanyTagline := none,
    PublishedAt := none, ScrapedAt := 0, IsExpired := false }

/-- The jobs `sampleJob 0`, ..., `sampleJob (n - 1)`. -/
def sampleJobs (n : Nat) : List ConvexJob :=
  (List.range n).map sampleJob

/-- The integer of a token that is a sequence of decimal digits. -/
def digitsToInt (token : Bytes) : Int :=
  token.foldl (fun acc b => 10 * acc + (Int.ofNat b - 48)) 0

/-- A deployment that answers the call number `k` on a batch of `b` jobs with
`{"inserted": b - 1, "updated": 1, "skipped": k}`. -/
def respondCounts (k : Nat) (_path : Bytes) (batch : List ConvexJob) : Except Bytes JValue :=
  Except.ok (JValue.object
    [(utf8 "inserted", JValue.number (decimal (batch.length - 1))),
     (utf8 "updated", JValue.number (decimal 1)),
     (utf8 "skipped", JValue.number (decimal k))])

/-- A deployment that fails the call number 1 with `boom` and answers every
other call as `respondCounts` does. -/
def respondFailSecond (k : Nat) (path : Bytes) (batch : List ConvexJob) :
    Except Bytes JValue :=
  if k = 1 then Except.error (utf8 "boom") else respondCounts k path batch

/-- A server whose cache holds, for the query `go`, an empty result fetched at
the time 0. -/
def serverCachedGo : Server :=
  { client := { ready := true },
    cache := [(utf8 "go", { Result := { Query := utf8 "go", Total := 0, Scraped := 0, Jobs := [] },
                            CachedAt := 0 })],
    cacheTTL := NewServer.cacheTTL }

/-- The record `{"objectID":"x"}`, as `encoding/json` stores it. -/
def recordObjectID : Job :=
  some [(utf8 "objectID", JValue.string (utf8 "x"))]

/-- The record `{"id":"a","v5_processed_company_data":{"industries":[""]}}`. -/
def recordEmptyIndustry : Job :=
  some [(utf8 "id", JValue.string (utf8 "a")),
    (utf8 "v5_processed_company_data",
      JValue.object [(utf8 "industries", JValue.array [JValue.string []])])]

/-- The record with the given description under `job_information`. -/
def recordDescription (desc : Bytes) : Job :=
  some [(utf8 "id", JValue.string (utf8 "a")),
    (utf8 "job_information", JValue.object [(utf8 "description", JValue.string desc)])]

/-- The URL of a search response. -/
def urlSearch : Bytes :=
  utf8 "https://hiring.cafe/api/search-jobs?s=abc"

/-- The URL of the count-only variant. -/
def urlCount : Bytes :=
  utf8 "https://hiring.cafe/api/search-jobs/get-total-count?s=abc"

/-- The response of the request `id` with the given URL and status. -/
def received (id : String) (url : Bytes) (status : Int) : NetworkEvent :=
  NetworkEvent.responseReceived
    { RequestID := utf8 id, Response := { URL := url, Status := status } }

/-- The end of the loading of the request `id`, with what the fetch of its
body returns. -/
def finished (id : String) (fetch : Except Bytes NetworkGetResponseBodyResult) :
    NetworkEvent :=
  NetworkEvent.loadingFinished { RequestID := utf8 id } fetch

/-- A browser whose page shows the challenge for the first three polls, fails
to give a title at the fourth, and shows the site from the fifth on. -/
def launchSolvedAtFifth : Launch :=
  { navigate := none,
    titles := fun i =>
      if i < 3 then Except.ok (utf8 "Vercel Security Checkpoint")
      else if i = 3 then Except.error (utf8 "context canceled")
      else Except.ok (utf8 "HiringCafe") }

/-- A browser whose page never leaves the challenge. -/
def launchUnsolved : Launch :=
  { navigate := none, titles := fun _ => Except.ok (utf8 "Just a moment... SECURITY check") }

/-- A new server after `Init` has succeeded. -/
def serverReady : Server :=
  { NewServer with client := { ready := true } }

/-- A `POST` with the given body. -/
def postRequest (body : String) : Request :=
  { Method := utf8 "POST", q := none, Body := utf8 body }

/-- A `GET` with the given value of `q`. -/
def getRequest (q : Option Bytes) : Request :=
  { Method := utf8 "GET", q := q, Body := [] }

/-- Three callers that enter `doSearch` on a ready server with an empty cache:
two with the query `go`, one with the query `rust`, whose search times out. -/
def poolThree : Pool :=
  Pool.start serverReady 0
    [(utf8 "go", sessionThreeBodies), (utf8 "go", sessionThreeBodies),
     (utf8 "rust", sessionSilent)]

/-- How far a caller has come, as a number: 0 before the check of the cache, 1
at the lock, 2 holding it, 3 in the browser, 4 before the store, 5 returned. -/
def Phase.rank : Phase → Nat
  | Phase.check => 0
  | Phase.lock => 1
  | Phase.locked => 2
  | Phase.scraping => 3
  | Phase.store _ => 4
  | Phase.returned _ => 5

/-- The body `[{"id":"a","n":1e999}]`, whose number is beyond the range of
`float64`. -/
def bodyHugeNumber : Bytes :=
  utf8 "[\x7b\"id\":\"a\",\"n\":1e999\x7d]"

/-! ## Known values of the library models -/

/-- The test vectors of RFC 4648, section 10. -/
theorem base64_test_vectors :
    base64EncodeToString (utf8 "") = utf8 "" ∧
    base64EncodeToString (utf8 "f") = utf8 "Zg==" ∧
    base64EncodeToString (utf8 "fo") = utf8 "Zm8=" ∧
    base64EncodeToString (utf8 "foo") = utf8 "Zm9v" ∧
    base64EncodeToString (utf8 "foob") = utf8 "Zm9vYg==" ∧
    base64EncodeToString (utf8 "fooba") = utf8 "Zm9vYmE=" ∧
    base64EncodeToString (utf8 "foobar") = utf8 "Zm9vYmFy" ∧
    base64DecodeString (utf8 "Zm9vYg==") = some (utf8 "foob") ∧
    base64DecodeString (utf8 "Zm9v\r\nYmE=\n") = some (utf8 "fooba") ∧
    base64DecodeString (utf8 "Zm9vYg=") = none ∧
    base64DecodeString (utf8 "Zm9vYg==Zm9v") = none ∧
    base64DecodeString (utf8 "Zm9 v") = none := by
  decide

set_option exponentiation.threshold 1100 in
set_option maxRecDepth 8000 in
/-- The range check on numbers at and around the limit: the largest `float64`
and the decimal expansion just below the limit are accepted, the limit and
`1.797693134862315808e308` are not; a number of small magnitude is accepted. -/
theorem floatOverflows_known_values :
    floatOverflows (utf8 "1") = false ∧
    floatOverflows (utf8 "-12.5e3") = false ∧
    floatOverflows (utf8 "1e-999") = false ∧
    floatOverflows (utf8 "1e308") = false ∧
    floatOverflows (utf8 "1.7976931348623157e308") = false ∧
    floatOverflows (utf8 "1.797693134862315808e308") = true ∧
    floatOverflows (utf8 "1e309") = true ∧
    floatOverflows (utf8 "-1E+999") = true ∧
    floatOverflows (utf8 "179769313486231580793728971405303415079934132710037826936173778980444968292764750946649017977587207096330286416692887910946555547851940402630657488671505820681908902000708383676273854845817711531764475730270069855571366959622842914819860834936475292719074168444365510704342711559699508093042880177904174497791") = false ∧
    floatOverflows (utf8 "179769313486231580793728971405303415079934132710037826936173778980444968292764750946649017977587207096330286416692887910946555547851940402630657488671505820681908902000708383676273854845817711531764475730270069855571366959622842914819860834936475292719074168444365510704342711559699508093042880177904174497792") = true := by
  decide

/-- Documents that the reader accepts and rejects. -/
theorem parseJSON_known_values :
    parseJSON (utf8 " [1, -0.5e+3 , true,false, null, \"x\\n\\u00e9\\ud83d\\ude00\\ud800z\", \x7b\x7d , [ ] ] ")
      = some (JValue.array [JValue.number (utf8 "1"), JValue.number (utf8 "-0.5e+3"),
          JValue.bool true, JValue.bool false, JValue.null,
          JValue.string (utf8 "x\né😀\uFFFDz"), JValue.object [], JValue.array []]) ∧
    parseJSON (utf8 "\x7b\"a\":\x7b\"b\":[]\x7d,\"a\":2\x7d")
      = some (JValue.object [(utf8 "a", JValue.object [(utf8 "b", JValue.array [])]),
          (utf8 "a", JValue.number (utf8 "2"))]) ∧
    parseJSON [34, 195, 40, 34] = some (JValue.string [239, 191, 189, 40]) ∧
    parseJSON (utf8 "") = none ∧
    parseJSON (utf8 "[1,]") = none ∧
    parseJSON (utf8 "\x7b\"a\":1,\x7d") = none ∧
    parseJSON (utf8 "\x7b\"a\" 1\x7d") = none ∧
    parseJSON (utf8 "\x7ba:1\x7d") = none ∧
    parseJSON (utf8 "01") = none ∧
    parseJSON (utf8 "1.") = none ∧
    parseJSON (utf8 "-") = none ∧
    parseJSON (utf8 "nul") = none ∧
    parseJSON (utf8 "null x") = none ∧
    parseJSON (utf8 "\"a\nb\"") = none ∧
    parseJSON (utf8 "\"\\x\"") = none :=
  ⟨by rfl, by rfl, by rfl, by rfl, by rfl, by rfl, by rfl, by rfl, by rfl, by rfl, by rfl,
    by rfl, by rfl, by rfl, by rfl⟩

/-- Bodies on which the store into the envelope follows the Go types: keys
select fields without regard to case, `null` empties a list, a key that
selects no field is passed over, and a value of another type is an error. -/
theorem extractJobs_known_values :
    extractJobs (utf8 "\x7b\"Results\":[\x7b\"id\":\"a\"\x7d]\x7d") = Except.ok [idRecord "a"] ∧
    extractJobs (utf8 "\x7b\"results\":null,\"total\":\"7\",\"items\":[\x7b\"id\":\"a\"\x7d]\x7d")
      = Except.ok [idRecord "a"] ∧
    extractJobs (utf8 "\x7b\"hits\":\x7b\"total\":1,\"hits\":[null,\x7b\"_source\":\x7b\"id\":\"x\"\x7d\x7d]\x7d\x7d")
      = Except.ok [idRecord "x"] ∧
    extractJobs (utf8 "[null]") = Except.ok [none] ∧
    extractJobs (utf8 "\x7b\"results\":\x7b\"id\":\"a\"\x7d\x7d")
      = Except.error (utf8 "could not extract jobs: \x7b\"results\":\x7b\"id\":\"a\"\x7d\x7d") ∧
    extractJobs (utf8 "\x7b\"hits\":[]\x7d")
      = Except.error (utf8 "could not extract jobs: \x7b\"hits\":[]\x7d") ∧
    extractJobs (utf8 "null") = Except.error (utf8 "could not extract jobs: null") ∧
    extractJobs (utf8 "[]") = Except.error (utf8 "could not extract jobs: []") ∧
    extractJobs (utf8 "") = Except.error (utf8 "could not extract jobs: ") :=
  ⟨by rfl, by rfl, by rfl, by rfl, by rfl, by rfl, by rfl, by rfl, by rfl⟩


/-! ## Maps -/

theorem mapGet_mapSet_self {V : Type} (m : GoMap V) (k : Bytes) (v : V) :
    mapGet (mapSet m k v) k = some v := by
  induction m with
  | nil => simp [mapSet, mapGet]
  | cons e rest ih =>
    obtain ⟨k1, v1⟩ := e
    by_cases h : k1 = k
    · simp [mapSet, mapGet, h]
    · simp [mapSet, mapGet, h, ih]

theorem mapGet_mapSet_ne {V : Type} (m : GoMap V) (k k2 : Bytes) (v : V) (h : k ≠ k2) :
    mapGet (mapSet m k v) k2 = mapGet m k2 := by
  induction m with
  | nil => simp [mapSet, mapGet, h]
  | cons e rest ih =>
    obtain ⟨k1, v1⟩ := e
    by_cases h1 : k1 = k
    · subst h1
      simp [mapSet, mapGet, h]
    · simp [mapSet, mapGet, h1, ih]

theorem mapKeys_mapSet_of_mem {V : Type} (m : GoMap V) (k : Bytes) (v : V)
    (h : k ∈ mapKeys m) : mapKeys (mapSet m k v) = mapKeys m := by
  induction m with
  | nil => simp [mapKeys] at h
  | cons e rest ih =>
    obtain ⟨k1, v1⟩ := e
    by_cases h1 : k1 = k
    · simp [mapSet, mapKeys, h1]
    · have hk : k ∈ mapKeys rest := by
        simp only [mapKeys, List.map_cons, List.mem_cons] at h
        rcases h with h | h
        · exact absurd h.symm h1
        · exact h
      have := ih hk
      simp only [mapKeys] at this
      simp [mapSet, mapKeys, h1, this]

theorem mapKeys_mapSet_of_not_mem {V : Type} (m : GoMap V) (k : Bytes) (v : V)
    (h : k ∉ mapKeys m) : mapKeys (mapSet m k v) = mapKeys m ++ [k] := by
  induction m with
  | nil => simp [mapSet, mapKeys]
  | cons e rest ih =>
    obtain ⟨k1, v1⟩ := e
    have h1 : k1 ≠ k := by
      intro hk
      apply h
      simp [mapKeys, hk]
    have hk : k ∉ mapKeys rest := by
      intro hk
      apply h
      simp only [mapKeys, List.map_cons, List.mem_cons]
      exact Or.inr hk
    have := ih hk
    simp only [mapKeys] at this
    simp [mapSet, mapKeys, h1, this]

theorem mem_mapKeys_mapSet {V : Type} (m : GoMap V) (k : Bytes) (v : V) (id : Bytes) :
    id ∈ mapKeys (mapSet m k v) ↔ id ∈ mapKeys m ∨ id = k := by
  by_cases h : k ∈ mapKeys m
  · rw [mapKeys_mapSet_of_mem m k v h]
    constructor
    · exact Or.inl
    · rintro (h1 | h1)
      · exact h1
      · exact h1 ▸ h
  · rw [mapKeys_mapSet_of_not_mem m k v h]
    simp

theorem length_mapKeys {V : Type} (m : GoMap V) : (mapKeys m).length = m.length := by
  simp [mapKeys]

theorem length_mapSet_of_mem {V : Type} (m : GoMap V) (k : Bytes) (v : V)
    (h : k ∈ mapKeys m) : (mapSet m k v).length = m.length := by
  rw [← length_mapKeys, mapKeys_mapSet_of_mem m k v h, length_mapKeys]

theorem length_mapSet_of_not_mem {V : Type} (m : GoMap V) (k : Bytes) (v : V)
    (h : k ∉ mapKeys m) : (mapSet m k v).length = m.length + 1 := by
  rw [← length_mapKeys, mapKeys_mapSet_of_not_mem m k v h]
  simp [length_mapKeys]

theorem length_le_mapSet {V : Type} (m : GoMap V) (k : Bytes) (v : V) :
    m.length ≤ (mapSet m k v).length := by
  by_cases h : k ∈ mapKeys m
  · rw [length_mapSet_of_mem m k v h]
  · rw [length_mapSet_of_not_mem m k v h]
    omega

/-! ## The accumulator of `ScrapeAll` -/

theorem mergeJobs_append (m : GoMap Job) (xs ys : List Job) :
    mergeJobs m (xs ++ ys) = mergeJobs (mergeJobs m xs) ys := by
  simp [mergeJobs, List.foldl_append]

theorem mergeJobs_cons (m : GoMap Job) (j : Job) (xs : List Job) :
    mergeJobs m (j :: xs)
      = mergeJobs (if jobID j ≠ [] then mapSet m (jobID j) j else m) xs := by
  simp [mergeJobs]

theorem mergeJobs_snoc (m : GoMap Job) (xs : List Job) (j : Job) :
    mergeJobs m (xs ++ [j])
      = if jobID j ≠ [] then mapSet (mergeJobs m xs) (jobID j) j else mergeJobs m xs := by
  simp [mergeJobs, List.foldl_append]

/-- The record that a sequence of drained records leaves under an identifier:
the last one of them that carries it, else the one that was there. -/
theorem mapGet_mergeJobs (m : GoMap Job) (jobs : List Job) (id : Bytes) :
    mapGet (mergeJobs m jobs) id
      = match (jobs.filter (fun j => decide (jobID j = id ∧ id ≠ []))).getLast? with
        | some j => some j
        | none => mapGet m id := by
  induction jobs using List.reverseRecOn with
  | nil => simp [mergeJobs]
  | append_singleton xs j ih =>
    rw [mergeJobs_snoc, List.filter_append]
    by_cases hj : jobID j = id ∧ id ≠ []
    · obtain ⟨h1, h2⟩ := hj
      subst h1
      simp [h2, mapGet_mapSet_self]
    · by_cases h0 : jobID j ≠ []
      · have hne : jobID j ≠ id := fun h => hj ⟨h, h ▸ h0⟩
        rw [if_pos h0, mapGet_mapSet_ne _ _ _ _ hne, ih]
        simp [hj]
      · rw [if_neg h0, ih]
        simp [hj]

/-! ## Base64 -/

theorem b64Value_b64Char (n : Nat) (h : n < 64) : b64Value (b64Char n) = some n := by
  interval_cases n <;> rfl

theorem b64Char_isSome (n : Nat) : (b64Value (b64Char n)).isSome = true := by
  unfold b64Char b64Value
  split_ifs <;> first | rfl | omega

theorem b64Char_ne (n : Nat) : b64Char n ≠ 61 ∧ b64Char n ≠ 10 ∧ b64Char n ≠ 13 := by
  unfold b64Char
  split_ifs <;> omega

theorem b64Quanta_head_none (a : Nat) (l : Bytes) (h : b64Value a = none) :
    b64Quanta (a :: l) = none := by
  match l with
  | [] => rfl
  | [_] => rfl
  | [_, _] => rfl
  | b :: c :: d :: rest =>
    unfold b64Quanta
    simp only [h]
    split_ifs <;> rfl

theorem b64Quanta_quantum (a b c d : Nat) (rest out : Bytes)
    (h : b64Quanta (a :: b :: c :: d :: rest) = some out) :
    b64Value a ≠ none ∧ b64Value b ≠ none ∧ (b64Value c ≠ none ∨ c = 61)
      ∧ (b64Value d ≠ none ∨ d = 61) ∧ b64Quanta rest ≠ none := by
  unfold b64Quanta at h
  by_cases hp : rest = [] ∧ d = 61
  · rw [if_pos hp] at h
    obtain ⟨hr, hd⟩ := hp
    subst hr hd
    by_cases hc : c = 61
    · rw [if_pos hc] at h
      cases ha : b64Value a <;> cases hb : b64Value b <;> simp [ha, hb] at h
      simp [hc, b64Quanta]
    · rw [if_neg hc] at h
      cases ha : b64Value a <;> cases hb : b64Value b <;> cases hc1 : b64Value c <;>
        simp [ha, hb, hc1] at h
      simp [b64Quanta]
  · rw [if_neg hp] at h
    cases ha : b64Value a <;> cases hb : b64Value b <;> cases hc1 : b64Value c <;>
      cases hd : b64Value d <;> cases hr : b64Quanta rest <;>
      simp [ha, hb, hc1, hd, hr] at h
    simp

theorem b64Quanta_valid_aux (n : Nat) : ∀ (l out : Bytes), l.length ≤ n →
    b64Quanta l = some out → ∀ c ∈ l, b64Value c ≠ none ∨ c = 61 := by
  induction n with
  | zero =>
    intro l out hl _ c hc
    have : l = [] := List.length_eq_zero.mp (Nat.le_zero.mp hl)
    subst this
    simp at hc
  | succ n ih =>
    intro l out hl h c hc
    match l, hl, h, hc with
    | [], _, _, hc => simp at hc
    | [_], _, h, _ => simp [b64Quanta] at h
    | [_, _], _, h, _ => simp [b64Quanta] at h
    | [_, _, _], _, h, _ => simp [b64Quanta] at h
    | a :: b :: c1 :: d :: rest, hl, h, hc =>
      obtain ⟨h1, h2, h3, h4, h5⟩ := b64Quanta_quantum a b c1 d rest out h
      simp only [List.mem_cons] at hc
      rcases hc with rfl | rfl | rfl | rfl | hc
      · exact Or.inl h1
      · exact Or.inl h2
      · exact h3
      · exact h4
      · obtain ⟨out1, hr⟩ := Option.ne_none_iff_exists'.mp h5
        exact ih rest out1 (by simp at hl; omega) hr c hc

/-- A text with a character that is neither of the alphabet nor padding nor
a line break has no base64 decoding. -/
theorem base64DecodeString_eq_none (s : Bytes) (c : Nat) (hc : c ∈ s)
    (h1 : b64Value c = none) (h2 : c ≠ 61) (h3 : c ≠ 10) (h4 : c ≠ 13) :
    base64DecodeString s = none := by
  unfold base64DecodeString
  cases h : b64Quanta (List.filter (fun c => decide (c ≠ 10 ∧ c ≠ 13)) s) with
  | none => rfl
  | some out =>
    exfalso
    have hmem : c ∈ List.filter (fun c => decide (c ≠ 10 ∧ c ≠ 13)) s := by
      simp [List.mem_filter, hc, h3, h4]
    rcases b64Quanta_valid_aux _ _ out (le_refl _) h c hmem with h5 | h5
    · exact h5 h1
    · exact h2 h5

theorem b64Quanta_encode_aux (n : Nat) : ∀ (t : Bytes), t.length ≤ n → (∀ b ∈ t, b < 256) →
    b64Quanta (base64EncodeToString t) = some t := by
  induction n with
  | zero =>
    intro t hl _
    have : t = [] := List.length_eq_zero.mp (Nat.le_zero.mp hl)
    subst this
    rfl
  | succ n ih =>
    intro t hl hb
    match t, hl, hb with
    | [], _, _ => rfl
    | [a], _, hb =>
      have ha : a < 256 := hb a (by simp)
      simp only [base64EncodeToString, b64Quanta]
      have e1 := b64Value_b64Char (a / 4) (by omega)
      have e2 := b64Value_b64Char (a % 4 * 16) (by omega)
      simp only [e1, e2, and_self, if_true]
      congr 2
      omega
    | [a, b], _, hb =>
      have ha : a < 256 := hb a (by simp)
      have hb1 : b < 256 := hb b (by simp)
      simp only [base64EncodeToString, b64Quanta]
      have e1 := b64Value_b64Char (a / 4) (by omega)
      have e2 := b64Value_b64Char (a % 4 * 16 + b / 16) (by omega)
      have e3 := b64Value_b64Char (b % 16 * 4) (by omega)
      have n3 := (b64Char_ne (b % 16 * 4)).1
      simp only [e1, e2, e3, n3, and_self, if_true, if_false]
      congr 2
      · omega
      · congr 1
        omega
    | a :: b :: c :: rest, hl, hb =>
      have ha : a < 256 := hb a (by simp)
      have hb1 : b < 256 := hb b (by simp)
      have hc : c < 256 := hb c (by simp)
      have hrest := ih rest (by simp at hl; omega) (fun x hx => hb x (by simp [hx]))
      simp only [base64EncodeToString, b64Quanta]
      have e1 := b64Value_b64Char (a / 4) (by omega)
      have e2 := b64Value_b64Char (a % 4 * 16 + b / 16) (by omega)
      have e3 := b64Value_b64Char (b % 16 * 4 + c / 64) (by omega)
      have e4 := b64Value_b64Char (c % 64) (by omega)
      have n4 := (b64Char_ne (c % 64)).1
      simp only [e1, e2, e3, e4, n4, and_false, if_false, hrest]
      congr 2
      · omega
      · congr 1
        · omega
        · congr 1
          omega

theorem filter_encode (t : Bytes) :
    (base64EncodeToString t).filter (fun c => decide (c ≠ 10 ∧ c ≠ 13))
      = base64EncodeToString t := by
  rw [List.filter_eq_self]
  intro c hc
  have : ∀ (n : Nat) (t : Bytes), t.length ≤ n → ∀ c ∈ base64EncodeToString t,
      ∃ k, c = b64Char k ∨ c = 61 := by
    intro n
    induction n with
    | zero =>
      intro t hl c hc
      have : t = [] := List.length_eq_zero.mp (Nat.le_zero.mp hl)
      subst this
      simp [base64EncodeToString] at hc
    | succ n ih =>
      intro t hl c hc
      match t, hl, hc with
      | [], _, hc => simp [base64EncodeToString] at hc
      | [a], _, hc =>
        simp only [base64EncodeToString, List.mem_cons, List.mem_singleton] at hc
        rcases hc with h | h | h | h | h
        · exact ⟨_, Or.inl h⟩
        · exact ⟨_, Or.inl h⟩
        · exact ⟨0, Or.inr h⟩
        · exact ⟨0, Or.inr h⟩
        · simp at h
      | [a, b], _, hc =>
        simp only [base64EncodeToString, List.mem_cons, List.mem_singleton] at hc
        rcases hc with h | h | h | h | h
        · exact ⟨_, Or.inl h⟩
        · exact ⟨_, Or.inl h⟩
        · exact ⟨_, Or.inl h⟩
        · exact ⟨0, Or.inr h⟩
        · simp at h
      | a :: b :: c1 :: rest, hl, hc =>
        simp only [base64EncodeToString, List.mem_cons] at hc
        rcases hc with h | h | h | h | h
        · exact ⟨_, Or.inl h⟩
        · exact ⟨_, Or.inl h⟩
        · exact ⟨_, Or.inl h⟩
        · exact ⟨_, Or.inl h⟩
        · exact ih rest (by simp at hl; omega) c h
  obtain ⟨k, hk | hk⟩ := this _ t (le_refl _) c hc
  · have := b64Char_ne k
    simp [hk, this.2.1, this.2.2]
  · simp [hk]

/-- Decoding the standard encoding of a text gives the text back. -/
theorem base64DecodeString_encode (t : Bytes) (hb : ∀ b ∈ t, b < 256) :
    base64DecodeString (base64EncodeToString t) = some t := by
  unfold base64DecodeString
  rw [filter_encode]
  exact b64Quanta_encode_aux _ t (le_refl _) hb

/-! ## The JSON reader -/

theorem skipSpace_suffix (s : Bytes) : ∀ c rest, skipSpace s = c :: rest → c ∈ s := by
  induction s with
  | nil => intro c rest h; simp [skipSpace] at h
  | cons a t ih =>
    intro c rest h
    unfold skipSpace at h
    split_ifs at h with hs
    · exact List.mem_cons_of_mem _ (ih c rest h)
    · simp only [List.cons.injEq] at h
      simp [h.1]

theorem parseElements_array (fuel : Nat) : ∀ (depth : Nat) (s : Bytes) (acc : List JValue)
    (v : JValue) (rest : Bytes), parseElements fuel depth s acc = some (v, rest) →
    ∃ elems, v = JValue.array elems := by
  induction fuel with
  | zero => intro depth s acc v rest h; simp [parseElements] at h
  | succ n ih =>
    intro depth s acc v rest h
    unfold parseElements at h
    split at h
    · simp at h
    · split at h
      · simp at h
      · split_ifs at h
        · exact ih _ _ _ _ _ h
        · simp only [Option.some.injEq, Prod.mk.injEq] at h
          exact ⟨_, h.1.symm⟩

theorem parseMembers_object (fuel : Nat) : ∀ (depth : Nat) (s : Bytes)
    (acc : List (Bytes × JValue)) (v : JValue) (rest : Bytes),
    parseMembers fuel depth s acc = some (v, rest) → ∃ members, v = JValue.object members := by
  induction fuel with
  | zero => intro depth s acc v rest h; simp [parseMembers] at h
  | succ n ih =>
    intro depth s acc v rest h
    unfold parseMembers at h
    split at h
    · simp at h
    · split_ifs at h
      split at h
      · simp at h
      · split at h
        · simp at h
        · split_ifs at h
          split at h
          · simp at h
          · split at h
            · simp at h
            · split_ifs at h
              · exact ih _ _ _ _ _ h
              · simp only [Option.some.injEq, Prod.mk.injEq] at h
                exact ⟨_, h.1.symm⟩

/-- A value read as an object begins with `{`, one read as an array with `[`. -/
theorem parseValue_head (fuel depth : Nat) (s : Bytes) (v : JValue) (rest : Bytes)
    (h : parseValue fuel depth s = some (v, rest)) :
    (∀ members, v = JValue.object members → ∃ r, skipSpace s = 123 :: r) ∧
    (∀ elems, v = JValue.array elems → ∃ r, skipSpace s = 91 :: r) := by
  cases fuel with
  | zero => simp [parseValue] at h
  | succ n =>
    unfold parseValue at h
    split at h
    · simp at h
    · rename_i c r hs
      rw [hs]
      by_cases h123 : c = 123
      · subst h123
        refine ⟨fun _ _ => ⟨r, rfl⟩, ?_⟩
        intro elems hv
        exfalso
        rw [if_pos rfl] at h
        split_ifs at h
        split at h
        · simp at h
        · split_ifs at h
          · simp only [Option.some.injEq, Prod.mk.injEq] at h
            rw [hv] at h
            simp at h
          · obtain ⟨ms, hms⟩ := parseMembers_object _ _ _ _ _ _ h
            rw [hv] at hms
            simp at hms
      · rw [if_neg h123] at h
        by_cases h91 : c = 91
        · subst h91
          refine ⟨?_, fun _ _ => ⟨r, rfl⟩⟩
          intro members hv
          exfalso
          rw [if_pos rfl] at h
          split_ifs at h
          split at h
          · simp at h
          · split_ifs at h
            · simp only [Option.some.injEq, Prod.mk.injEq] at h
              rw [hv] at h
              simp at h
            · obtain ⟨es, hes⟩ := parseElements_array _ _ _ _ _ _ h
              rw [hv] at hes
              simp at hes
        · rw [if_neg h91] at h
          have hscalar : (∀ members, v ≠ JValue.object members)
              ∧ (∀ elems, v ≠ JValue.array elems) := by
            split_ifs at h
            · simp only [Option.map_eq_some', Prod.mk.injEq] at h
              obtain ⟨p, _, hp, _⟩ := h
              subst hp
              exact ⟨fun _ => by simp, fun _ => by simp⟩
            · split at h
              · simp only [Option.some.injEq, Prod.mk.injEq] at h
                rw [← h.1]
                exact ⟨fun _ => by simp, fun _ => by simp⟩
              · simp at h
            · split at h
              · simp only [Option.some.injEq, Prod.mk.injEq] at h
                rw [← h.1]
                exact ⟨fun _ => by simp, fun _ => by simp⟩
              · simp at h
            · split at h
              · simp only [Option.some.injEq, Prod.mk.injEq] at h
                rw [← h.1]
                exact ⟨fun _ => by simp, fun _ => by simp⟩
              · simp at h
            · simp only [Option.map_eq_some', Prod.mk.injEq] at h
              obtain ⟨p, _, hp, _⟩ := h
              subst hp
              exact ⟨fun _ => by simp, fun _ => by simp⟩
          exact ⟨fun ms hv => absurd hv (hscalar.1 ms), fun es hv => absurd hv (hscalar.2 es)⟩

/-- A body read as an object contains `{`, one read as an array contains `[`. -/
theorem parseJSON_mem (data : Bytes) (v : JValue) (h : parseJSON data = some v) :
    (∀ members, v = JValue.object members → 123 ∈ data) ∧
    (∀ elems, v = JValue.array elems → 91 ∈ data) := by
  unfold parseJSON at h
  split at h
  · rename_i v1 rest hp
    split_ifs at h
    simp only [Option.some.injEq] at h
    subst h
    obtain ⟨h1, h2⟩ := parseValue_head _ _ _ _ _ hp
    constructor
    · intro ms hv
      obtain ⟨r, hr⟩ := h1 ms hv
      exact skipSpace_suffix _ _ _ hr
    · intro es hv
      obtain ⟨r, hr⟩ := h2 es hv
      exact skipSpace_suffix _ _ _ hr
  · simp at h

/-- A body that reads as a JSON object or array is parsed as it is: it has
no base64 decoding. -/
theorem rawBody_of_parseJSON (body : Bytes) (v : JValue) (h : parseJSON body = some v)
    (hv : (∃ members, v = JValue.object members) ∨ (∃ elems, v = JValue.array elems)) :
    rawBody body = body := by
  have hnone : base64DecodeString body = none := by
    rcases hv with ⟨ms, hms⟩ | ⟨es, hes⟩
    · exact base64DecodeString_eq_none body 123 ((parseJSON_mem body v h).1 ms hms)
        (by decide) (by decide) (by decide) (by decide)
    · exact base64DecodeString_eq_none body 91 ((parseJSON_mem body v h).2 es hes)
        (by decide) (by decide) (by decide) (by decide)
  simp [rawBody, hnone]

/-! ## `extractJobs` -/

theorem extractFrom_of_fromEnvelope (raw body : Bytes) (list : List Job)
    (h : fromEnvelope raw = some list) : extractFrom raw body = Except.ok list := by
  simp [extractFrom, h]

/-- Success of `extractFrom`, and the records, depend on `raw` only. -/
theorem extractFrom_ok_iff (raw b1 b2 : Bytes) (jobs : List Job) :
    extractFrom raw b1 = Except.ok jobs ↔ extractFrom raw b2 = Except.ok jobs := by
  unfold extractFrom
  cases fromEnvelope raw with
  | some list => simp
  | none =>
    cases unmarshalJobList raw with
    | none => simp
    | some directList =>
      by_cases h : directList.length > 0
      · simp [h]
      · simp [h]

/-- The limit of `strconv.ParseFloat` in powers of two. -/
theorem floatLimit_eq : floatLimit = 2 ^ 1024 - 2 ^ 970 := by
  unfold floatLimit
  norm_num

mutual
/-- A document is stored into a value of type `any` without an error exactly
when all its numbers are within the range of `float64`. -/
theorem toAny_isSome : ∀ (v : JValue), (toAny v).isSome = numbersFit v
  | JValue.null => rfl
  | JValue.bool _ => rfl
  | JValue.string _ => rfl
  | JValue.number token => by
    unfold toAny numbersFit convertNumber
    cases floatOverflows token <;> rfl
  | JValue.array elems => by
    unfold toAny numbersFit
    rw [Option.isSome_map', toAnyList_isSome elems]
  | JValue.object members => by
    unfold toAny numbersFit
    rw [Option.isSome_map', storeMembers_isSome members []]
theorem toAnyList_isSome : ∀ (l : List JValue), (toAnyList l).isSome = numbersFitList l
  | [] => rfl
  | v :: rest => by
    unfold toAnyList numbersFitList
    rw [← toAny_isSome v, ← toAnyList_isSome rest]
    cases toAny v <;> cases toAnyList rest <;> rfl
theorem storeMembers_isSome : ∀ (members : List (Bytes × JValue)) (m : GoMap JValue),
    (storeMembers members m).isSome = numbersFitMembers members
  | [], _ => rfl
  | (k, v) :: rest, m => by
    unfold storeMembers numbersFitMembers
    rw [← toAny_isSome v]
    cases h : toAny v with
    | none => rfl
    | some a =>
      simp only [Option.isSome_some, Bool.true_and]
      exact storeMembers_isSome rest (mapSet m k a)
end

theorem decodeElems_objects (objs : List (List (Bytes × JValue))) (maps : List (GoMap JValue))
    (h : List.Forall₂ (fun members m => storeMembers members [] = some m) objs maps) :
    decodeElems none decodeJob [] (objs.map JValue.object) = some (maps.map some) := by
  induction h with
  | nil => rfl
  | cons hstore _ ih =>
    simp only [List.map_cons, decodeElems, List.tail_nil, ih, List.headD_nil, decodeJob,
      Option.getD_none, hstore, Option.map_some']

theorem decodeElems_objects_none (objs : List (List (Bytes × JValue)))
    (h : ∃ members ∈ objs, numbersFitMembers members = false) :
    decodeElems none decodeJob [] (objs.map JValue.object) = none := by
  induction objs with
  | nil =>
    obtain ⟨members, hm, _⟩ := h
    cases hm
  | cons ms rest ih =>
    obtain ⟨members, hm, hfit⟩ := h
    simp only [List.map_cons, decodeElems, List.tail_nil, List.headD_nil, decodeJob,
      Option.getD_none]
    rcases List.mem_cons.mp hm with heq | hrest
    · subst heq
      have hnone : storeMembers members [] = none := by
        have := storeMembers_isSome members []
        rw [hfit] at this
        exact Option.not_isSome_iff_eq_none.mp (by simp [this])
      rw [hnone]
      rfl
    · rw [ih ⟨members, hrest, hfit⟩]
      cases (storeMembers ms []).map some <;> rfl

theorem stored_of_numbersFit (objs : List (List (Bytes × JValue)))
    (hfit : ∀ members ∈ objs, numbersFitMembers members = true) :
    ∃ maps : List (GoMap JValue),
      List.Forall₂ (fun members m => storeMembers members [] = some m) objs maps := by
  induction objs with
  | nil => exact ⟨[], List.Forall₂.nil⟩
  | cons ms rest ih =>
    obtain ⟨maps, hmaps⟩ := ih (fun members hm => hfit members (List.mem_cons_of_mem _ hm))
    have hsome : (storeMembers ms []).isSome = true := by
      rw [storeMembers_isSome, hfit ms (List.mem_cons_self _ _)]
    obtain ⟨m, hm⟩ := Option.isSome_iff_exists.mp hsome
    exact ⟨m :: maps, List.Forall₂.cons hm hmaps⟩
theorem rawBody_encode (t : Bytes) (hb : ∀ b ∈ t, b < 256)
    (hhead : t.head? = some 123 ∨ t.head? = some 91) :
    rawBody (base64EncodeToString t) = t := by
  have hlen : t.length > 0 := by
    cases t with
    | nil => simp at hhead
    | cons a r => simp
  unfold rawBody
  rw [base64DecodeString_encode t hb]
  simp only [hlen, if_true, hhead]

theorem rawBody_of_head (t : Bytes) (hhead : t.head? = some 123 ∨ t.head? = some 91) :
    rawBody t = t := by
  have hnone : base64DecodeString t = none := by
    cases t with
    | nil => simp at hhead
    | cons a r =>
      simp only [List.head?_cons, Option.some.injEq] at hhead
      rcases hhead with h | h
      · subst h
        exact base64DecodeString_eq_none _ 123 (by simp) (by decide) (by decide) (by decide)
          (by decide)
      · subst h
        exact base64DecodeString_eq_none _ 91 (by simp) (by decide) (by decide) (by decide)
          (by decide)
  simp [rawBody, hnone]

/-! ## Growth and idempotence of the accumulator -/

theorem mapSet_mapSet_same {V : Type} (m : GoMap V) (k : Bytes) (v w : V) :
    mapSet (mapSet m k v) k w = mapSet m k w := by
  induction m with
  | nil => simp [mapSet]
  | cons e rest ih =>
    obtain ⟨k1, v1⟩ := e
    by_cases h : k1 = k
    · simp [mapSet, h]
    · simp [mapSet, h, ih]

theorem mapSet_comm {V : Type} (m : GoMap V) (k k2 : Bytes) (v w : V) (hne : k ≠ k2)
    (hmem : k ∈ mapKeys m ∨ k2 ∈ mapKeys m) :
    mapSet (mapSet m k v) k2 w = mapSet (mapSet m k2 w) k v := by
  induction m with
  | nil => simp [mapKeys] at hmem
  | cons e rest ih =>
    obtain ⟨k1, v1⟩ := e
    by_cases h1 : k1 = k
    · subst h1
      simp [mapSet, hne]
    · by_cases h2 : k1 = k2
      · subst h2
        simp [mapSet, h1]
      · have hmem2 : k ∈ mapKeys rest ∨ k2 ∈ mapKeys rest := by
          simp only [mapKeys, List.map_cons, List.mem_cons] at hmem
          rcases hmem with (h | h) | (h | h)
          · exact absurd h.symm h1
          · exact Or.inl h
          · exact absurd h.symm h2
          · exact Or.inr h
        simp [mapSet, h1, h2, ih hmem2]

theorem mapKeys_subset_mergeJobs (jobs : List Job) : ∀ (m : GoMap Job) (id : Bytes),
    id ∈ mapKeys m → id ∈ mapKeys (mergeJobs m jobs) := by
  induction jobs with
  | nil => intro m id h; exact h
  | cons j rest ih =>
    intro m id h
    rw [mergeJobs_cons]
    apply ih
    split_ifs
    · exact (mem_mapKeys_mapSet m _ _ id).mpr (Or.inl h)
    · exact h

theorem length_le_mergeJobs (jobs : List Job) : ∀ (m : GoMap Job),
    m.length ≤ (mergeJobs m jobs).length := by
  induction jobs with
  | nil => intro m; exact le_refl _
  | cons j rest ih =>
    intro m
    rw [mergeJobs_cons]
    refine le_trans ?_ (ih _)
    split_ifs
    · exact length_le_mapSet m _ _
    · exact le_refl _

/-- Records that carry no identifier or a known one leave the size of the
accumulator as it is. -/
theorem length_mergeJobs_of_known (jobs : List Job) : ∀ (m : GoMap Job),
    (∀ j ∈ jobs, jobID j = [] ∨ jobID j ∈ mapKeys m) →
    (mergeJobs m jobs).length = m.length := by
  induction jobs with
  | nil => intro m _; rfl
  | cons j rest ih =>
    intro m h
    rw [mergeJobs_cons]
    rcases h j (by simp) with h0 | h0
    · rw [if_neg (by simpa using h0)]
      exact ih m (fun x hx => h x (by simp [hx]))
    · by_cases hid : jobID j = []
      · rw [if_neg (by simpa using hid)]
        exact ih m (fun x hx => h x (by simp [hx]))
      · rw [if_pos hid, ih, length_mapSet_of_mem m _ _ h0]
        intro x hx
        rcases h x (by simp [hx]) with h1 | h1
        · exact Or.inl h1
        · exact Or.inr ((mem_mapKeys_mapSet m _ _ _).mpr (Or.inl h1))

theorem mem_mapKeys_mergeJobs (jobs : List Job) : ∀ (m : GoMap Job) (j : Job),
    j ∈ jobs → jobID j ≠ [] → jobID j ∈ mapKeys (mergeJobs m jobs) := by
  induction jobs with
  | nil => intro m j h; simp at h
  | cons x rest ih =>
    intro m j h hid
    rw [mergeJobs_cons]
    simp only [List.mem_cons] at h
    rcases h with h | h
    · subst h
      rw [if_pos hid]
      exact mapKeys_subset_mergeJobs rest _ _ ((mem_mapKeys_mapSet m _ _ _).mpr (Or.inr rfl))
    · exact ih _ j h hid

theorem mergeJobs_mapSet (jobs : List Job) : ∀ (m : GoMap Job) (k : Bytes) (r : Job),
    (∀ j ∈ jobs, jobID j = [] ∨ jobID j ∈ mapKeys m) →
    mapSet (mergeJobs (mapSet m k r) jobs) k r = mapSet (mergeJobs m jobs) k r := by
  induction jobs with
  | nil => intro m k r _; simp [mergeJobs, mapSet_mapSet_same]
  | cons j rest ih =>
    intro m k r h
    have hrest : ∀ x ∈ rest, jobID x = [] ∨ jobID x ∈ mapKeys m :=
      fun x hx => h x (by simp [hx])
    rw [mergeJobs_cons, mergeJobs_cons]
    by_cases hid : jobID j = []
    · rw [if_neg (by simpa using hid), if_neg (by simpa using hid)]
      exact ih m k r hrest
    · rw [if_pos hid, if_pos hid]
      by_cases hk : jobID j = k
      · rw [hk, mapSet_mapSet_same]
      · have hmem : jobID j ∈ mapKeys m := by
          rcases h j (by simp) with h0 | h0
          · exact absurd h0 hid
          · exact h0
        rw [mapSet_comm m k (jobID j) r j (Ne.symm hk) (Or.inr hmem)]
        apply ih
        intro x hx
        rcases hrest x hx with h1 | h1
        · exact Or.inl h1
        · exact Or.inr ((mem_mapKeys_mapSet m _ _ _).mpr (Or.inl h1))

/-- Storing a sequence of records a second time changes nothing. -/
theorem mergeJobs_idempotent (jobs : List Job) : ∀ (m : GoMap Job),
    mergeJobs (mergeJobs m jobs) jobs = mergeJobs m jobs := by
  induction jobs using List.reverseRecOn with
  | nil => intro m; rfl
  | append_singleton ys j ih =>
    intro m
    rw [mergeJobs_snoc m ys j]
    by_cases hid : jobID j = []
    · rw [if_neg (by simpa using hid), mergeJobs_snoc, if_neg (by simpa using hid)]
      exact ih m
    · rw [if_pos hid, mergeJobs_snoc, if_pos hid, mergeJobs_mapSet, ih m]
      intro x hx
      by_cases hx0 : jobID x = []
      · exact Or.inl hx0
      · exact Or.inr (mem_mapKeys_mergeJobs ys m x hx hx0)

/-! ## The scroll loop -/

theorem scrollRound_allJobs (arrived : List Bytes) (st : ScrollState) :
    (scrollRound arrived st).1.allJobs
      = mergeJobs st.allJobs (drainNew (st.bodies ++ arrived) st.lastBodyIndex).1 := by
  unfold scrollRound
  simp only
  split_ifs <;> rfl

theorem scrollRound_scrolls (arrived : List Bytes) (st : ScrollState) :
    (scrollRound arrived st).1.scrolls = st.scrolls + 1 := by
  unfold scrollRound
  simp only
  split_ifs <;> rfl

theorem scrollRound_emptyScrolls (arrived : List Bytes) (st : ScrollState) :
    (scrollRound arrived st).1.emptyScrolls
      = if newCount st.allJobs (scrollRound arrived st).1.allJobs = 0
        then st.emptyScrolls + 1 else 0 := by
  rw [scrollRound_allJobs]
  unfold scrollRound
  simp only
  split_ifs <;> rfl

theorem scrollRound_break (arrived : List Bytes) (st : ScrollState) :
    (scrollRound arrived st).2 = decide ((scrollRound arrived st).1.emptyScrolls ≥ 3) := by
  unfold scrollRound
  simp only
  split_ifs <;> simp

theorem pagesAfter_scrolls (arrivals : Nat → List Bytes) (k : Nat) :
    (pagesAfter arrivals k).scrolls = k := by
  induction k with
  | zero => rfl
  | succ k ih => rw [pagesAfter, scrollRound_scrolls, ih]

/-- The loop entered after `k` passes with `n` passes left ends after some
pass `r`, the first one after `k` that leaves the counter of empty passes at
3 or more, or the last one of the budget. -/
theorem scrollLoop_spec (arrivals : Nat → List Bytes) (n : Nat) : ∀ (k : Nat),
    ∃ r, k ≤ r ∧ r ≤ k + n ∧
      scrollLoop arrivals n (k + 1) (pagesAfter arrivals k) = pagesAfter arrivals r ∧
      (∀ i, k < i → i < r → (pagesAfter arrivals i).emptyScrolls < 3) ∧
      (r = k + n ∨ (k < r ∧ (pagesAfter arrivals r).emptyScrolls ≥ 3)) := by
  induction n with
  | zero =>
    intro k
    exact ⟨k, le_refl _, le_refl _, rfl, fun i h1 h2 => absurd h1 (by omega), Or.inl rfl⟩
  | succ n ih =>
    intro k
    have hstep : (scrollRound (arrivals (k + 1)) (pagesAfter arrivals k)).1
        = pagesAfter arrivals (k + 1) := rfl
    have hbrk := scrollRound_break (arrivals (k + 1)) (pagesAfter arrivals k)
    rw [hstep] at hbrk
    unfold scrollLoop
    by_cases h3 : (pagesAfter arrivals (k + 1)).emptyScrolls ≥ 3
    · refine ⟨k + 1, by omega, by omega, ?_, fun i h1 h2 => absurd h1 (by omega),
        Or.inr ⟨by omega, h3⟩⟩
      have hb : (scrollRound (arrivals (k + 1)) (pagesAfter arrivals k)).2 = true := by
        rw [hbrk]
        exact decide_eq_true h3
      rw [← hstep]
      generalize scrollRound (arrivals (k + 1)) (pagesAfter arrivals k) = res at hb ⊢
      obtain ⟨st1, b⟩ := res
      simp only at hb
      subst hb
      rfl
    · obtain ⟨r, hr1, hr2, hr3, hr4, hr5⟩ := ih (k + 1)
      refine ⟨r, by omega, by omega, ?_, ?_, ?_⟩
      · have hb : (scrollRound (arrivals (k + 1)) (pagesAfter arrivals k)).2 = false := by
          rw [hbrk]
          exact decide_eq_false h3
        rw [← hr3, ← hstep]
        generalize scrollRound (arrivals (k + 1)) (pagesAfter arrivals k) = res at hb ⊢
        obtain ⟨st1, b⟩ := res
        simp only at hb
        subst hb
        rfl
      · intro i h1 h2
        by_cases hi : i = k + 1
        · subst hi
          omega
        · exact hr4 i (by omega) h2
      · rcases hr5 with h | ⟨h, h'⟩
        · exact Or.inl (by omega)
        · exact Or.inr ⟨by omega, h'⟩

theorem pagesAfter_emptyScrolls_succ (arrivals : Nat → List Bytes) (k : Nat) :
    (pagesAfter arrivals (k + 1)).emptyScrolls
      = if newCount (pagesAfter arrivals k).allJobs (pagesAfter arrivals (k + 1)).allJobs = 0
        then (pagesAfter arrivals k).emptyScrolls + 1 else 0 :=
  scrollRound_emptyScrolls (arrivals (k + 1)) (pagesAfter arrivals k)

theorem scrapePages_spec (arrivals : Nat → List Bytes) (maxScrolls : Int) :
    ∃ r, r ≤ scrollBudget maxScrolls ∧
      scrapePages arrivals maxScrolls = pagesAfter arrivals r ∧
      (∀ i, 0 < i → i < r → (pagesAfter arrivals i).emptyScrolls < 3) ∧
      (r = scrollBudget maxScrolls ∨ (0 < r ∧ (pagesAfter arrivals r).emptyScrolls ≥ 3)) := by
  obtain ⟨r, _, h2, h3, h4, h5⟩ := scrollLoop_spec arrivals (scrollBudget maxScrolls) 0
  refine ⟨r, by omega, h3, h4, ?_⟩
  rcases h5 with h | h
  · exact Or.inl (by omega)
  · exact Or.inr h

theorem scrapePages_scrolls (arrivals : Nat → List Bytes) (maxScrolls : Int) :
    scrapePages arrivals maxScrolls
      = pagesAfter arrivals (scrapePages arrivals maxScrolls).scrolls := by
  obtain ⟨r, _, h2, _, _⟩ := scrapePages_spec arrivals maxScrolls
  rw [h2, pagesAfter_scrolls]

theorem pagesAfter_lastBodyIndex (arrivals : Nat → List Bytes) (k : Nat) :
    (pagesAfter arrivals k).lastBodyIndex = (pagesAfter arrivals k).bodies.length := by
  cases k with
  | zero => rfl
  | succ k =>
    rw [pagesAfter]
    unfold scrollRound
    simp only
    split_ifs <;> rfl

/-- A pass for which nothing was captured adds no identifier. -/
theorem newCount_of_no_arrival (arrivals : Nat → List Bytes) (k : Nat)
    (h : arrivals (k + 1) = []) :
    newCount (pagesAfter arrivals k).allJobs (pagesAfter arrivals (k + 1)).allJobs = 0 := by
  have hall : (pagesAfter arrivals (k + 1)).allJobs = (pagesAfter arrivals k).allJobs := by
    rw [pagesAfter, scrollRound_allJobs, h, List.append_nil, pagesAfter_lastBodyIndex]
    simp [drainNew, mergeJobs]
  rw [hall]
  simp [newCount]

theorem pagesAfter_emptyScrolls_quiet (arrivals : Nat → List Bytes) (p last : Nat)
    (hquiet : ∀ r, p < r → r ≤ last →
      newCount (pagesAfter arrivals (r - 1)).allJobs (pagesAfter arrivals r).allJobs = 0)
    (d : Nat) (hd : p + d ≤ last) : (pagesAfter arrivals (p + d)).emptyScrolls ≥ d := by
  induction d with
  | zero => exact Nat.zero_le _
  | succ d ih =>
    have h := hquiet (p + d + 1) (by omega) (by omega)
    simp only [Nat.add_sub_cancel] at h
    have ih1 := ih (by omega)
    rw [← Nat.add_assoc, pagesAfter_emptyScrolls_succ, if_pos h]
    omega

/-! ## The reader never runs out of fuel -/

theorem skipSpace_length (s : Bytes) : (skipSpace s).length ≤ s.length := by
  induction s with
  | nil => simp [skipSpace]
  | cons a t ih =>
    unfold skipSpace
    split_ifs
    · simp only [List.length_cons]
      omega
    · exact le_refl _

theorem emit_eq_some (o : Bytes) (r : Option (Bytes × Bytes)) (out rest : Bytes)
    (h : emit o r = some (out, rest)) : ∃ out1, r = some (out1, rest) := by
  unfold emit at h
  cases r with
  | none => simp at h
  | some p =>
    obtain ⟨a, b⟩ := p
    simp only [Option.map_some', Option.some.injEq, Prod.mk.injEq] at h
    exact ⟨a, by rw [h.2]⟩

theorem scanString_length (s : Bytes) : ∀ (copy drop : Nat) (out rest : Bytes),
    scanString copy drop s = some (out, rest) → rest.length < s.length := by
  induction s with
  | nil => intro copy drop out rest h; simp [scanString] at h
  | cons c t ih =>
    intro copy drop out rest h
    simp only [List.length_cons]
    have hrec : ∀ (o : Bytes) (a b : Nat), emit o (scanString a b t) = some (out, rest) →
        rest.length < t.length + 1 := by
      intro o a b he
      obtain ⟨o1, h1⟩ := emit_eq_some _ _ _ _ he
      have := ih _ _ _ _ h1
      omega
    cases drop with
    | succ drop =>
      rw [scanString] at h
      have := ih _ _ _ _ h
      omega
    | zero =>
      cases copy with
      | succ copy =>
        rw [scanString] at h
        exact hrec _ _ _ h
      | zero =>
        rw [scanString] at h
        by_cases h34 : c = 34
        · rw [if_pos h34] at h
          simp only [Option.some.injEq, Prod.mk.injEq] at h
          rw [← h.2]
          omega
        · rw [if_neg h34] at h
          by_cases h92 : c = 92
          · rw [if_pos h92] at h
            split at h
            · exact hrec _ _ _ h
            · simp at h
          · rw [if_neg h92] at h
            by_cases h32 : c < 32
            · rw [if_pos h32] at h
              simp at h
            · rw [if_neg h32] at h
              by_cases h128 : c < 128
              · rw [if_pos h128] at h
                exact hrec _ _ _ h
              · rw [if_neg h128] at h
                split at h
                · exact hrec _ _ _ h
                · exact hrec _ _ _ h

theorem span_snd_length (p : Nat → Bool) (s : Bytes) : (s.span p).2.length ≤ s.length := by
  rw [List.span_eq_take_drop]
  exact (List.dropWhile_suffix p).length_le

theorem scanDigits_length (s out rest : Bytes) (h : scanDigits s = some (out, rest)) :
    rest.length ≤ s.length := by
  unfold scanDigits at h
  have hs := span_snd_length isDigit s
  split at h
  · simp at h
  · rename_i ds r hsp
    simp only [Option.some.injEq, Prod.mk.injEq] at h
    rw [hsp] at hs
    rw [← h.2]
    exact hs

theorem scanFracExp_length (s out rest : Bytes) (h : scanFracExp s = some (out, rest)) :
    rest.length ≤ s.length := by
  unfold scanFracExp at h
  simp only at h
  split at h
  · simp at h
  · rename_i f s1 hfrac
    have hs1 : s1.length ≤ s.length := by
      split at hfrac
      · obtain ⟨o1, h1⟩ := emit_eq_some _ _ _ _ hfrac
        have := scanDigits_length _ _ _ h1
        simp only [List.length_cons]
        omega
      · simp only [Option.some.injEq, Prod.mk.injEq] at hfrac
        rw [← hfrac.2]
    split at h
    · split_ifs at h
      · split at h
        · split_ifs at h
          · obtain ⟨o1, h1⟩ := emit_eq_some _ _ _ _ h
            have := scanDigits_length _ _ _ h1
            simp only [List.length_cons] at hs1
            omega
          · obtain ⟨o1, h1⟩ := emit_eq_some _ _ _ _ h
            have := scanDigits_length _ _ _ h1
            simp only [List.length_cons] at hs1 this
            omega
        · simp at h
      · simp only [Option.some.injEq, Prod.mk.injEq] at h
        rw [← h.2]
        exact hs1
    · simp only [Option.some.injEq, Prod.mk.injEq] at h
      rw [← h.2]
      exact hs1

theorem scanUnsigned_length (s out rest : Bytes) (h : scanUnsigned s = some (out, rest)) :
    rest.length < s.length := by
  unfold scanUnsigned at h
  split at h
  · rename_i c r
    simp only [List.length_cons]
    split_ifs at h
    · obtain ⟨o1, h1⟩ := emit_eq_some _ _ _ _ h
      have := scanFracExp_length _ _ _ h1
      omega
    · obtain ⟨o1, h1⟩ := emit_eq_some _ _ _ _ h
      have h3 := scanFracExp_length _ _ _ h1
      have h4 := span_snd_length isDigit r
      omega
  · simp at h

theorem scanNumber_length (s out rest : Bytes) (h : scanNumber s = some (out, rest)) :
    rest.length < s.length := by
  unfold scanNumber at h
  split at h
  · rename_i c r
    split_ifs at h
    · obtain ⟨o1, h1⟩ := emit_eq_some _ _ _ _ h
      have := scanUnsigned_length _ _ _ h1
      simp only [List.length_cons]
      omega
    · exact scanUnsigned_length _ _ _ h
  · simp at h

/-- Every reader consumes at least one byte. -/
theorem parse_length (fuel : Nat) : ∀ (depth : Nat) (s : Bytes),
    (∀ v rest, parseValue fuel depth s = some (v, rest) → rest.length < s.length) ∧
    (∀ acc v rest, parseElements fuel depth s acc = some (v, rest) → rest.length < s.length) ∧
    (∀ acc v rest, parseMembers fuel depth s acc = some (v, rest) → rest.length < s.length) := by
  induction fuel with
  | zero =>
    intro depth s
    refine ⟨?_, ?_, ?_⟩ <;> intros <;> simp_all [parseValue, parseElements, parseMembers]
  | succ n ih =>
    intro depth s
    have hsp := skipSpace_length s
    refine ⟨?_, ?_, ?_⟩
    · intro v rest h
      unfold parseValue at h
      split at h
      · simp at h
      · rename_i c r hs
        rw [hs] at hsp
        simp only [List.length_cons] at hsp
        have hsp2 := skipSpace_length r
        split_ifs at h
        · split at h
          · simp at h
          · rename_i c1 r1 hs1
            rw [hs1] at hsp2
            simp only [List.length_cons] at hsp2
            split_ifs at h
            · simp only [Option.some.injEq, Prod.mk.injEq] at h
              rw [← h.2]
              omega
            · have := (ih (depth + 1) (c1 :: r1)).2.2 _ _ _ h
              simp only [List.length_cons] at this
              omega
        · split at h
          · simp at h
          · rename_i c1 r1 hs1
            rw [hs1] at hsp2
            simp only [List.length_cons] at hsp2
            split_ifs at h
            · simp only [Option.some.injEq, Prod.mk.injEq] at h
              rw [← h.2]
              omega
            · have := (ih (depth + 1) (c1 :: r1)).2.1 _ _ _ h
              simp only [List.length_cons] at this
              omega
        · simp only [Option.map_eq_some', Prod.mk.injEq] at h
          obtain ⟨p, hp, _, hp2⟩ := h
          have := scanString_length _ _ _ _ _ hp
          rw [← hp2]
          omega
        · split at h
          · simp only [Option.some.injEq, Prod.mk.injEq] at h
            rw [← h.2]
            simp only [List.length_cons] at hsp
            omega
          · simp at h
        · split at h
          · simp only [Option.some.injEq, Prod.mk.injEq] at h
            rw [← h.2]
            simp only [List.length_cons] at hsp
            omega
          · simp at h
        · split at h
          · simp only [Option.some.injEq, Prod.mk.injEq] at h
            rw [← h.2]
            simp only [List.length_cons] at hsp
            omega
          · simp at h
        · simp only [Option.map_eq_some', Prod.mk.injEq] at h
          obtain ⟨p, hp, _, hp2⟩ := h
          have := scanNumber_length _ _ _ hp
          simp only [List.length_cons] at this
          rw [← hp2]
          omega
    · intro acc v rest h
      unfold parseElements at h
      split at h
      · simp at h
      · rename_i v1 r1 hv
        have h1 := (ih depth s).1 _ _ hv
        have hsp1 := skipSpace_length r1
        split at h
        · simp at h
        · rename_i c r2 hs2
          rw [hs2] at hsp1
          simp only [List.length_cons] at hsp1
          split_ifs at h
          · have := (ih depth r2).2.1 _ _ _ h
            omega
          · simp only [Option.some.injEq, Prod.mk.injEq] at h
            rw [← h.2]
            omega
    · intro acc v rest h
      unfold parseMembers at h
      split at h
      · simp at h
      · rename_i q r hs
        rw [hs] at hsp
        simp only [List.length_cons] at hsp
        split_ifs at h
        split at h
        · simp at h
        · rename_i key r1 hk
          have hk1 := scanString_length _ _ _ _ _ hk
          have hsp1 := skipSpace_length r1
          split at h
          · simp at h
          · rename_i c r2 hs2
            rw [hs2] at hsp1
            simp only [List.length_cons] at hsp1
            split_ifs at h
            split at h
            · simp at h
            · rename_i v1 r3 hv
              have hv1 := (ih depth r2).1 _ _ hv
              have hsp3 := skipSpace_length r3
              split at h
              · simp at h
              · rename_i d r4 hs4
                rw [hs4] at hsp3
                simp only [List.length_cons] at hsp3
                split_ifs at h
                · have := (ih depth r4).2.2 _ _ _ h
                  omega
                · simp only [Option.some.injEq, Prod.mk.injEq] at h
                  rw [← h.2]
                  omega

/-- One more unit of fuel changes nothing once the fuel is twice the length
of the input. -/
theorem parse_fuel_succ (fuel : Nat) : ∀ (depth : Nat) (s : Bytes),
    (fuel ≥ 2 * s.length + 1 → parseValue (fuel + 1) depth s = parseValue fuel depth s) ∧
    (fuel ≥ 2 * s.length + 2 →
      ∀ acc, parseElements (fuel + 1) depth s acc = parseElements fuel depth s acc) ∧
    (fuel ≥ 2 * s.length + 2 →
      ∀ acc, parseMembers (fuel + 1) depth s acc = parseMembers fuel depth s acc) := by
  induction fuel with
  | zero =>
    intro depth s
    refine ⟨?_, ?_, ?_⟩ <;> intro h <;> omega
  | succ n ih =>
    intro depth s
    have hsp := skipSpace_length s
    refine ⟨?_, ?_, ?_⟩
    · intro hf
      rw [parseValue, parseValue]
      cases hs : skipSpace s with
      | nil => rfl
      | cons c r =>
        rw [hs] at hsp
        simp only [List.length_cons] at hsp
        have hsp2 := skipSpace_length r
        simp only
        cases hs1 : skipSpace r with
        | nil => rfl
        | cons c1 r1 =>
          rw [hs1] at hsp2
          simp only [List.length_cons] at hsp2
          have hM := (ih (depth + 1) (c1 :: r1)).2.2 (by simp only [List.length_cons]; omega)
          have hE := (ih (depth + 1) (c1 :: r1)).2.1 (by simp only [List.length_cons]; omega)
          simp only [hM, hE]
    · intro hf acc
      rw [parseElements, parseElements]
      rw [(ih depth s).1 (by omega)]
      cases hv : parseValue n depth s with
      | none => rfl
      | some p =>
        obtain ⟨v, r1⟩ := p
        have h1 := (parse_length n depth s).1 _ _ hv
        have hsp1 := skipSpace_length r1
        simp only
        cases hs2 : skipSpace r1 with
        | nil => rfl
        | cons c r2 =>
          rw [hs2] at hsp1
          simp only [List.length_cons] at hsp1
          simp only
          rw [(ih depth r2).2.1 (by omega)]
    · intro hf acc
      rw [parseMembers, parseMembers]
      cases hs : skipSpace s with
      | nil => rfl
      | cons q r =>
        rw [hs] at hsp
        simp only [List.length_cons] at hsp
        simp only
        cases hk : scanString 0 0 r with
        | none => rfl
        | some p =>
          obtain ⟨key, r1⟩ := p
          have hk1 := scanString_length _ _ _ _ _ hk
          have hsp1 := skipSpace_length r1
          simp only
          cases hs2 : skipSpace r1 with
          | nil => rfl
          | cons c r2 =>
            rw [hs2] at hsp1
            simp only [List.length_cons] at hsp1
            simp only
            rw [(ih depth r2).1 (by omega)]
            cases hv : parseValue n depth r2 with
            | none => rfl
            | some p2 =>
              obtain ⟨v, r3⟩ := p2
              have hv1 := (parse_length n depth r2).1 _ _ hv
              have hsp3 := skipSpace_length r3
              simp only
              cases hs4 : skipSpace r3 with
              | nil => rfl
              | cons d r4 =>
                rw [hs4] at hsp3
                simp only [List.length_cons] at hsp3
                simp only
                rw [(ih depth r4).2.2 (by omega)]

/-- The reader gives the same result for every amount of fuel from twice the
length of the input plus two on: the fuel of `parseJSON` never runs out. -/
theorem parseValue_fuel (fuel depth : Nat) (s : Bytes) (h : fuel ≥ 2 * s.length + 2) :
    parseValue fuel depth s = parseValue (2 * s.length + 2) depth s := by
  induction fuel with
  | zero => omega
  | succ n ih =>
    by_cases hn : n + 1 = 2 * s.length + 2
    · rw [hn]
    · rw [(parse_fuel_succ n depth s).1 (by omega)]
      exact ih (by omega)

/-! ## Collecting and draining -/

theorem foldl_bodyJobs (bodies : List Bytes) : ∀ (init : List Job),
    bodies.foldl (fun all body => all ++ bodyJobs body) init
      = init ++ bodies.flatMap bodyJobs := by
  induction bodies with
  | nil => intro init; simp
  | cons b rest ih =>
    intro init
    simp only [List.foldl_cons, ih, List.flatMap_cons, List.append_assoc]

theorem collectJobs_eq (bodies : List Bytes) :
    collectJobs bodies = bodies.flatMap bodyJobs := by
  unfold collectJobs
  rw [foldl_bodyJobs]
  simp

theorem drainNew_eq (bodies : List Bytes) (lastIndex : Nat) :
    drainNew bodies lastIndex
      = ((drainRange bodies lastIndex).flatMap bodyJobs, bodies.length) := by
  unfold drainNew drainRange
  rw [foldl_bodyJobs]
  simp

/-- The records of the decodable bodies among the given ones, in order. -/
theorem flatMap_bodyJobs_eq (bodies : List Bytes) :
    bodies.flatMap bodyJobs
      = (bodies.filterMap (fun body =>
          match extractJobs body with
          | Except.ok jobs => some jobs
          | Except.error _ => none)).flatten := by
  induction bodies with
  | nil => rfl
  | cons b rest ih =>
    rw [List.flatMap_cons, ih, List.filterMap_cons]
    unfold bodyJobs
    cases extractJobs b with
    | ok jobs => simp
    | error e => simp

theorem bufferRun_snoc (events : List BufferEvent) (e : BufferEvent) :
    bufferRun (events ++ [e]) = bufferStep (bufferRun events) e := by
  simp [bufferRun, List.foldl_append]

theorem bufferRun_invariant (events : List BufferEvent) :
    (bufferRun events).lastIndex ≤ (bufferRun events).bodies.length ∧
    (bufferRun events).read.flatten
      = (bufferRun events).bodies.take (bufferRun events).lastIndex ∧
    (bufferRun events).returned = (bufferRun events).read.map (fun r => r.flatMap bodyJobs) := by
  induction events using List.reverseRecOn with
  | nil => simp [bufferRun]
  | append_singleton evs e ih =>
    rw [bufferRun_snoc]
    obtain ⟨h1, h2, h3⟩ := ih
    cases e with
    | append body =>
      simp only [bufferStep, List.length_append, List.length_singleton]
      refine ⟨by omega, ?_, h3⟩
      rw [h2, List.take_append_of_le_length h1]
    | drain =>
      simp only [bufferStep, drainNew_eq, List.flatten_append, List.flatten_cons,
        List.flatten_nil, List.append_nil, List.map_append, List.map_cons, List.map_nil]
      refine ⟨le_refl _, ?_, by rw [h3]⟩
      rw [h2, drainRange, List.take_length, List.take_append_drop]


/-! ## The two scrape operations -/

theorem SearchJobs_ok (c : HiringCafeClient) (env : Session) (query : Bytes)
    (r : ScrapeResult) (h : (SearchJobs c env query).result = Except.ok r) :
    c.ready = true ∧ env.inputError = none ∧ env.firstResult = true ∧
    r = { Query := query, Total := 0,
          Scraped := (collectJobs (env.arrivals 0)).length,
          Jobs := collectJobs (env.arrivals 0) } := by
  unfold SearchJobs at h
  cases h1 : c.ready with
  | false => simp [h1] at h
  | true =>
    cases h2 : env.inputError with
    | some err => simp [h1, h2] at h
    | none =>
      cases h3 : env.firstResult with
      | false => simp [h1, h2, h3] at h
      | true =>
        simp only [h1, h2, h3, Bool.true_eq_false, if_false, Except.ok.injEq,
          newNetworkCapture, List.nil_append] at h
        exact ⟨rfl, rfl, rfl, h.symm⟩

theorem ScrapeAll_ok (c : HiringCafeClient) (env : Session) (query : Bytes)
    (maxScrolls : Int) (r : ScrapeResult)
    (h : (ScrapeAll c env query maxScrolls).result = Except.ok r) :
    c.ready = true ∧ env.inputError = none ∧ env.firstResult = true ∧
    r = { Query := query, Total := 0,
          Scraped := ((env.rangeOrder (scrapePages env.arrivals maxScrolls).allJobs).map
            Prod.snd).length,
          Jobs := (env.rangeOrder (scrapePages env.arrivals maxScrolls).allJobs).map
            Prod.snd } := by
  unfold ScrapeAll at h
  cases h1 : c.ready with
  | false => simp [h1] at h
  | true =>
    cases h2 : env.inputError with
    | some err => simp [h1, h2] at h
    | none =>
      cases h3 : env.firstResult with
      | false => simp [h1, h2, h3] at h
      | true =>
        simp only [h1, h2, h3, Bool.true_eq_false, if_false, Except.ok.injEq] at h
        exact ⟨rfl, rfl, rfl, h.symm⟩

/-! ## The entries of the accumulator -/

theorem mem_mapSet {V : Type} (m : GoMap V) (k : Bytes) (v : V) (e : Bytes × V)
    (h : e ∈ mapSet m k v) : e ∈ m ∨ e = (k, v) := by
  induction m with
  | nil =>
    simp only [mapSet, List.mem_singleton] at h
    exact Or.inr h
  | cons x rest ih =>
    obtain ⟨k1, v1⟩ := x
    unfold mapSet at h
    split_ifs at h with hk
    · simp only [List.mem_cons] at h
      rcases h with h | h
      · right
        rw [h, hk]
      · left
        exact List.mem_cons_of_mem _ h
    · simp only [List.mem_cons] at h
      rcases h with h | h
      · left
        rw [h]
        exact List.mem_cons_self _ _
      · rcases ih h with h2 | h2
        · left
          exact List.mem_cons_of_mem _ h2
        · exact Or.inr h2

theorem nodup_mapKeys_mapSet {V : Type} (m : GoMap V) (k : Bytes) (v : V)
    (h : (mapKeys m).Nodup) : (mapKeys (mapSet m k v)).Nodup := by
  by_cases hk : k ∈ mapKeys m
  · rw [mapKeys_mapSet_of_mem m k v hk]
    exact h
  · rw [mapKeys_mapSet_of_not_mem m k v hk]
    exact List.Nodup.append h (List.nodup_singleton k) (by
      intro a ha hb
      simp only [List.mem_singleton] at hb
      exact hk (hb ▸ ha))

/-- The accumulator built from the empty map: every entry stands under the
identifier of its record, which is not empty, and no identifier stands
twice. -/
theorem mergeJobs_entries (jobs : List Job) : ∀ (m : GoMap Job),
    (∀ e ∈ m, e.1 = jobID e.2 ∧ e.1 ≠ []) → (mapKeys m).Nodup →
    (∀ e ∈ mergeJobs m jobs, e.1 = jobID e.2 ∧ e.1 ≠ []) ∧
    (mapKeys (mergeJobs m jobs)).Nodup := by
  induction jobs with
  | nil => intro m h1 h2; exact ⟨h1, h2⟩
  | cons j rest ih =>
    intro m h1 h2
    rw [mergeJobs_cons]
    by_cases hid : jobID j = []
    · rw [if_neg (by simpa using hid)]
      exact ih m h1 h2
    · rw [if_pos hid]
      apply ih
      · intro e he
        rcases mem_mapSet m _ _ e he with h | h
        · exact h1 e h
        · rw [h]
          exact ⟨rfl, hid⟩
      · exact nodup_mapKeys_mapSet m _ _ h2

theorem mem_mapKeys_mergeJobs_iff (jobs : List Job) : ∀ (m : GoMap Job) (id : Bytes),
    id ∈ mapKeys (mergeJobs m jobs)
      ↔ id ∈ mapKeys m ∨ (id ≠ [] ∧ ∃ j ∈ jobs, jobID j = id) := by
  induction jobs with
  | nil => intro m id; simp [mergeJobs]
  | cons j rest ih =>
    intro m id
    rw [mergeJobs_cons, ih]
    by_cases hid : jobID j = []
    · rw [if_neg (by simpa using hid)]
      constructor
      · rintro (h | ⟨h1, x, hx, hx2⟩)
        · exact Or.inl h
        · exact Or.inr ⟨h1, x, List.mem_cons_of_mem _ hx, hx2⟩
      · rintro (h | ⟨h1, x, hx, hx2⟩)
        · exact Or.inl h
        · simp only [List.mem_cons] at hx
          rcases hx with hx | hx
          · subst hx
            exact absurd (hx2.trans rfl) (fun h => h1 (h ▸ hid ▸ rfl))
          · exact Or.inr ⟨h1, x, hx, hx2⟩
    · rw [if_pos hid, mem_mapKeys_mapSet]
      constructor
      · rintro ((h | h) | ⟨h1, x, hx, hx2⟩)
        · exact Or.inl h
        · exact Or.inr ⟨h ▸ hid, j, List.mem_cons_self _ _, h.symm⟩
        · exact Or.inr ⟨h1, x, List.mem_cons_of_mem _ hx, hx2⟩
      · rintro (h | ⟨h1, x, hx, hx2⟩)
        · exact Or.inl (Or.inl h)
        · simp only [List.mem_cons] at hx
          rcases hx with hx | hx
          · subst hx
            exact Or.inl (Or.inr hx2.symm)
          · exact Or.inr ⟨h1, x, hx, hx2⟩

theorem scrollRound_bodies (arrived : List Bytes) (st : ScrollState) :
    (scrollRound arrived st).1.bodies = st.bodies ++ arrived := by
  unfold scrollRound
  simp only
  split_ifs <;> rfl

/-- The accumulator after any number of passes holds the records of all the
bodies captured so far, stored one after the other into the empty map. -/
theorem pagesAfter_allJobs (arrivals : Nat → List Bytes) (k : Nat) :
    (pagesAfter arrivals k).allJobs
      = mergeJobs [] ((pagesAfter arrivals k).bodies.flatMap bodyJobs) := by
  induction k with
  | zero => simp [pagesAfter, firstPage, drainNew_eq, drainRange]
  | succ k ih =>
    rw [pagesAfter, scrollRound_allJobs, scrollRound_bodies, pagesAfter_lastBodyIndex,
      drainNew_eq, drainRange, List.drop_left, List.flatMap_append, mergeJobs_append, ← ih]

/-! ## The run-time checks of `extractJobs` -/

theorem rawBodyChecked_eq (body : Bytes) : rawBodyChecked body = some (rawBody body) := by
  unfold rawBodyChecked rawBody
  cases base64DecodeString body with
  | none => rfl
  | some decoded =>
    cases decoded with
    | nil => rfl
    | cons a rest =>
      simp only [List.length_cons, List.getElem?_cons_zero, List.head?_cons, Option.some.injEq]
      split_ifs <;> rfl

theorem fromEnvelopeChecked_eq (raw : Bytes) :
    fromEnvelopeChecked raw = some (fromEnvelope raw) := by
  unfold fromEnvelopeChecked fromEnvelope
  cases unmarshalJobsResponse raw with
  | none => rfl
  | some structured =>
    simp only
    cases firstNonEmpty [structured.Results, structured.Jobs, structured.Data,
        structured.Items, structured.Content] with
    | some list => rfl
    | none =>
      simp only
      cases structured.Hits with
      | none => rfl
      | some hits =>
        simp only [Option.isSome_some, if_true]
        split_ifs <;> rfl

theorem extractJobsChecked_eq (body : Bytes) :
    extractJobsChecked body = some (extractJobs body) := by
  unfold extractJobsChecked extractJobs extractFrom
  rw [rawBodyChecked_eq]
  simp only [fromEnvelopeChecked_eq]
  cases fromEnvelope (rawBody body) with
  | some list => rfl
  | none =>
    simp only
    have hprev : (if body.length > 200 then slicePrefix body 200 else some body)
        = some (if body.length > 200 then body.take 200 else body) := by
      unfold slicePrefix
      split_ifs with h1 h2
      · rfl
      · omega
      · rfl
    cases unmarshalJobList (rawBody body) with
    | none => simp only [hprev]
    | some directList =>
      cases directList with
      | nil => simp only [hprev, List.length_nil, gt_iff_lt, lt_self_iff_false, if_false]
      | cons j rest => simp

/-! ## The batches of a sync -/

/-- The part of the jobs that the call number `k` carries. -/
theorem batch_take_drop (jobs : List ConvexJob) (k : Nat) :
    (jobs.take (if 50 * k + batchSize > jobs.length then jobs.length else 50 * k + batchSize)).drop
        (50 * k)
      = (jobs.take (min (50 * (k + 1)) jobs.length)).drop (50 * k) := by
  unfold batchSize
  congr 2
  split_ifs with h
  · omega
  · omega

theorem flatten_batches (jobs : List ConvexJob) (m : Nat) :
    ((List.range m).map (fun k =>
        (jobs.take (min (50 * (k + 1)) jobs.length)).drop (50 * k))).flatten
      = jobs.take (50 * m) := by
  induction m with
  | zero => simp
  | succ m ih =>
    rw [List.range_succ, List.map_append, List.flatten_append, ih]
    simp only [List.map_cons, List.map_nil, List.flatten_cons, List.flatten_nil,
      List.append_nil]
    have h1 : jobs.take (min (50 * (m + 1)) jobs.length) = jobs.take (50 * (m + 1)) := by
      by_cases hle : 50 * (m + 1) ≤ jobs.length
      · rw [Nat.min_eq_left hle]
      · rw [Nat.min_eq_right (by omega), List.take_of_length_le (le_refl _),
          List.take_of_length_le (by omega)]
    rw [h1]
    have h2 : jobs.take (50 * m) = (jobs.take (50 * (m + 1))).take (50 * m) := by
      rw [List.take_take]
      congr 1
      omega
    rw [h2]
    exact List.take_append_drop _ _

theorem pushBatches_ok (toInt : Bytes → Int)
    (callMutation : Nat → Bytes → List ConvexJob → Except Bytes JValue)
    (jobs : List ConvexJob)
    (hok : ∀ k, 50 * k < jobs.length → ∃ v,
      callMutation k (utf8 "jobs:bulkUpsert")
        ((jobs.take (min (50 * (k + 1)) jobs.length)).drop (50 * k)) = Except.ok v) :
    ∀ (fuel k : Nat) (acc : Pushed), acc.calls.length = k → acc.err = none →
      jobs.length ≤ 50 * (k + fuel) →
      pushBatches toInt callMutation jobs fuel (50 * k) acc
        = { err := none,
            calls := acc.calls ++ (List.range' k ((jobs.length + 49) / 50 - k)).map (fun j =>
              (utf8 "jobs:bulkUpsert",
                (jobs.take (min (50 * (j + 1)) jobs.length)).drop (50 * j))),
            totalInserted := acc.totalInserted
              + ((List.range' k ((jobs.length + 49) / 50 - k)).map (fun j =>
                  reportedCount toInt "inserted" (callMutation j (utf8 "jobs:bulkUpsert")
                    ((jobs.take (min (50 * (j + 1)) jobs.length)).drop (50 * j))))).sum,
            totalUpdated := acc.totalUpdated
              + ((List.range' k ((jobs.length + 49) / 50 - k)).map (fun j =>
                  reportedCount toInt "updated" (callMutation j (utf8 "jobs:bulkUpsert")
                    ((jobs.take (min (50 * (j + 1)) jobs.length)).drop (50 * j))))).sum,
            totalSkipped := acc.totalSkipped
              + ((List.range' k ((jobs.length + 49) / 50 - k)).map (fun j =>
                  reportedCount toInt "skipped" (callMutation j (utf8 "jobs:bulkUpsert")
                    ((jobs.take (min (50 * (j + 1)) jobs.length)).drop (50 * j))))).sum } := by
  intro fuel
  induction fuel with
  | zero =>
    intro k acc _ herr hfuel
    have h0 : (jobs.length + 49) / 50 - k = 0 := by omega
    rw [h0]
    cases acc
    simp only at herr
    simp [pushBatches, herr]
  | succ fuel ih =>
    intro k acc hk herr hfuel
    unfold pushBatches
    by_cases hlt : 50 * k < jobs.length
    · have hs : (jobs.length + 49) / 50 - k = ((jobs.length + 49) / 50 - (k + 1)) + 1 := by
        omega
      rw [if_pos hlt, hs, List.range'_succ]
      simp only [batch_take_drop, hk]
      obtain ⟨v, hv⟩ := hok k hlt
      have hstep : 50 * k + batchSize = 50 * (k + 1) := by unfold batchSize; omega
      rw [hv, hstep]
      cases v with
      | object r =>
        simp only
        rw [ih (k + 1) _ (by simp [hk]) rfl (by omega)]
        simp only [List.map_cons, List.sum_cons, hv, reportedCount, List.append_assoc,
          List.singleton_append, add_assoc]
      | null =>
        simp only
        rw [ih (k + 1) _ (by simp [hk]) (by exact herr) (by omega)]
        simp only [List.map_cons, List.sum_cons, hv, reportedCount, List.append_assoc,
          List.singleton_append, zero_add]
      | bool b =>
        simp only
        rw [ih (k + 1) _ (by simp [hk]) (by exact herr) (by omega)]
        simp only [List.map_cons, List.sum_cons, hv, reportedCount, List.append_assoc,
          List.singleton_append, zero_add]
      | number t =>
        simp only
        rw [ih (k + 1) _ (by simp [hk]) (by exact herr) (by omega)]
        simp only [List.map_cons, List.sum_cons, hv, reportedCount, List.append_assoc,
          List.singleton_append, zero_add]
      | string t =>
        simp only
        rw [ih (k + 1) _ (by simp [hk]) (by exact herr) (by omega)]
        simp only [List.map_cons, List.sum_cons, hv, reportedCount, List.append_assoc,
          List.singleton_append, zero_add]
      | array t =>
        simp only
        rw [ih (k + 1) _ (by simp [hk]) (by exact herr) (by omega)]
        simp only [List.map_cons, List.sum_cons, hv, reportedCount, List.append_assoc,
          List.singleton_append, zero_add]
    · have h0 : (jobs.length + 49) / 50 - k = 0 := by omega
      rw [if_neg hlt, h0]
      cases acc
      simp only at herr
      simp [herr]

/-! ## The result cache -/

theorem scrapeAndStore_scrape (s : Server) (env : Session) (stored : Int) (query : Bytes) :
    (scrapeAndStore s env stored query).scrape = some (SearchJobs s.client env query) := by
  unfold scrapeAndStore
  dsimp only
  cases hres : (SearchJobs s.client env query).result <;> rfl

theorem scrapeAndStore_result (s : Server) (env : Session) (stored : Int) (query : Bytes) :
    (scrapeAndStore s env stored query).result = (SearchJobs s.client env query).result := by
  unfold scrapeAndStore
  dsimp only
  cases hres : (SearchJobs s.client env query).result <;> rfl

theorem scrapeAndStore_cache (s : Server) (env : Session) (stored : Int) (query : Bytes) :
    (scrapeAndStore s env stored query).server.cache
      = match (SearchJobs s.client env query).result with
        | Except.ok r => mapSet s.cache query { Result := r, CachedAt := stored }
        | Except.error _ => s.cache := by
  unfold scrapeAndStore
  dsimp only
  cases hres : (SearchJobs s.client env query).result <;> rfl

theorem scrapeAndStore_cacheTTL (s : Server) (env : Session) (stored : Int) (query : Bytes) :
    (scrapeAndStore s env stored query).server.cacheTTL = s.cacheTTL := by
  unfold scrapeAndStore
  dsimp only
  cases hres : (SearchJobs s.client env query).result <;> rfl

/-- What `doSearch` is on a hit and on a miss. -/
theorem doSearch_cases (s : Server) (env : Session) (now stored : Int) (query : Bytes) :
    ((∃ entry, mapGet s.cache query = some entry ∧ now - entry.CachedAt < s.cacheTTL ∧
        doSearch s env now stored query
          = { result := Except.ok entry.Result, server := s, scrape := none }) ∨
     ((¬ ∃ entry, mapGet s.cache query = some entry ∧ now - entry.CachedAt < s.cacheTTL) ∧
        doSearch s env now stored query = scrapeAndStore s env stored query)) := by
  unfold doSearch
  cases hget : mapGet s.cache query with
  | none => right; simp
  | some entry =>
    by_cases hage : now - entry.CachedAt < s.cacheTTL
    · left
      exact ⟨entry, rfl, hage, by simp [hage]⟩
    · right
      refine ⟨?_, by simp [hage]⟩
      rintro ⟨e, he, hlt⟩
      cases he
      exact hage hlt

/-! ## The job sent to the deployment -/

theorem strPtr_ne_empty (s : Bytes) : strPtr s ≠ some [] := by
  unfold strPtr
  split_ifs with h
  · simp
  · intro hs
    exact h (Option.some.inj hs)

theorem strPtrM_ne_empty (m : Job) (key : String) : strPtrM m key ≠ some [] := by
  unfold strPtrM
  split
  · rename_i v _
    split_ifs with h
    · intro hs
      exact h (Option.some.inj hs)
    · simp
  · simp

theorem getString_eq (m : Job) (key : String) :
    getString m key = (stringField m key).getD [] := by
  unfold getString stringField anyField
  cases m with
  | none => rfl
  | some entries =>
    simp only
    cases mapGet entries (utf8 key) with
    | none => rfl
    | some v => cases v <;> rfl

/-- The key of `runSync` is the identifier of `jobID`. -/
theorem syncKey_eq_jobID (job : Job) : syncKey job = jobID job := by
  unfold syncKey jobID
  rw [getString_eq, getString_eq]
  cases h1 : stringField job "id" with
  | none =>
    cases h2 : stringField job "objectID" with
    | none => rfl
    | some oid => cases oid <;> rfl
  | some id =>
    cases id with
    | nil =>
      cases h2 : stringField job "objectID" with
      | none => rfl
      | some oid => cases oid <;> rfl
    | cons c cs => rfl

theorem syncMerge_eq_mergeJobs (allJobs : GoMap Job) (jobs : List Job) :
    syncMerge allJobs jobs = mergeJobs allJobs jobs := by
  unfold syncMerge mergeJobs
  simp only [syncKey_eq_jobID]

/-- The fields that the section `// Defaults` leaves as they are. -/
theorem jobDefaults_fields (j : ConvexJob) :
    (jobDefaults j).ExternalID = j.ExternalID ∧
    (jobDefaults j).Description = j.Description ∧
    (jobDefaults j).SeniorityLevel = j.SeniorityLevel ∧
    (jobDefaults j).Category = j.Category ∧
    (jobDefaults j).RoleType = j.RoleType ∧
    (jobDefaults j).Requirements = j.Requirements ∧
    (jobDefaults j).SalaryCurrency = j.SalaryCurrency ∧
    (jobDefaults j).SalaryFrequency = j.SalaryFrequency ∧
    (jobDefaults j).CompanyLogo = j.CompanyLogo ∧
    (jobDefaults j).CompanyWebsite = j.CompanyWebsite ∧
    (jobDefaults j).CompanyLinkedin = j.CompanyLinkedin ∧
    (jobDefaults j).CompanyIndustry = j.CompanyIndustry ∧
    (jobDefaults j).CompanyTagline = j.CompanyTagline :=
  ⟨rfl, rfl, rfl, rfl, rfl, rfl, rfl, rfl, rfl, rfl, rfl, rfl, rfl⟩

/-- The fields that the section `// Processed company data` leaves as they
are. -/
theorem processedCompanyData_kept (raw : Job) (j : ConvexJob) :
    (processedCompanyData raw j).ExternalID = j.ExternalID ∧
    (processedCompanyData raw j).Description = j.Description ∧
    (processedCompanyData raw j).SeniorityLevel = j.SeniorityLevel ∧
    (processedCompanyData raw j).Category = j.Category ∧
    (processedCompanyData raw j).RoleType = j.RoleType ∧
    (processedCompanyData raw j).Requirements = j.Requirements ∧
    (processedCompanyData raw j).SalaryCurrency = j.SalaryCurrency ∧
    (processedCompanyData raw j).SalaryFrequency = j.SalaryFrequency := by
  unfold processedCompanyData
  cases mapField raw "v5_processed_company_data" with
  | none => exact ⟨rfl, rfl, rfl, rfl, rfl, rfl, rfl, rfl⟩
  | some pcd => exact ⟨rfl, rfl, rfl, rfl, rfl, rfl, rfl, rfl⟩

/-- The fields that the section `// Processed job data` leaves as they are. -/
theorem processedJobData_kept (raw : Job) (j : ConvexJob) :
    (processedJobData raw j).ExternalID = j.ExternalID ∧
    (processedJobData raw j).Description = j.Description ∧
    (processedJobData raw j).CompanyLogo = j.CompanyLogo ∧
    (processedJobData raw j).CompanyWebsite = j.CompanyWebsite ∧
    (processedJobData raw j).CompanyLinkedin = j.CompanyLinkedin := by
  unfold processedJobData
  cases mapField raw "v5_processed_job_data" with
  | none => exact ⟨rfl, rfl, rfl, rfl, rfl⟩
  | some pjd => exact ⟨rfl, rfl, rfl, rfl, rfl⟩

/-- The fields that the section `// Job info` leaves as they are. -/
theorem jobInfo_kept (raw : Job) (j : ConvexJob) :
    (jobInfo raw j).ExternalID = j.ExternalID ∧
    (jobInfo raw j).SeniorityLevel = j.SeniorityLevel ∧
    (jobInfo raw j).Category = j.Category ∧
    (jobInfo raw j).RoleType = j.RoleType ∧
    (jobInfo raw j).Requirements = j.Requirements ∧
    (jobInfo raw j).SalaryCurrency = j.SalaryCurrency ∧
    (jobInfo raw j).SalaryFrequency = j.SalaryFrequency ∧
    (jobInfo raw j).CompanyLogo = j.CompanyLogo ∧
    (jobInfo raw j).CompanyWebsite = j.CompanyWebsite ∧
    (jobInfo raw j).CompanyLinkedin = j.CompanyLinkedin ∧
    (jobInfo raw j).CompanyIndustry = j.CompanyIndustry ∧
    (jobInfo raw j).CompanyTagline = j.CompanyTagline := by
  unfold jobInfo
  cases mapField raw "job_information" with
  | none => exact ⟨rfl, rfl, rfl, rfl, rfl, rfl, rfl, rfl, rfl, rfl, rfl, rfl⟩
  | some info => exact ⟨rfl, rfl, rfl, rfl, rfl, rfl, rfl, rfl, rfl, rfl, rfl, rfl⟩

theorem jobInfo_Description (raw : Job) (j : ConvexJob) :
    (jobInfo raw j).Description
      = match mapField raw "job_information" with
        | some info =>
          strPtr (if (getStringM (some info) "description").length > 10000
            then (getStringM (some info) "description").take 10000
            else getStringM (some info) "description")
        | none => j.Description := by
  unfold jobInfo
  cases mapField raw "job_information" with
  | none => rfl
  | some info => rfl

theorem TransformJob_ExternalID (now : Int) (raw : Job) :
    (TransformJob now raw).ExternalID = getString raw "id" := by
  unfold TransformJob
  rw [(jobDefaults_fields _).1, (processedCompanyData_kept _ _).1,
    (processedJobData_kept _ _).1, (jobInfo_kept _ _).1]
  rfl

theorem TransformJob_Description (now : Int) (raw : Job) :
    (TransformJob now raw).Description
      = match mapField raw "job_information" with
        | some info =>
          strPtr (if (getStringM (some info) "description").length > 10000
            then (getStringM (some info) "description").take 10000
            else getStringM (some info) "description")
        | none => none := by
  unfold TransformJob
  rw [(jobDefaults_fields _).2.1, (processedCompanyData_kept _ _).2.1,
    (processedJobData_kept _ _).2.1, jobInfo_Description]
  rfl

/-- A section of `TransformJob` that assigns an optional string field assigns
nil or a string that is not empty, the first element of `industries` apart. -/
theorem processedJobData_optional (raw : Job) (j : ConvexJob) :
    ((processedJobData raw j).SeniorityLevel = some [] → j.SeniorityLevel = some []) ∧
    ((processedJobData raw j).Category = some [] → j.Category = some []) ∧
    ((processedJobData raw j).RoleType = some [] → j.RoleType = some []) ∧
    ((processedJobData raw j).Requirements = some [] → j.Requirements = some []) ∧
    ((processedJobData raw j).SalaryCurrency = some [] → j.SalaryCurrency = some []) ∧
    ((processedJobData raw j).SalaryFrequency = some [] → j.SalaryFrequency = some []) ∧
    ((processedJobData raw j).CompanyIndustry = some [] → j.CompanyIndustry = some []) ∧
    ((processedJobData raw j).CompanyTagline = some [] → j.CompanyTagline = some []) := by
  unfold processedJobData
  cases mapField raw "v5_processed_job_data" with
  | none => exact ⟨id, id, id, id, id, id, id, id⟩
  | some pjd =>
    exact ⟨fun h => absurd h (strPtrM_ne_empty _ _), fun h => absurd h (strPtrM_ne_empty _ _),
      fun h => absurd h (strPtrM_ne_empty _ _), fun h => absurd h (strPtrM_ne_empty _ _),
      fun h => absurd h (strPtrM_ne_empty _ _), fun h => absurd h (strPtrM_ne_empty _ _),
      fun h => absurd h (strPtrM_ne_empty _ _), fun h => absurd h (strPtrM_ne_empty _ _)⟩

theorem processedCompanyData_optional (raw : Job) (j : ConvexJob) :
    ((processedCompanyData raw j).CompanyLogo = some [] → j.CompanyLogo = some []) ∧
    ((processedCompanyData raw j).CompanyWebsite = some [] → j.CompanyWebsite = some []) ∧
    ((processedCompanyData raw j).CompanyLinkedin = some [] → j.CompanyLinkedin = some []) ∧
    ((processedCompanyData raw j).CompanyTagline = some [] → j.CompanyTagline = some []) ∧
    ((processedCompanyData raw j).CompanyIndustry = some [] →
      j.CompanyIndustry = some [] ∨
      (j.CompanyIndustry = none ∧ ∃ pcd,
        mapField raw "v5_processed_company_data" = some pcd ∧
        (getStringArrayM (some pcd) "industries").head? = some [])) := by
  unfold processedCompanyData
  cases hpcd : mapField raw "v5_processed_company_data" with
  | none => exact ⟨id, id, id, id, Or.inl⟩
  | some pcd =>
    refine ⟨fun h => absurd h (strPtrM_ne_empty _ _), fun h => absurd h (strPtrM_ne_empty _ _),
      fun h => absurd h (strPtrM_ne_empty _ _), ?_, ?_⟩
    · intro h
      simp only at h
      split_ifs at h with hnone
      · exact absurd h (strPtrM_ne_empty _ _)
      · exact h
    · intro h
      simp only at h
      split_ifs at h with hnone
      · right
        refine ⟨hnone, pcd, rfl, ?_⟩
        cases hind : getStringArrayM (some pcd) "industries" with
        | nil =>
          rw [hind] at h
          simp only at h
          rw [hnone] at h
          cases h
        | cons first rest =>
          rw [hind] at h
          simp only at h
          rw [List.head?_cons, ← h]
      · exact Or.inl h

/-- No optional string field of the result of `TransformJob` holds the empty
string, except `CompanyIndustry` when it is the first element of
`industries`. -/
theorem TransformJob_optional (now : Int) (raw : Job) :
    (TransformJob now raw).SeniorityLevel ≠ some [] ∧
    (TransformJob now raw).Category ≠ some [] ∧
    (TransformJob now raw).RoleType ≠ some [] ∧
    (TransformJob now raw).Requirements ≠ some [] ∧
    (TransformJob now raw).Description ≠ some [] ∧
    (TransformJob now raw).SalaryCurrency ≠ some [] ∧
    (TransformJob now raw).SalaryFrequency ≠ some [] ∧
    (TransformJob now raw).CompanyLogo ≠ some [] ∧
    (TransformJob now raw).CompanyWebsite ≠ some [] ∧
    (TransformJob now raw).CompanyLinkedin ≠ some [] ∧
    (TransformJob now raw).CompanyTagline ≠ some [] ∧
    ((TransformJob now raw).CompanyIndustry = some [] →
      ∃ pcd, mapField raw "v5_processed_company_data" = some pcd ∧
        (getStringArrayM (some pcd) "industries").head? = some []) := by
  have hd := jobDefaults_fields
    (processedCompanyData raw (processedJobData raw (jobInfo raw (initialJob now raw))))
  have hck := processedCompanyData_kept raw (processedJobData raw (jobInfo raw (initialJob now raw)))
  have hco := processedCompanyData_optional raw
    (processedJobData raw (jobInfo raw (initialJob now raw)))
  have hjk := processedJobData_kept raw (jobInfo raw (initialJob now raw))
  have hjo := processedJobData_optional raw (jobInfo raw (initialJob now raw))
  have hik := jobInfo_kept raw (initialJob now raw)
  obtain ⟨-, -, d3, d4, d5, d6, d7, d8, d9, d10, d11, d12, d13⟩ := hd
  obtain ⟨-, -, c3, c4, c5, c6, c7, c8⟩ := hck
  obtain ⟨o1, o2, o3, o4, o5⟩ := hco
  obtain ⟨-, -, k3, k4, k5⟩ := hjk
  obtain ⟨p1, p2, p3, p4, p5, p6, p7, p8⟩ := hjo
  obtain ⟨-, i2, i3, i4, i5, i6, i7, i8, i9, i10, i11, i12⟩ := hik
  have hinit : ∀ (o : Option Bytes), o = none → o ≠ some [] := by
    intro o ho
    rw [ho]
    simp
  unfold TransformJob
  refine ⟨?_, ?_, ?_, ?_, ?_, ?_, ?_, ?_, ?_, ?_, ?_, ?_⟩
  · rw [d3, c3]
    intro h
    exact hinit _ (i2.trans rfl) (p1 h)
  · rw [d4, c4]
    intro h
    exact hinit _ (i3.trans rfl) (p2 h)
  · rw [d5, c5]
    intro h
    exact hinit _ (i4.trans rfl) (p3 h)
  · rw [d6, c6]
    intro h
    exact hinit _ (i5.trans rfl) (p4 h)
  · have hdesc := TransformJob_Description now raw
    unfold TransformJob at hdesc
    rw [hdesc]
    cases mapField raw "job_information" with
    | none => simp
    | some info => exact strPtr_ne_empty _
  · rw [d7, c7]
    intro h
    exact hinit _ (i6.trans rfl) (p5 h)
  · rw [d8, c8]
    intro h
    exact hinit _ (i7.trans rfl) (p6 h)
  · rw [d9]
    intro h
    have h2 := o1 h
    rw [k3] at h2
    exact hinit _ (i8.trans rfl) h2
  · rw [d10]
    intro h
    have h2 := o2 h
    rw [k4] at h2
    exact hinit _ (i9.trans rfl) h2
  · rw [d11]
    intro h
    have h2 := o3 h
    rw [k5] at h2
    exact hinit _ (i10.trans rfl) h2
  · rw [d13]
    intro h
    exact hinit _ (i12.trans rfl) (p8 (o4 h))
  · rw [d12]
    intro h
    rcases o5 h with h2 | ⟨-, pcd, hpcd, hhead⟩
    · exact absurd (p7 h2) (hinit _ (i11.trans rfl))
    · exact ⟨pcd, hpcd, hhead⟩

/-! ## The lists that `extractJobs` returns -/

theorem firstNonEmpty_length (lists : List (List Job)) (list : List Job)
    (h : firstNonEmpty lists = some list) : list.length > 0 := by
  induction lists with
  | nil => cases h
  | cons l rest ih =>
    unfold firstNonEmpty at h
    split_ifs at h with hl
    · cases h
      exact hl
    · exact ih h

theorem fromEnvelope_length (raw : Bytes) (list : List Job)
    (h : fromEnvelope raw = some list) : list.length > 0 := by
  unfold fromEnvelope at h
  cases hs : unmarshalJobsResponse raw with
  | none =>
    rw [hs] at h
    cases h
  | some structured =>
    rw [hs] at h
    simp only at h
    cases hf : firstNonEmpty [structured.Results, structured.Jobs, structured.Data,
        structured.Items, structured.Content] with
    | some l =>
      rw [hf] at h
      cases h
      exact firstNonEmpty_length _ _ hf
    | none =>
      rw [hf] at h
      simp only at h
      cases hh : structured.Hits with
      | none =>
        rw [hh] at h
        cases h
      | some hits =>
        rw [hh] at h
        simp only at h
        split_ifs at h with h1 h2
        cases h
        exact h2

theorem extractFrom_length (raw body : Bytes) (jobs : List Job)
    (h : extractFrom raw body = Except.ok jobs) : jobs.length > 0 := by
  unfold extractFrom at h
  cases he : fromEnvelope raw with
  | some list =>
    rw [he] at h
    cases h
    exact fromEnvelope_length raw _ he
  | none =>
    rw [he] at h
    simp only at h
    cases hl : unmarshalJobList raw with
    | none =>
      rw [hl] at h
      cases h
    | some directList =>
      rw [hl] at h
      simp only at h
      split_ifs at h with h1
      cases h
      exact h1

/-! ## A sync that fails -/

/-- A pass of the loop of `PushToConvex` whose call succeeds. -/
theorem pushBatches_step_ok (toInt : Bytes → Int)
    (callMutation : Nat → Bytes → List ConvexJob → Except Bytes JValue)
    (jobs : List ConvexJob) (fuel k : Nat) (acc : Pushed) (v : JValue)
    (hk : acc.calls.length = k) (herr : acc.err = none) (hlt : 50 * k < jobs.length)
    (hv : callMutation k (utf8 "jobs:bulkUpsert")
      ((jobs.take (min (50 * (k + 1)) jobs.length)).drop (50 * k)) = Except.ok v) :
    pushBatches toInt callMutation jobs (fuel + 1) (50 * k) acc
      = pushBatches toInt callMutation jobs fuel (50 * (k + 1))
          { err := none,
            calls := acc.calls ++ [(utf8 "jobs:bulkUpsert",
              (jobs.take (min (50 * (k + 1)) jobs.length)).drop (50 * k))],
            totalInserted := acc.totalInserted + reportedCount toInt "inserted" (Except.ok v),
            totalUpdated := acc.totalUpdated + reportedCount toInt "updated" (Except.ok v),
            totalSkipped := acc.totalSkipped + reportedCount toInt "skipped" (Except.ok v) } := by
  have hstep : 50 * k + batchSize = 50 * (k + 1) := by unfold batchSize; omega
  rw [pushBatches, if_pos hlt]
  simp only [batch_take_drop, hk]
  rw [hv, hstep]
  cases acc
  simp only at herr
  cases v <;> simp [reportedCount, herr]

/-- A pass of the loop of `PushToConvex` whose call fails. -/
theorem pushBatches_step_error (toInt : Bytes → Int)
    (callMutation : Nat → Bytes → List ConvexJob → Except Bytes JValue)
    (jobs : List ConvexJob) (fuel k : Nat) (acc : Pushed) (e : Bytes)
    (hk : acc.calls.length = k) (hlt : 50 * k < jobs.length)
    (hv : callMutation k (utf8 "jobs:bulkUpsert")
      ((jobs.take (min (50 * (k + 1)) jobs.length)).drop (50 * k)) = Except.error e) :
    pushBatches toInt callMutation jobs (fuel + 1) (50 * k) acc
      = { acc with
          err := some (utf8 "batch " ++ decimal (50 * k + 1) ++ utf8 "-"
            ++ decimal (min (50 * (k + 1)) jobs.length) ++ utf8 " failed: " ++ e),
          calls := acc.calls ++ [(utf8 "jobs:bulkUpsert",
            (jobs.take (min (50 * (k + 1)) jobs.length)).drop (50 * k))] } := by
  have hlast : (if 50 * k + batchSize > jobs.length then jobs.length else 50 * k + batchSize)
      = min (50 * (k + 1)) jobs.length := by
    unfold batchSize
    split_ifs with h
    · omega
    · omega
  rw [pushBatches, if_pos hlt]
  simp only [batch_take_drop, hk, hv, hlast]

theorem pushBatches_fail (toInt : Bytes → Int)
    (callMutation : Nat → Bytes → List ConvexJob → Except Bytes JValue)
    (jobs : List ConvexJob) (k : Nat) (e : Bytes) (hlt : 50 * k < jobs.length)
    (hok : ∀ i, i < k → ∃ v,
      callMutation i (utf8 "jobs:bulkUpsert")
        ((jobs.take (min (50 * (i + 1)) jobs.length)).drop (50 * i)) = Except.ok v)
    (hfail : callMutation k (utf8 "jobs:bulkUpsert")
      ((jobs.take (min (50 * (k + 1)) jobs.length)).drop (50 * k)) = Except.error e) :
    ∀ (fuel j : Nat) (acc : Pushed), acc.calls.length = j → acc.err = none → j ≤ k →
      jobs.length ≤ 50 * (j + fuel) →
      (pushBatches toInt callMutation jobs fuel (50 * j) acc).err
        = some (utf8 "batch " ++ decimal (50 * k + 1) ++ utf8 "-"
            ++ decimal (min (50 * (k + 1)) jobs.length) ++ utf8 " failed: " ++ e) ∧
      (pushBatches toInt callMutation jobs fuel (50 * j) acc).calls
        = acc.calls ++ (List.range' j (k + 1 - j)).map (fun i =>
            (utf8 "jobs:bulkUpsert",
              (jobs.take (min (50 * (i + 1)) jobs.length)).drop (50 * i))) := by
  intro fuel
  induction fuel with
  | zero =>
    intro j acc _ _ hjk hfuel
    omega
  | succ fuel ih =>
    intro j acc hj herr hjk hfuel
    rcases Nat.lt_or_eq_of_le hjk with hlt2 | heq
    · obtain ⟨v, hv⟩ := hok j hlt2
      rw [pushBatches_step_ok toInt callMutation jobs fuel j acc v hj herr (by omega) hv]
      have hs : k + 1 - j = (k + 1 - (j + 1)) + 1 := by omega
      have := ih (j + 1)
        { err := none,
          calls := acc.calls ++ [(utf8 "jobs:bulkUpsert",
            (jobs.take (min (50 * (j + 1)) jobs.length)).drop (50 * j))],
          totalInserted := acc.totalInserted + reportedCount toInt "inserted" (Except.ok v),
          totalUpdated := acc.totalUpdated + reportedCount toInt "updated" (Except.ok v),
          totalSkipped := acc.totalSkipped + reportedCount toInt "skipped" (Except.ok v) }
        (by simp [hj]) rfl (by omega) (by omega)
      rw [this.1, this.2, hs, List.range'_succ]
      simp
    · subst heq
      rw [pushBatches_step_error toInt callMutation jobs fuel j acc e hj hlt hfail]
      have hs : j + 1 - j = 1 := by omega
      rw [hs]
      simp

/-! ## The listener of the capture buffer -/

theorem Contains_iff (s substr : Bytes) : Contains s substr = true ↔ substr <:+: s := by
  unfold Contains
  rw [List.any_eq_true, List.infix_iff_prefix_suffix]
  constructor
  · rintro ⟨t, ht, hp⟩
    exact ⟨t, List.isPrefixOf_iff_prefix.mp hp, (List.mem_tails _ _).mp ht⟩
  · rintro ⟨t, hp, ht⟩
    exact ⟨t, (List.mem_tails _ _).mpr ht, List.isPrefixOf_iff_prefix.mpr hp⟩

theorem mapGet_mapDelete_self {V : Type} (m : GoMap V) (k : Bytes) :
    mapGet (mapDelete m k) k = none := by
  induction m with
  | nil => rfl
  | cons entry rest ih =>
    unfold mapDelete at ih ⊢
    rw [List.filter_cons]
    by_cases h : entry.1 = k
    · simp only [h, ne_eq, not_true_eq_false, decide_False, Bool.false_eq_true, if_false]
      exact ih
    · simp only [ne_eq, h, not_false_eq_true, decide_True, if_true]
      obtain ⟨k1, v1⟩ := entry
      simp only at h
      simp only [mapGet, h, if_false]
      exact ih

theorem mapGet_mapDelete_ne {V : Type} (m : GoMap V) (k id : Bytes) (h : k ≠ id) :
    mapGet (mapDelete m k) id = mapGet m id := by
  induction m with
  | nil => rfl
  | cons entry rest ih =>
    unfold mapDelete at ih ⊢
    rw [List.filter_cons]
    obtain ⟨k1, v1⟩ := entry
    by_cases h1 : k1 = k
    · subst h1
      simp only [ne_eq, not_true_eq_false, decide_False, Bool.false_eq_true, if_false]
      rw [ih]
      simp only [mapGet, h, if_false]
    · simp only [ne_eq, h1, not_false_eq_true, decide_True, if_true]
      simp only [mapGet]
      rw [ih]

theorem listenAll_snoc (nc : networkCapture) (events : List NetworkEvent) (ev : NetworkEvent) :
    listenAll nc (events ++ [ev]) = listen (listenAll nc events) ev := by
  simp [listenAll, List.foldl_append]

theorem onLoadingFinished_pending (nc : networkCapture) (e : NetworkLoadingFinished)
    (fetch : Except Bytes NetworkGetResponseBodyResult) :
    (onLoadingFinished nc e fetch).pendingRequests = mapDelete nc.pendingRequests e.RequestID := by
  unfold onLoadingFinished
  cases mapGet nc.pendingRequests e.RequestID with
  | none => rfl
  | some url => cases fetch <;> rfl

/-- The entry of a request after an event, by whether the event touches it. -/
theorem mapGet_listen (nc : networkCapture) (ev : NetworkEvent) (id : Bytes) :
    mapGet (listen nc ev).pendingRequests id
      = if touches id ev then
          match ev with
          | NetworkEvent.responseReceived e => some e.Response.URL
          | _ => none
        else mapGet nc.pendingRequests id := by
  cases ev with
  | responseReceived e =>
    simp only [listen, touches, onResponseReceived]
    by_cases hs : isSearchResponse e.Response = true
    · by_cases hid : e.RequestID = id
      · simp only [hs, hid, if_true, decide_True, Bool.and_self]
        exact mapGet_mapSet_self _ _ _
      · simp only [hs, hid, if_true, decide_False, Bool.false_and, Bool.false_eq_true, if_false]
        exact mapGet_mapSet_ne _ _ _ _ hid
    · simp [hs]
  | loadingFinished e fetch =>
    simp only [listen, touches, onLoadingFinished_pending]
    by_cases hid : e.RequestID = id
    · simp only [hid, decide_True, if_true]
      exact mapGet_mapDelete_self _ _
    · simp only [hid, decide_False, Bool.false_eq_true, if_false]
      exact mapGet_mapDelete_ne _ _ _ hid
  | loadingFailed requestID => rfl

/-- The table after a sequence of events holds a request exactly when the
last event that touches its entry is a response received, with its URL. -/
theorem mapGet_listenAll (events : List NetworkEvent) (id : Bytes) :
    mapGet (listenAll newNetworkCapture events).pendingRequests id
      = match (events.filter (touches id)).getLast? with
        | some (NetworkEvent.responseReceived e) => some e.Response.URL
        | _ => none := by
  induction events using List.reverseRecOn with
  | nil => rfl
  | append_singleton evs ev ih =>
    rw [listenAll_snoc, mapGet_listen, List.filter_append]
    by_cases ht : touches id ev = true
    · simp only [ht, if_true, List.filter_cons, List.filter_nil, List.getLast?_append,
        List.getLast?_singleton]
      cases ev <;> simp
    · simp only [ht, Bool.false_eq_true, if_false, List.filter_cons, List.filter_nil,
        List.append_nil]
      exact ih

theorem isSearchResponse_iff (r : NetworkResponse) :
    isSearchResponse r = true ↔
      utf8 "/api/search-jobs" <:+: r.URL ∧ ¬ utf8 "get-total-count" <:+: r.URL ∧
        r.Status = 200 := by
  unfold isSearchResponse
  rw [Bool.and_eq_true, Bool.and_eq_true, Bool.not_eq_true', ← Contains_iff, ← Contains_iff]
  simp only [Bool.not_eq_true, beq_iff_eq, and_assoc]

theorem inFlight_snoc (events : List NetworkEvent) (ev : NetworkEvent) (id : Bytes) :
    inFlight (events ++ [ev]) id
      = if requestOf ev = id then
          match ev with
          | NetworkEvent.responseReceived _ => true
          | _ => false
        else inFlight events id := by
  unfold inFlight
  rw [List.filter_append]
  by_cases h : requestOf ev = id
  · simp only [h, decide_True, List.filter_cons, if_true, List.filter_nil,
      List.getLast?_append, List.getLast?_singleton]
    cases ev <;> simp
  · simp only [h, decide_False, List.filter_cons, Bool.false_eq_true, if_false,
      List.filter_nil, List.append_nil]

theorem touches_requestOf (id : Bytes) (ev : NetworkEvent) (h : touches id ev = true) :
    requestOf ev = id := by
  cases ev with
  | responseReceived e =>
    simp only [touches, Bool.and_eq_true, decide_eq_true_eq] at h
    exact h.1
  | loadingFinished e fetch =>
    simp only [touches, decide_eq_true_eq] at h
    exact h
  | loadingFailed requestID => simp [touches] at h

/-- When no request is abandoned, the table holds only requests in flight. -/
theorem pending_inFlight (events : List NetworkEvent)
    (hno : ∀ ev ∈ events, ∀ requestID, ev ≠ NetworkEvent.loadingFailed requestID)
    (id url : Bytes)
    (h : mapGet (listenAll newNetworkCapture events).pendingRequests id = some url) :
    inFlight events id = true := by
  induction events using List.reverseRecOn with
  | nil => cases h
  | append_singleton evs ev ih =>
    rw [listenAll_snoc, mapGet_listen] at h
    rw [inFlight_snoc]
    have hno2 : ∀ e ∈ evs, ∀ requestID, e ≠ NetworkEvent.loadingFailed requestID :=
      fun e he => hno e (List.mem_append_left _ he)
    have hev : ∀ requestID, ev ≠ NetworkEvent.loadingFailed requestID :=
      hno ev (List.mem_append_right _ (List.mem_singleton_self _))
    by_cases hr : requestOf ev = id
    · rw [if_pos hr]
      cases ev with
      | responseReceived e => rfl
      | loadingFinished e fetch =>
        simp only [requestOf] at hr
        simp [touches, hr] at h
      | loadingFailed requestID => exact absurd rfl (hev requestID)
    · rw [if_neg hr]
      have ht : touches id ev = false := by
        cases htv : touches id ev with
        | false => rfl
        | true => exact absurd (touches_requestOf id ev htv) hr
      rw [ht] at h
      exact ih hno2 h

/-! ## The challenge loop of `Init` -/

theorem pollTitles_unsolved (titles : Nat → Except Bytes Bytes) : ∀ (left i : Nat),
    (∀ j t, i ≤ j → j < i + left → titles j = Except.ok t → titleSolved t = false) →
    pollTitles titles left i = (i + left, false) := by
  intro left
  induction left with
  | zero => intro i _; rfl
  | succ left ih =>
    intro i h
    unfold pollTitles
    have hrest := ih (i + 1) (fun j t h1 h2 => h j t (by omega) (by omega))
    cases ht : titles i with
    | error e =>
      simp only
      rw [hrest]
      congr 1
      omega
    | ok t =>
      simp only [h i t (le_refl _) (by omega) ht, Bool.false_eq_true, if_false]
      rw [hrest]
      congr 1
      omega

theorem pollTitles_solved (titles : Nat → Except Bytes Bytes) (k : Nat) (t : Bytes)
    (hk : titles k = Except.ok t) (ht : titleSolved t = true) : ∀ (left i : Nat),
    i ≤ k → k < i + left →
    (∀ j t2, i ≤ j → j < k → titles j = Except.ok t2 → titleSolved t2 = false) →
    pollTitles titles left i = (k + 1, true) := by
  intro left
  induction left with
  | zero => intro i h1 h2; omega
  | succ left ih =>
    intro i h1 h2 h
    unfold pollTitles
    rcases Nat.lt_or_eq_of_le h1 with hlt | heq
    · have hrest := ih (i + 1) (by omega) (by omega) (fun j t2 h3 h4 => h j t2 (by omega) h4)
      cases hti : titles i with
      | error e => exact hrest
      | ok t2 =>
        simp only [h i t2 (le_refl _) hlt hti, Bool.false_eq_true, if_false]
        exact hrest
    · subst heq
      simp only [hk, ht, if_true]

theorem pollTitles_le (titles : Nat → Except Bytes Bytes) : ∀ (left i : Nat),
    (pollTitles titles left i).1 ≤ i + left := by
  intro left
  induction left with
  | zero => intro i; exact le_refl _
  | succ left ih =>
    intro i
    unfold pollTitles
    have := ih (i + 1)
    cases titles i with
    | error e =>
      simp only
      omega
    | ok t =>
      simp only
      split_ifs
      · simp only
        omega
      · omega

theorem titleSolved_iff (t : Bytes) :
    titleSolved t = true ↔
      t ≠ [] ∧ ¬ utf8 "vercel" <:+: ToLower t ∧ ¬ utf8 "security" <:+: ToLower t ∧
        ¬ utf8 "checkpoint" <:+: ToLower t := by
  unfold titleSolved
  simp only [Bool.and_eq_true, Bool.not_eq_true', ← Contains_iff, Bool.not_eq_true,
    decide_eq_true_eq]
  tauto

/-! ## The search endpoint -/

theorem storeSearchField_Query (r r2 : SearchRequest) (kv : Bytes × JValue)
    (hkey : isField "query" kv.1 = false) (h : storeSearchField r kv = some r2) :
    r2.Query = r.Query := by
  unfold storeSearchField at h
  rw [hkey] at h
  simp only [Bool.false_eq_true, if_false] at h
  split_ifs at h
  all_goals first
    | (rw [Option.map_eq_some'] at h
       obtain ⟨v, _, hv⟩ := h
       rw [← hv])
    | (cases h
       rfl)

theorem foldlM_Query (members : List (Bytes × JValue)) : ∀ (old r : SearchRequest),
    members.foldlM storeSearchField old = some r →
    (∀ kv ∈ members, isField "query" kv.1 = false) → r.Query = old.Query := by
  induction members with
  | nil =>
    intro old r h _
    simp only [List.foldlM_nil] at h
    cases h
    rfl
  | cons kv rest ih =>
    intro old r h hkeys
    rw [List.foldlM_cons] at h
    cases hstore : storeSearchField old kv with
    | none =>
      rw [hstore] at h
      cases h
    | some r1 =>
      rw [hstore] at h
      have h1 := ih r1 r h (fun kv2 hkv2 => hkeys kv2 (List.mem_cons_of_mem _ hkv2))
      rw [h1]
      exact storeSearchField_Query old r1 kv (hkeys kv (List.mem_cons_self _ _)) hstore

theorem searchQuery_empty (s : Server) (env : Session) (now stored : Int) :
    searchQuery s env now stored []
      = { response :=
            { status := 400,
              data := Payload.failure
                { Error := utf8 "Bad Request",
                  Message := utf8 "query is required (GET: ?q=..., POST: \x7b\"query\":\"...\"\x7d)" } },
          server := s, searched := none } := by
  rfl

/-! ## Callers of `doSearch` that run at the same time -/

theorem countP_set_of_get {α : Type} (p : α → Bool) : ∀ (l : List α) (i : Nat) (c x : α),
    l[i]? = some c →
    (l.set i x).countP p + (if p c then 1 else 0) = l.countP p + (if p x then 1 else 0) := by
  intro l
  induction l with
  | nil => intro i c x h; simp at h
  | cons a rest ih =>
    intro i c x h
    cases i with
    | zero =>
      simp only [List.getElem?_cons_zero, Option.some.injEq] at h
      subst h
      simp only [List.set_cons_zero, List.countP_cons]
      omega
    | succ i =>
      simp only [List.getElem?_cons_succ] at h
      have := ih i c x h
      simp only [List.set_cons_succ, List.countP_cons]
      omega

theorem countP_pos_of_get {α : Type} (p : α → Bool) (l : List α) (i : Nat) (c : α)
    (h : l[i]? = some c) (hc : p c = true) : 0 < l.countP p := by
  rw [List.countP_pos_iff]
  exact ⟨c, List.getElem?_mem h, hc⟩

theorem holders_eq_countP (p : Pool) : p.holders = p.callers.countP Caller.holds := by
  unfold Pool.holders
  rw [List.countP_eq_length_filter]

theorem liveCount_eq_countP (p : Pool) : p.liveCount = p.callers.countP Caller.live := by
  unfold Pool.liveCount
  rw [List.countP_eq_length_filter]

theorem live_holds (c : Caller) (h : c.live = true) : c.holds = true := by
  unfold Caller.live at h
  unfold Caller.holds
  cases hp : c.phase <;> rw [hp] at h <;> simp at h ⊢

theorem liveCount_le_holders (p : Pool) : p.liveCount ≤ p.holders := by
  rw [liveCount_eq_countP, holders_eq_countP]
  exact List.countP_mono_left (fun c _ h => live_holds c h) 

/-- A statement of a caller changes the lock exactly as it changes whether the
caller holds it. -/
theorem advance_holds (s : Server) (mu : Bool) (now : Int) (c : Caller)
    (hmu : c.holds = true → mu = true) :
    (if (advance s mu now c).1.holds then 1 else 0) + (if mu then 1 else 0)
      = (if c.holds then 1 else 0) + (if (advance s mu now c).2.2 then 1 else 0) := by
  unfold advance
  cases hp : c.phase with
  | check =>
    have hc : c.holds = false := by unfold Caller.holds; rw [hp]
    simp only [hc]
    cases mapGet s.cache c.query with
    | none => simp [Caller.holds]
    | some entry =>
      by_cases hage : now - entry.CachedAt < s.cacheTTL
      · simp [hage, Caller.holds]
      · simp [hage, Caller.holds]
  | lock =>
    have hc : c.holds = false := by unfold Caller.holds; rw [hp]
    cases mu with
    | true => simp [hc]
    | false =>
      simp only [hc]
      simp [Caller.holds]
  | locked =>
    have hc : c.holds = true := by unfold Caller.holds; rw [hp]
    simp only [hc]
    simp [Caller.holds]
  | scraping =>
    have hc : c.holds = true := by unfold Caller.holds; rw [hp]
    have hm := hmu hc
    subst hm
    cases (SearchJobs s.client c.env c.query).result with
    | error err =>
      simp only [hc]
      simp [Caller.holds]
    | ok result =>
      simp only [hc]
      simp [Caller.holds]
  | store result =>
    have hc : c.holds = true := by unfold Caller.holds; rw [hp]
    have hm := hmu hc
    subst hm
    simp only [hc]
    simp [Caller.holds]
  | returned result =>
    simp

/-- The lock is held exactly when one caller holds it, and by no more. -/
theorem step_holders (tick : Int) (p : Pool) (i : Nat)
    (h : p.holders = if p.mu then 1 else 0) :
    (Pool.step tick p i).holders = if (Pool.step tick p i).mu then 1 else 0 := by
  unfold Pool.step
  cases hc : p.callers[i]? with
  | none => exact h
  | some c =>
    simp only
    rw [holders_eq_countP] at h ⊢
    simp only
    have hset := countP_set_of_get Caller.holds p.callers i c (advance p.server p.mu p.now c).1 hc
    have hmu : c.holds = true → p.mu = true := by
      intro hh
      have hpos := countP_pos_of_get Caller.holds p.callers i c hc hh
      cases hm : p.mu with
      | true => rfl
      | false =>
        rw [hm] at h
        simp only [Bool.false_eq_true, if_false] at h
        omega
    have hadv := advance_holds p.server p.mu p.now c hmu
    omega

theorem run_holders (tick : Int) (schedule : List Nat) : ∀ (p : Pool),
    (p.holders = if p.mu then 1 else 0) →
    (Pool.run tick p schedule).holders = if (Pool.run tick p schedule).mu then 1 else 0 := by
  induction schedule with
  | nil => intro p h; exact h
  | cons i rest ih =>
    intro p h
    exact ih (Pool.step tick p i) (step_holders tick p i h)

theorem start_holders (s : Server) (now : Int) (calls : List (Bytes × Session)) :
    (Pool.start s now calls).holders = 0 := by
  rw [holders_eq_countP, List.countP_eq_zero]
  intro c hc
  unfold Pool.start at hc
  simp only [List.mem_map] at hc
  obtain ⟨call, _, hcall⟩ := hc
  rw [← hcall]
  simp [Caller.holds]

theorem set_of_get {α : Type} : ∀ (l : List α) (i : Nat) (c : α),
    l[i]? = some c → l.set i c = l := by
  intro l
  induction l with
  | nil => intro i c h; simp at h
  | cons a rest ih =>
    intro i c h
    cases i with
    | zero =>
      simp only [List.getElem?_cons_zero, Option.some.injEq] at h
      rw [h]
      rfl
    | succ i =>
      simp only [List.getElem?_cons_succ] at h
      simp only [List.set_cons_succ, ih i c h]

/-! ## The claims -/

/-- C1: in the accumulator of `ScrapeAll` a record stored under an identifier
that is already present replaces the earlier record, so that after a
sequence of drained records every identifier holds the last record that
carried it.  Capturing `{"results":[{"id":"a"},{"id":"b"}]}` and then
`{"jobs":[{"id":"b"},{"id":"c"}]}` leaves exactly the three records `a`, `b`,
`c`; when the two captures differ in the record of `b`, the one of the
second capture is kept. -/
theorem c1_last_write_wins :
    (∀ (m : GoMap Job) (id : Bytes) (j : Job), mapGet (mapSet m id j) id = some j) ∧
    (∀ (m : GoMap Job) (jobs : List Job) (id : Bytes),
      mapGet (mergeJobs m jobs) id
        = match (jobs.filter (fun j => decide (jobID j = id ∧ id ≠ []))).getLast? with
          | some j => some j
          | none => mapGet m id) ∧
    (scrapePages
        (fun k => if k = 0 then [bodyResultsAB] else if k = 1 then [bodyJobsBC] else [])
        200).allJobs
      = [(utf8 "a", idRecord "a"), (utf8 "b", idRecord "b"), (utf8 "c", idRecord "c")] ∧
    mergeJobs [] (drainNew [bodyResultsAB1, bodyJobsB2C] 0).1
      = [(utf8 "a", idRecord "a"),
         (utf8 "b", some [(utf8 "id", JValue.string (utf8 "b")),
            (utf8 "v", JValue.number (utf8 "2"))]),
         (utf8 "c", idRecord "c")] :=
  ⟨fun m id j => mapGet_mapSet_self m id j, mapGet_mergeJobs, by rfl, by rfl⟩

/-- C2, as amended: for every body that reads as a JSON object and that
`json.Unmarshal` stores into the envelope without an error, if at least one
of the decoded lists results, jobs, data, items, content is non-empty,
`extractJobs` succeeds and returns the first non-empty one in that order. -/
theorem c2_first_non_empty_list (body : Bytes) (members : List (Bytes × JValue))
    (structured : JobsResponse)
    (hparse : parseJSON body = some (JValue.object members))
    (hstore : unmarshalJobsResponse body = some structured)
    (hsome : structured.Results.length > 0 ∨ structured.Jobs.length > 0
      ∨ structured.Data.length > 0 ∨ structured.Items.length > 0
      ∨ structured.Content.length > 0) :
    extractJobs body = Except.ok
      (if structured.Results.length > 0 then structured.Results
       else if structured.Jobs.length > 0 then structured.Jobs
       else if structured.Data.length > 0 then structured.Data
       else if structured.Items.length > 0 then structured.Items
       else structured.Content) := by
  have hraw : rawBody body = body :=
    rawBody_of_parseJSON body _ hparse (Or.inl ⟨members, rfl⟩)
  unfold extractJobs
  rw [hraw]
  apply extractFrom_of_fromEnvelope
  unfold fromEnvelope
  rw [hstore]
  simp only [firstNonEmpty]
  split_ifs <;> first | rfl | omega

/-- A body to which `c2_first_non_empty_list` applies: in
`{"results":[],"jobs":[{"id":"b"},{"id":"c"}],"data":[{"id":"d"}]}` the list
of `results` is empty, and the list of `jobs` is returned, not that of
`data`. -/
theorem c2_first_non_empty_list_witness :
    extractJobs bodyEmptyResults = Except.ok [idRecord "b", idRecord "c"] :=
  c2_first_non_empty_list bodyEmptyResults
    [(utf8 "results", JValue.array []),
     (utf8 "jobs", JValue.array [JValue.object [(utf8 "id", JValue.string (utf8 "b"))],
        JValue.object [(utf8 "id", JValue.string (utf8 "c"))]]),
     (utf8 "data", JValue.array [JValue.object [(utf8 "id", JValue.string (utf8 "d"))]])]
    { Results := [], Jobs := [idRecord "b", idRecord "c"], Data := [idRecord "d"],
      Items := [], Content := [], Hits := none }
    (by rfl) (by rfl) (by decide)

/-- C2, as stated, fails: the body `{"results":[{"id":"a"}],"jobs":"x"}` reads
as a JSON object whose `results` holds a list of one record, yet
`extractJobs` returns an error, because the string under `jobs` makes
`json.Unmarshal` return a type error for the whole envelope. -/
theorem c2_counterexample :
    parseJSON bodyJobsString
      = some (JValue.object
          [(utf8 "results",
              JValue.array [JValue.object [(utf8 "id", JValue.string (utf8 "a"))]]),
           (utf8 "jobs", JValue.string (utf8 "x"))]) ∧
    unmarshalJobsResponse bodyJobsString = none ∧
    extractJobs bodyJobsString
      = Except.error (utf8 "could not extract jobs: " ++ bodyJobsString) :=
  ⟨by rfl, by rfl, by rfl⟩

/-- C3, as amended: for every body that reads as a JSON object and that
`json.Unmarshal` stores into the envelope without an error (every hit is an
object or null, every `_source` an object or null), whose decoded lists
results, jobs, data, items, content are all empty and whose hits have at
least one non-nil `_source`, `extractJobs` returns the `_source` maps of the
hits in order, passing over the hits whose `_source` is nil.  The body
`{"hits":{"hits":[{"_source":{"id":"x"}}]}}` yields exactly one record, whose
`jobID` is `x`. -/
theorem c3_hits_sources :
    (∀ (body : Bytes) (members : List (Bytes × JValue)) (structured : JobsResponse)
        (hits : Hits),
      parseJSON body = some (JValue.object members) →
      unmarshalJobsResponse body = some structured →
      structured.Results.length = 0 → structured.Jobs.length = 0 →
      structured.Data.length = 0 → structured.Items.length = 0 →
      structured.Content.length = 0 →
      structured.Hits = some hits →
      (hitSources hits.Hits).length > 0 →
      extractJobs body = Except.ok (hitSources hits.Hits) ∧
      hitSources hits.Hits
        = (hits.Hits.filter (fun hit => hit.Source.isSome)).map (fun hit => hit.Source)) ∧
    extractJobs bodyHitsX = Except.ok [idRecord "x"] ∧
    jobID (idRecord "x") = utf8 "x" := by
  refine ⟨?_, by rfl, by rfl⟩
  intro body members structured hits hparse hstore h1 h2 h3 h4 h5 hh hsrc
  refine ⟨?_, rfl⟩
  have hraw : rawBody body = body :=
    rawBody_of_parseJSON body _ hparse (Or.inl ⟨members, rfl⟩)
  unfold extractJobs
  rw [hraw]
  apply extractFrom_of_fromEnvelope
  unfold fromEnvelope
  rw [hstore]
  have hlen : hits.Hits.length > 0 := by
    by_contra hcon
    have : hits.Hits = [] := List.length_eq_zero.mp (by omega)
    rw [this] at hsrc
    simp [hitSources] at hsrc
  simp only [firstNonEmpty, h1, h2, h3, h4, h5, hh]
  simp [hlen, hsrc]

/-- A body to which the general part of `c3_hits_sources` applies: of the
four hits of
`{"took":3,"hits":{"hits":[{"_id":"1"},{"_source":{"id":"x"}},{"_source":null},{"_source":{"id":"y"}}]}}`
the one without `_source` and the one whose `_source` is null are passed
over. -/
theorem c3_hits_sources_witness :
    extractJobs bodyHitsMixed = Except.ok [idRecord "x", idRecord "y"] :=
  (c3_hits_sources.1 bodyHitsMixed
    [(utf8 "took", JValue.number (utf8 "3")),
     (utf8 "hits", JValue.object [(utf8 "hits", JValue.array
        [JValue.object [(utf8 "_id", JValue.string (utf8 "1"))],
         JValue.object [(utf8 "_source", JValue.object [(utf8 "id", JValue.string (utf8 "x"))])],
         JValue.object [(utf8 "_source", JValue.null)],
         JValue.object [(utf8 "_source",
            JValue.object [(utf8 "id", JValue.string (utf8 "y"))])]])])]
    { Results := [], Jobs := [], Data := [], Items := [], Content := [],
      Hits := some { Hits := [{ Source := none }, { Source := idRecord "x" },
        { Source := none }, { Source := idRecord "y" }] } }
    { Hits := [{ Source := none }, { Source := idRecord "x" },
        { Source := none }, { Source := idRecord "y" }] }
    (by rfl) (by rfl) (by rfl) (by rfl) (by rfl) (by rfl) (by rfl) (by rfl) (by decide)).1

/-- C3, as stated, fails: the body
`{"hits":{"hits":[{"_source":{"id":"x"}},{"_source":7}]}}` reads as a JSON
object without any of the list fields, its first hit has a `_source` object,
yet `extractJobs` returns an error instead of the record `x`, because the
number under the second hit's `_source` makes `json.Unmarshal` return a type
error. -/
theorem c3_counterexample :
    parseJSON bodyHitsNumber
      = some (JValue.object [(utf8 "hits", JValue.object [(utf8 "hits", JValue.array
          [JValue.object [(utf8 "_source",
              JValue.object [(utf8 "id", JValue.string (utf8 "x"))])],
           JValue.object [(utf8 "_source", JValue.number (utf8 "7"))]])])]) ∧
    unmarshalJobsResponse bodyHitsNumber = none ∧
    extractJobs bodyHitsNumber
      = Except.error (utf8 "could not extract jobs: " ++ bodyHitsNumber) :=
  ⟨by rfl, by rfl, by rfl⟩

set_option exponentiation.threshold 1100 in
/-- C4, as stated, fails: the body `[{"id":"a","n":1e999}]` reads as a JSON
array of one object, yet `extractJobs` returns an error, because the number
`1e999` is beyond the range of `float64` and makes `json.Unmarshal` return an
error for the list. -/
theorem c4_counterexample :
    parseJSON bodyHugeNumber
      = some (JValue.array [JValue.object [(utf8 "id", JValue.string (utf8 "a")),
          (utf8 "n", JValue.number (utf8 "1e999"))]]) ∧
    floatOverflows (utf8 "1e999") = true ∧
    unmarshalJobList bodyHugeNumber = none ∧
    extractJobs bodyHugeNumber
      = Except.error (utf8 "could not extract jobs: " ++ bodyHugeNumber) :=
  ⟨by rfl, by decide, by rfl, by rfl⟩

/-- C4, amended: for every body that reads as a non-empty JSON array of
objects all of whose numbers are within the range of `float64`, `extractJobs`
succeeds and returns the maps of those objects in the order of the array. -/
theorem c4_bare_array (body : Bytes) (objs : List (List (Bytes × JValue)))
    (hne : objs ≠ [])
    (hparse : parseJSON body = some (JValue.array (objs.map JValue.object)))
    (hfit : ∀ members ∈ objs, numbersFitMembers members = true) :
    ∃ maps : List (GoMap JValue),
      List.Forall₂ (fun members m => storeMembers members [] = some m) objs maps ∧
      extractJobs body = Except.ok (maps.map some) := by
  obtain ⟨maps, hmaps⟩ := stored_of_numbersFit objs hfit
  refine ⟨maps, hmaps, ?_⟩
  have hraw : rawBody body = body :=
    rawBody_of_parseJSON body _ hparse (Or.inr ⟨_, rfl⟩)
  have hlen : (maps.map (fun m => (some m : Job))).length > 0 := by
    rw [List.length_map, ← hmaps.length_eq]
    exact List.length_pos.mpr hne
  unfold extractJobs
  rw [hraw]
  simp only [extractFrom, fromEnvelope, unmarshalJobsResponse, unmarshalJobList, hparse,
    Option.some_bind, decodeJobsResponse, decodeJobs, decodeElems_objects objs maps hmaps]
  rw [if_pos hlen]

/-- A body to which `c4_bare_array` applies:
` [{"id":"a","n":1,"n":2}, {"objectID":"b"}, {}]`, with the records that
`extractJobs` returns for it. -/
theorem c4_bare_array_witness :
    (∃ maps : List (GoMap JValue),
      List.Forall₂ (fun members m => storeMembers members [] = some m)
        [[(utf8 "id", JValue.string (utf8 "a")), (utf8 "n", JValue.number (utf8 "1")),
          (utf8 "n", JValue.number (utf8 "2"))],
         [(utf8 "objectID", JValue.string (utf8 "b"))], []] maps ∧
      extractJobs bodyBareArray = Except.ok (maps.map some)) ∧
    extractJobs bodyBareArray
      = Except.ok [some [(utf8 "id", JValue.string (utf8 "a")),
            (utf8 "n", JValue.number (utf8 "2"))],
          some [(utf8 "objectID", JValue.string (utf8 "b"))], some []] :=
  ⟨c4_bare_array bodyBareArray
    [[(utf8 "id", JValue.string (utf8 "a")), (utf8 "n", JValue.number (utf8 "1")),
      (utf8 "n", JValue.number (utf8 "2"))],
     [(utf8 "objectID", JValue.string (utf8 "b"))], []]
    (by simp) (by rfl) (by decide), by rfl⟩

/-- C5: for a text `t` that begins with `{` or `[`, `extractJobs` succeeds on
the standard base64 encoding of `t` exactly when it succeeds on `t`, with the
same records; and a body whose base64 decoding fails, is empty or begins
with neither `{` nor `[` is parsed as it is. -/
theorem c5_base64_body (t body : Bytes) (hb : ∀ b ∈ t, b < 256)
    (hhead : t.head? = some 123 ∨ t.head? = some 91)
    (hplain : base64DecodeString body = none ∨ base64DecodeString body = some []
      ∨ ∃ decoded, base64DecodeString body = some decoded
          ∧ decoded.head? ≠ some 123 ∧ decoded.head? ≠ some 91) :
    (∀ jobs, extractJobs (base64EncodeToString t) = Except.ok jobs
      ↔ extractJobs t = Except.ok jobs) ∧
    rawBody (base64EncodeToString t) = t ∧
    rawBody body = body ∧ extractJobs body = extractFrom body body := by
  have h1 := rawBody_encode t hb hhead
  have h2 := rawBody_of_head t hhead
  have h3 : rawBody body = body := by
    unfold rawBody
    rcases hplain with h | h | ⟨d, h, hd1, hd2⟩
    · simp [h]
    · simp [h]
    · simp [h, hd1, hd2]
  refine ⟨?_, h1, h3, ?_⟩
  · intro jobs
    unfold extractJobs
    rw [h1, h2]
    exact extractFrom_ok_iff t _ _ jobs
  · unfold extractJobs
    rw [h3]

/-- Inputs to which `c5_base64_body` applies: the text `[{"id":"a"}]`, and
the body `1234`, which is base64 for three bytes that are not JSON. -/
theorem c5_base64_body_witness :
    (∀ jobs, extractJobs (base64EncodeToString textArrayA) = Except.ok jobs
      ↔ extractJobs textArrayA = Except.ok jobs) ∧
    rawBody (base64EncodeToString textArrayA) = textArrayA ∧
    rawBody (utf8 "1234") = utf8 "1234" ∧
    extractJobs (utf8 "1234") = extractFrom (utf8 "1234") (utf8 "1234") :=
  c5_base64_body textArrayA (utf8 "1234") (by decide) (by decide)
    (Or.inr (Or.inr ⟨[215, 109, 248], by decide, by decide, by decide⟩))

/-- C6: when no decode strategy applies to a body, that is when
`extractJobs` returns no records, it returns the error
`could not extract jobs: ` followed by the first `min(200, len(body))` bytes
of the body as it was given, a preview of at most 200 bytes. -/
theorem c6_error_preview (body : Bytes)
    (hfail : ∀ jobs, extractJobs body ≠ Except.ok jobs) :
    extractJobs body
      = Except.error (utf8 "could not extract jobs: " ++ body.take (min 200 body.length)) ∧
    (body.take (min 200 body.length)).length ≤ 200 := by
  have hprev : (if body.length > 200 then body.take 200 else body)
      = body.take (min 200 body.length) := by
    split_ifs with h
    · rw [Nat.min_eq_left (by omega)]
    · rw [Nat.min_eq_right (by omega), List.take_length]
  constructor
  · unfold extractJobs extractFrom at hfail ⊢
    cases henv : fromEnvelope (rawBody body) with
    | some list =>
      rw [henv] at hfail
      exact absurd rfl (hfail list)
    | none =>
      rw [henv] at hfail
      simp only at hfail ⊢
      cases hlist : unmarshalJobList (rawBody body) with
      | none => simp only [hprev]
      | some directList =>
        rw [hlist] at hfail
        simp only at hfail ⊢
        by_cases hpos : directList.length > 0
        · rw [if_pos hpos] at hfail
          exact absurd rfl (hfail directList)
        · rw [if_neg hpos, hprev]
  · rw [List.length_take]
    omega

/-- A body to which `c6_error_preview` applies: `e30=` is the base64 encoding
of `{}`, which holds no records, and the preview is of the encoded text. -/
theorem c6_error_preview_witness :
    extractJobs bodyEncodedEmpty
      = Except.error (utf8 "could not extract jobs: " ++ bodyEncodedEmpty) :=
  (c6_error_preview bodyEncodedEmpty (by
    intro jobs h
    have h2 : extractJobs bodyEncodedEmpty
        = Except.error (utf8 "could not extract jobs: " ++ bodyEncodedEmpty) := by rfl
    rw [h2] at h
    cases h)).1

/-- C7: for every sequence of captures and every `maxScrolls` the scroll loop
of `ScrapeAll` makes at most as many passes as the scroll budget, which is
`maxScrolls`, or 200 when `maxScrolls <= 0`; and when every pass that the
loop makes after pass `p` adds no new identifier, the loop makes at most
`p + 3` passes. -/
theorem c7_scroll_loop_halts :
    (∀ (arrivals : Nat → List Bytes) (maxScrolls : Int),
      (scrapePages arrivals maxScrolls).scrolls ≤ scrollBudget maxScrolls ∧
      (scrollBudget maxScrolls : Int) = if maxScrolls ≤ 0 then 200 else maxScrolls) ∧
    (∀ (arrivals : Nat → List Bytes) (maxScrolls : Int) (p : Nat),
      (∀ r, p < r → r ≤ (scrapePages arrivals maxScrolls).scrolls →
        newCount (pagesAfter arrivals (r - 1)).allJobs (pagesAfter arrivals r).allJobs = 0) →
      (scrapePages arrivals maxScrolls).scrolls ≤ p + 3) := by
  constructor
  · intro arrivals maxScrolls
    obtain ⟨r, h1, h2, _, _⟩ := scrapePages_spec arrivals maxScrolls
    constructor
    · rw [h2, pagesAfter_scrolls]
      exact h1
    · unfold scrollBudget
      split_ifs with h
      · rfl
      · exact Int.toNat_of_nonneg (by omega)
  · intro arrivals maxScrolls p hquiet
    obtain ⟨r, _, h2, h3, _⟩ := scrapePages_spec arrivals maxScrolls
    rw [h2, pagesAfter_scrolls] at hquiet ⊢
    by_contra hcon
    have hlt := h3 (p + 3) (by omega) (by omega)
    have hge := pagesAfter_emptyScrolls_quiet arrivals p r hquiet 3 (by omega)
    omega

/-- A run to which the second part of `c7_scroll_loop_halts` applies: after
the initial page nothing more is captured, and the loop ends within three
passes of a budget of 200. -/
theorem c7_scroll_loop_halts_witness :
    (scrapePages (fun k => if k = 0 then [textArrayA] else []) 200).scrolls ≤ 0 + 3 :=
  c7_scroll_loop_halts.2 (fun k => if k = 0 then [textArrayA] else []) 200 0
    (fun r hr _ => by
      obtain ⟨k, rfl⟩ : ∃ k, r = k + 1 := ⟨r - 1, by omega⟩
      exact newCount_of_no_arrival _ k (by simp))

/-- C8: a pass of the scroll loop that adds no new identifier, as one whose
records all carry known identifiers does, adds one to the counter of empty
passes, and any other pass sets it to zero; the pass ends the loop exactly
when it leaves the counter at 3 or more.  So the loop ends with the first
pass that brings the counter to 3, and else with the last pass of the
budget.  With a budget of 200, a first pass that adds a record followed by
three passes that add none ends the loop with pass 4. -/
theorem c8_empty_scroll_counter :
    (∀ (arrived : List Bytes) (st : ScrollState),
      (scrollRound arrived st).1.emptyScrolls
        = (if newCount st.allJobs (scrollRound arrived st).1.allJobs = 0
           then st.emptyScrolls + 1 else 0) ∧
      (scrollRound arrived st).2 = decide ((scrollRound arrived st).1.emptyScrolls ≥ 3)) ∧
    (∀ (arrived : List Bytes) (st : ScrollState),
      (∀ j ∈ (drainNew (st.bodies ++ arrived) st.lastBodyIndex).1,
        jobID j = [] ∨ jobID j ∈ mapKeys st.allJobs) →
      newCount st.allJobs (scrollRound arrived st).1.allJobs = 0) ∧
    (∀ (arrivals : Nat → List Bytes) (maxScrolls : Int),
      scrapePages arrivals maxScrolls
        = pagesAfter arrivals (scrapePages arrivals maxScrolls).scrolls ∧
      (∀ i, 0 < i → i < (scrapePages arrivals maxScrolls).scrolls →
        (pagesAfter arrivals i).emptyScrolls < 3) ∧
      ((scrapePages arrivals maxScrolls).scrolls = scrollBudget maxScrolls ∨
        (scrapePages arrivals maxScrolls).emptyScrolls = 3)) ∧
    scrollBudget 200 = 200 ∧
    (scrapePages
        (fun k =>
          if k = 0 then [bodyResultsAB] else if k = 1 then [bodyJobsBC]
          else if k = 2 then [bodyResultsAB] else [])
        200).scrolls = 4 := by
  refine ⟨fun arrived st => ⟨scrollRound_emptyScrolls arrived st, scrollRound_break arrived st⟩,
    ?_, ?_, by rfl, by rfl⟩
  · intro arrived st h
    rw [scrollRound_allJobs, newCount, length_mergeJobs_of_known _ _ h]
    simp
  · intro arrivals maxScrolls
    obtain ⟨r, h1, h2, h3, h4⟩ := scrapePages_spec arrivals maxScrolls
    have hr : (scrapePages arrivals maxScrolls).scrolls = r := by
      rw [h2, pagesAfter_scrolls]
    rw [hr]
    refine ⟨h2, h3, ?_⟩
    rcases h4 with h | ⟨hpos, hge⟩
    · exact Or.inl h
    · right
      rw [h2]
      obtain ⟨k, rfl⟩ : ∃ k, r = k + 1 := ⟨r - 1, by omega⟩
      have hk : (pagesAfter arrivals k).emptyScrolls < 3 := by
        cases k with
        | zero => simp [pagesAfter, firstPage]
        | succ k => exact h3 (k + 1) (by omega) (by omega)
      have hs := pagesAfter_emptyScrolls_succ arrivals k
      split_ifs at hs <;> omega

/-- A pass to which the second part of `c8_empty_scroll_counter` applies: the
body captured for it, `{"jobs":[{"id":"b"},{"id":"c"}]}`, repeats the records
of the two bodies of the initial page. -/
theorem c8_empty_scroll_counter_witness :
    newCount (firstPage (fun _ => [bodyResultsAB, bodyJobsBC])).allJobs
      (scrollRound [bodyJobsBC] (firstPage (fun _ => [bodyResultsAB, bodyJobsBC]))).1.allJobs
      = 0 :=
  c8_empty_scroll_counter.2.1 [bodyJobsBC] (firstPage (fun _ => [bodyResultsAB, bodyJobsBC]))
    (by
      have hd : (drainNew ((firstPage (fun _ => [bodyResultsAB, bodyJobsBC])).bodies
          ++ [bodyJobsBC])
          (firstPage (fun _ => [bodyResultsAB, bodyJobsBC])).lastBodyIndex).1
          = [idRecord "b", idRecord "c"] := by rfl
      have hk : mapKeys (firstPage (fun _ => [bodyResultsAB, bodyJobsBC])).allJobs
          = [utf8 "a", utf8 "b", utf8 "c"] := by rfl
      rw [hd, hk]
      intro j hj
      simp only [List.mem_cons, List.mem_singleton, List.not_mem_nil, or_false] at hj
      rcases hj with rfl | rfl
      · right
        decide
      · right
        decide)

/-- C9: within a pass of the scroll loop the accumulated map never shrinks:
every identifier present before the drain is present after it, the number of
identifiers does not fall, and `newCount` is not negative; so the size of
the map never falls from one pass of `ScrapeAll` to a later one. -/
theorem c9_accumulator_grows (arrived : List Bytes) (st : ScrollState) :
    (∀ id, id ∈ mapKeys st.allJobs → id ∈ mapKeys (scrollRound arrived st).1.allJobs) ∧
    st.allJobs.length ≤ (scrollRound arrived st).1.allJobs.length ∧
    0 ≤ newCount st.allJobs (scrollRound arrived st).1.allJobs ∧
    (∀ (arrivals : Nat → List Bytes) (i d : Nat),
      (pagesAfter arrivals i).allJobs.length ≤ (pagesAfter arrivals (i + d)).allJobs.length) := by
  have hlen : ∀ (a : List Bytes) (s : ScrollState),
      s.allJobs.length ≤ (scrollRound a s).1.allJobs.length := by
    intro a s
    rw [scrollRound_allJobs]
    exact length_le_mergeJobs _ _
  refine ⟨?_, hlen arrived st, ?_, ?_⟩
  · intro id h
    rw [scrollRound_allJobs]
    exact mapKeys_subset_mergeJobs _ _ _ h
  · have := hlen arrived st
    unfold newCount
    omega
  · intro arrivals i d
    induction d with
    | zero => exact le_refl _
    | succ d ih =>
      refine le_trans ih ?_
      rw [← Nat.add_assoc, pagesAfter]
      exact hlen _ _

/-- C10: deduplication is idempotent: for every captured body and every
accumulator, storing the records decoded from the body twice gives the same
map as storing them once, whether the records are stored again or the body
stands twice in the capture log that is drained. -/
theorem c10_merge_idempotent (body : Bytes) (allJobs : GoMap Job) :
    mergeJobs (mergeJobs allJobs (bodyJobs body)) (bodyJobs body)
      = mergeJobs allJobs (bodyJobs body) ∧
    mergeJobs allJobs (drainNew [body, body] 0).1
      = mergeJobs allJobs (drainNew [body] 0).1 := by
  refine ⟨mergeJobs_idempotent (bodyJobs body) allJobs, ?_⟩
  simp only [drainNew, List.drop_zero, List.foldl_cons, List.foldl_nil, List.nil_append]
  rw [mergeJobs_append]
  exact mergeJobs_idempotent (bodyJobs body) allJobs

/-- C11: `drainNew` returns the records of the bodies from the cursor on and
no others, and sets the cursor to the length of the buffer.  So over every
sequence of appends and drains on a new buffer read from cursor 0 the cursor
never exceeds the length of the buffer and never decreases, the bodies read
by the drains, one after the other, are exactly the bodies before the
cursor, and after a drain they are all the bodies captured: none is read
twice, none is passed over. -/
theorem c11_drain_cursor :
    (∀ (bodies : List Bytes) (lastIndex : Nat),
      drainNew bodies lastIndex
        = ((bodies.drop lastIndex).flatMap bodyJobs, bodies.length)) ∧
    (∀ (events : List BufferEvent),
      (bufferRun events).lastIndex ≤ (bufferRun events).bodies.length ∧
      (bufferRun events).read.flatten
        = (bufferRun events).bodies.take (bufferRun events).lastIndex ∧
      (bufferRun events).returned
        = (bufferRun events).read.map (fun r => r.flatMap bodyJobs)) ∧
    (∀ (events : List BufferEvent) (e : BufferEvent),
      (bufferRun events).lastIndex ≤ (bufferRun (events ++ [e])).lastIndex) ∧
    (∀ (events : List BufferEvent),
      (bufferRun (events ++ [BufferEvent.drain])).lastIndex
        = (bufferRun (events ++ [BufferEvent.drain])).bodies.length ∧
      (bufferRun (events ++ [BufferEvent.drain])).read.flatten
        = (bufferRun (events ++ [BufferEvent.drain])).bodies) := by
  refine ⟨fun bodies lastIndex => drainNew_eq bodies lastIndex, bufferRun_invariant, ?_, ?_⟩
  · intro events e
    rw [bufferRun_snoc]
    cases e with
    | append body => exact le_refl _
    | drain =>
      simp only [bufferStep, drainNew_eq]
      exact (bufferRun_invariant events).1
  · intro events
    have h := bufferRun_invariant (events ++ [BufferEvent.drain])
    have hlen : (bufferRun (events ++ [BufferEvent.drain])).lastIndex
        = (bufferRun (events ++ [BufferEvent.drain])).bodies.length := by
      rw [bufferRun_snoc]
      simp only [bufferStep, drainNew_eq]
    refine ⟨hlen, ?_⟩
    rw [h.2.1, hlen, List.take_length]

/-- C12: for every successful `ScrapeAll` the returned `Jobs` are the values
of the accumulated map, in the order in which `range` visits it: one record
for every distinct non-empty identifier carried by a drained record, and no
record without identifier.  The identifiers of the returned records are
non-empty and pairwise distinct, and `Scraped` is the number of returned
records, which is the number of distinct identifiers. -/
theorem c12_scrape_all_result (c : HiringCafeClient) (env : Session) (query : Bytes)
    (maxScrolls : Int) (r : ScrapeResult)
    (hrange : ∀ m, (env.rangeOrder m).Perm m)
    (hok : (ScrapeAll c env query maxScrolls).result = Except.ok r) :
    r.Jobs.Perm ((scrapePages env.arrivals maxScrolls).allJobs.map Prod.snd) ∧
    (∀ j ∈ r.Jobs, jobID j ≠ []) ∧
    (r.Jobs.map jobID).Nodup ∧
    (∀ id, id ∈ r.Jobs.map jobID
      ↔ id ≠ [] ∧ ∃ j ∈ (scrapePages env.arrivals maxScrolls).bodies.flatMap bodyJobs,
          jobID j = id) ∧
    r.Scraped = r.Jobs.length ∧
    r.Jobs.length
      = ((((scrapePages env.arrivals maxScrolls).bodies.flatMap bodyJobs).map jobID).filter
          (fun id => decide (id ≠ []))).dedup.length := by
  obtain ⟨_, _, _, hr⟩ := ScrapeAll_ok c env query maxScrolls r hok
  have hall : (scrapePages env.arrivals maxScrolls).allJobs
      = mergeJobs [] ((scrapePages env.arrivals maxScrolls).bodies.flatMap bodyJobs) := by
    rw [scrapePages_scrolls]
    exact pagesAfter_allJobs _ _
  generalize (scrapePages env.arrivals maxScrolls).allJobs = all at hr hall ⊢
  generalize (scrapePages env.arrivals maxScrolls).bodies.flatMap bodyJobs = drained at hall ⊢
  obtain ⟨hent, hnodup⟩ := mergeJobs_entries drained [] (by simp) (by simp [mapKeys])
  rw [← hall] at hent hnodup
  have hjobs : r.Jobs = (env.rangeOrder all).map Prod.snd := by rw [hr]
  have hperm : r.Jobs.Perm (all.map Prod.snd) := by
    rw [hjobs]
    exact (hrange all).map _
  have hids : (all.map Prod.snd).map jobID = mapKeys all := by
    rw [List.map_map, mapKeys]
    apply List.map_congr_left
    intro e he
    exact (hent e he).1.symm
  have hpermids : (r.Jobs.map jobID).Perm (mapKeys all) := by
    rw [← hids]
    exact hperm.map _
  have hmem : ∀ id, id ∈ mapKeys all ↔ id ≠ [] ∧ ∃ j ∈ drained, jobID j = id := by
    intro id
    rw [hall, mem_mapKeys_mergeJobs_iff]
    simp [mapKeys]
  refine ⟨hperm, ?_, hpermids.nodup_iff.mpr hnodup, ?_, by rw [hr], ?_⟩
  · intro j hj
    have : jobID j ∈ mapKeys all := hpermids.subset (List.mem_map_of_mem _ hj)
    exact ((hmem _).mp this).1
  · intro id
    rw [hpermids.mem_iff]
    exact hmem id
  · have hlen : r.Jobs.length = (mapKeys all).length := by
      rw [← hpermids.length_eq, List.length_map]
    rw [hlen]
    apply List.Perm.length_eq
    rw [List.perm_ext_iff_of_nodup hnodup (List.nodup_dedup _)]
    intro id
    rw [hmem, List.mem_dedup, List.mem_filter, List.mem_map]
    constructor
    · rintro ⟨h1, j, hj, hj2⟩
      exact ⟨⟨j, hj, hj2⟩, by simpa using h1⟩
    · rintro ⟨⟨j, hj, hj2⟩, h1⟩
      exact ⟨by simpa using h1, j, hj, hj2⟩

/-- A call to which `c12_scrape_all_result` applies: of the six records of
the three captured bodies, the one without identifier is left out and the
repeated ones are returned once; `range` is taken to visit the map backwards. -/
theorem c12_scrape_all_result_witness :
    (ScrapeAll { ready := true } sessionThreeBodies (utf8 "go") 200).result
      = Except.ok
          { Query := utf8 "go", Total := 0, Scraped := 3,
            Jobs := [idRecord "c", idRecord "b", idRecord "a"] } ∧
    ([idRecord "c", idRecord "b", idRecord "a"].map jobID).Nodup :=
  ⟨by rfl,
   (c12_scrape_all_result { ready := true } sessionThreeBodies (utf8 "go") 200
      { Query := utf8 "go", Total := 0, Scraped := 3,
        Jobs := [idRecord "c", idRecord "b", idRecord "a"] }
      (fun m => List.reverse_perm m) (by rfl)).2.2.1⟩

/-- C13: a successful `SearchJobs` returns every record decoded from every
captured body, in the order of capture and without deduplication: the
records of the bodies one after the other, as many as the bodies hold
together, with `Scraped` their number.  Of the bodies
`{"results":[{"id":"a"},{"id":"b"}]}`, `[{"n":1},{"id":"a"}]` and
`{"jobs":[{"id":"b"},{"id":"c"}]}` the record without identifier and the
repeated records `a` and `b` are all returned. -/
theorem c13_search_keeps_all :
    (∀ (c : HiringCafeClient) (env : Session) (query : Bytes) (r : ScrapeResult),
      (SearchJobs c env query).result = Except.ok r →
      r.Jobs = (env.arrivals 0).flatMap bodyJobs ∧
      r.Jobs.length = ((env.arrivals 0).map (fun body => (bodyJobs body).length)).sum ∧
      r.Scraped = r.Jobs.length ∧ r.Query = query) ∧
    (SearchJobs { ready := true } sessionThreeBodies (utf8 "go")).result
      = Except.ok
          { Query := utf8 "go", Total := 0, Scraped := 6,
            Jobs := [idRecord "a", idRecord "b",
              some [(utf8 "n", JValue.number (utf8 "1"))], idRecord "a",
              idRecord "b", idRecord "c"] } := by
  refine ⟨?_, by rfl⟩
  intro c env query r h
  have hjobs := SearchJobs_ok c env query r h
  obtain ⟨_, _, _, hr⟩ := hjobs
  subst hr
  refine ⟨collectJobs_eq _, ?_, rfl, rfl⟩
  rw [collectJobs_eq, List.length_flatMap]
  rfl

/-- A call to which the general part of `c13_search_keeps_all` applies. -/
theorem c13_search_keeps_all_witness :
    [idRecord "a", idRecord "b", some [(utf8 "n", JValue.number (utf8 "1"))], idRecord "a",
      idRecord "b", idRecord "c"]
      = (sessionThreeBodies.arrivals 0).flatMap bodyJobs :=
  (c13_search_keeps_all.1 { ready := true } sessionThreeBodies (utf8 "go")
    { Query := utf8 "go", Total := 0, Scraped := 6,
      Jobs := [idRecord "a", idRecord "b",
        some [(utf8 "n", JValue.number (utf8 "1"))], idRecord "a",
        idRecord "b", idRecord "c"] } (by rfl)).1

/-- C14: the identifier of a record is its `id`, falling back to `objectID`:
`jobID` returns the value of `id` when that is a non-empty string, else the
value of `objectID` when that is a non-empty string, else the empty string;
an `id` that is empty or not a string is passed over in favour of
`objectID`. -/
theorem c14_job_id (m : GoMap JValue) :
    jobID none = [] ∧
    (∀ id, id ≠ [] → mapGet m (utf8 "id") = some (JValue.string id) → jobID (some m) = id) ∧
    (∀ oid, (∀ id, id ≠ [] → mapGet m (utf8 "id") ≠ some (JValue.string id)) →
      oid ≠ [] → mapGet m (utf8 "objectID") = some (JValue.string oid) →
      jobID (some m) = oid) ∧
    ((∀ id, id ≠ [] → mapGet m (utf8 "id") ≠ some (JValue.string id)) →
      (∀ oid, oid ≠ [] → mapGet m (utf8 "objectID") ≠ some (JValue.string oid)) →
      jobID (some m) = []) ∧
    jobID (some [(utf8 "id", JValue.string (utf8 "a")),
      (utf8 "objectID", JValue.string (utf8 "o"))]) = utf8 "a" ∧
    jobID (some [(utf8 "id", JValue.string []),
      (utf8 "objectID", JValue.string (utf8 "o"))]) = utf8 "o" ∧
    jobID (some [(utf8 "id", JValue.number (utf8 "7")),
      (utf8 "objectID", JValue.string (utf8 "o"))]) = utf8 "o" ∧
    jobID (some [(utf8 "objectID", JValue.string [])]) = [] := by
  have hfield : ∀ (name : String) (s : Bytes),
      stringField (some m) name = some s ↔ mapGet m (utf8 name) = some (JValue.string s) := by
    intro name s
    unfold stringField
    simp only
    split
    · rename_i t ht
      rw [ht]
      simp
    · rename_i hne
      constructor
      · intro h
        simp at h
      · intro h
        exact absurd h (hne s)
  refine ⟨by rfl, ?_, ?_, ?_, by rfl, by rfl, by rfl, by rfl⟩
  · intro id hid h
    have hf := (hfield "id" id).mpr h
    unfold jobID
    rw [hf]
    cases id with
    | nil => exact absurd rfl hid
    | cons c cs => rfl
  · intro oid hno hoid h
    have hf := (hfield "objectID" oid).mpr h
    unfold jobID
    rw [hf]
    cases hid : stringField (some m) "id" with
    | none =>
      cases oid with
      | nil => exact absurd rfl hoid
      | cons c cs => rfl
    | some id =>
      cases id with
      | nil =>
        cases oid with
        | nil => exact absurd rfl hoid
        | cons c cs => rfl
      | cons c cs => exact absurd ((hfield "id" _).mp hid) (hno _ (by simp))
  · intro hno hnoo
    unfold jobID
    cases hid : stringField (some m) "id" with
    | none =>
      cases hoid : stringField (some m) "objectID" with
      | none => rfl
      | some oid =>
        cases oid with
        | nil => rfl
        | cons c cs => exact absurd ((hfield "objectID" _).mp hoid) (hnoo _ (by simp))
    | some id =>
      cases id with
      | nil =>
        cases hoid : stringField (some m) "objectID" with
        | none => rfl
        | some oid =>
          cases oid with
          | nil => rfl
          | cons c cs => exact absurd ((hfield "objectID" _).mp hoid) (hnoo _ (by simp))
      | cons c cs => exact absurd ((hfield "id" _).mp hid) (hno _ (by simp))

/-- C15: a captured body that `extractJobs` cannot decode is passed over and
never ends the collection: `collectJobs` and `drainNew` return the records of
exactly the decodable bodies in their range, in the order of capture, and
`drainNew` moves the cursor to the end of the buffer, past the bodies that it
could not decode.  Of the bodies `{"results":[{"id":"a"},{"id":"b"}]}`,
`<html>busy</html>` and `{"jobs":[{"id":"b"},{"id":"c"}]}` the second one
yields nothing and hides nothing. -/
theorem c15_undecodable_skipped (bodies : List Bytes) (lastIndex : Nat) :
    collectJobs bodies
      = (bodies.filterMap (fun body =>
          match extractJobs body with
          | Except.ok jobs => some jobs
          | Except.error _ => none)).flatten ∧
    (drainNew bodies lastIndex).1
      = ((bodies.drop lastIndex).filterMap (fun body =>
          match extractJobs body with
          | Except.ok jobs => some jobs
          | Except.error _ => none)).flatten ∧
    (drainNew bodies lastIndex).2 = bodies.length ∧
    extractJobs bodyHTML = Except.error (utf8 "could not extract jobs: " ++ bodyHTML) ∧
    collectJobs [bodyResultsAB, bodyHTML, bodyJobsBC]
      = [idRecord "a", idRecord "b", idRecord "b", idRecord "c"] ∧
    drainNew [bodyResultsAB, bodyHTML, bodyJobsBC] 1 = ([idRecord "b", idRecord "c"], 3) ∧
    drainNew [bodyResultsAB, bodyHTML] 1 = ([], 2) := by
  refine ⟨?_, ?_, ?_, by rfl, by rfl, by rfl, by rfl⟩
  · rw [collectJobs_eq, flatMap_bodyJobs_eq]
  · rw [drainNew_eq, drainRange, flatMap_bodyJobs_eq]
  · rw [drainNew_eq]

/-- C16: `SearchJobs` and `ScrapeAll` called on a client whose `ready` flag is
false return the error `client not initialized` and no result, without any
step on the browser: no capture buffer is created, nothing is searched. -/
theorem c16_not_ready (c : HiringCafeClient) (env : Session) (query : Bytes)
    (maxScrolls : Int) (hready : c.ready = false) :
    (SearchJobs c env query).result = Except.error (utf8 "client not initialized") ∧
    (SearchJobs c env query).steps = [] ∧
    (SearchJobs c env query).client = c ∧
    (ScrapeAll c env query maxScrolls).result
      = Except.error (utf8 "client not initialized") ∧
    (ScrapeAll c env query maxScrolls).steps = [] ∧
    (ScrapeAll c env query maxScrolls).client = c := by
  simp [SearchJobs, ScrapeAll, hready]

/-- Calls to which `c16_not_ready` applies: a session that would deliver
three bodies is not touched. -/
theorem c16_not_ready_witness :
    (SearchJobs { ready := false } sessionThreeBodies (utf8 "go")).steps = [] ∧
    (ScrapeAll { ready := false } sessionThreeBodies (utf8 "go") 200).steps = [] :=
  ⟨(c16_not_ready { ready := false } sessionThreeBodies (utf8 "go") 200 rfl).2.1,
   (c16_not_ready { ready := false } sessionThreeBodies (utf8 "go") 200 rfl).2.2.2.2.1⟩

/-- C17: when the search action succeeds and no capture signal arrives within
the wait of 45 seconds for the first page, `SearchJobs` and `ScrapeAll`
return a timeout error and no result, and leave the client as it is, its
`ready` flag true.  A `SearchJobs` called next passes the readiness check
and begins with a new capture buffer, which holds no body and no pending
request; it does what it does on a client that was never used, and when it
succeeds it returns the records of the bodies of its own session only. -/
theorem c17_timeout_leaves_ready (c : HiringCafeClient) (env next : Session)
    (query query2 : Bytes) (maxScrolls : Int)
    (hready : c.ready = true) (hinput : env.inputError = none)
    (hsilent : env.firstResult = false) :
    (SearchJobs c env query).result = Except.error (utf8 "timeout (45s)") ∧
    (SearchJobs c env query).steps
      = [Step.capture newNetworkCapture, Step.performSearch query, Step.waitForResult 45] ∧
    (SearchJobs c env query).client = c ∧
    (ScrapeAll c env query maxScrolls).result
      = Except.error (utf8 "timeout waiting for first page") ∧
    (ScrapeAll c env query maxScrolls).steps.getLast? = some (Step.waitForResult 45) ∧
    (ScrapeAll c env query maxScrolls).client = c ∧
    (SearchJobs c env query).client.ready = true ∧
    (ScrapeAll c env query maxScrolls).client.ready = true ∧
    SearchJobs (SearchJobs c env query).client next query2
      = SearchJobs { ready := true } next query2 ∧
    SearchJobs (ScrapeAll c env query maxScrolls).client next query2
      = SearchJobs { ready := true } next query2 ∧
    (SearchJobs (SearchJobs c env query).client next query2).steps.head?
      = some (Step.capture newNetworkCapture) ∧
    newNetworkCapture.bodies = [] ∧ newNetworkCapture.pendingRequests = [] ∧
    (next.inputError = none → next.firstResult = true →
      (SearchJobs (SearchJobs c env query).client next query2).result
        = Except.ok
            { Query := query2, Total := 0,
              Scraped := (collectJobs (next.arrivals 0)).length,
              Jobs := collectJobs (next.arrivals 0) }) := by
  have hc : c = { ready := true } := by
    cases c
    simp only at hready
    rw [hready]
  subst hc
  have h1 : (SearchJobs { ready := true } env query).client = { ready := true } := by
    simp [SearchJobs, hinput, hsilent]
  have h2 : (ScrapeAll { ready := true } env query maxScrolls).client = { ready := true } := by
    simp [ScrapeAll, hinput, hsilent]
  rw [h1, h2]
  refine ⟨by simp [SearchJobs, hinput, hsilent], by simp [SearchJobs, hinput, hsilent], rfl,
    by simp [ScrapeAll, hinput, hsilent], by simp [ScrapeAll, hinput, hsilent], rfl, rfl, rfl,
    rfl, rfl, ?_, rfl, rfl, ?_⟩
  · unfold SearchJobs
    cases next.inputError with
    | some err => simp
    | none =>
      cases next.firstResult with
      | false => simp
      | true => simp
  · intro hn1 hn2
    simp [SearchJobs, hn1, hn2, newNetworkCapture]

/-- Calls to which `c17_timeout_leaves_ready` applies: after a search that
times out, the next search returns the six records of its own three bodies. -/
theorem c17_timeout_leaves_ready_witness :
    (SearchJobs { ready := true } sessionSilent (utf8 "go")).result
      = Except.error (utf8 "timeout (45s)") ∧
    (SearchJobs (SearchJobs { ready := true } sessionSilent (utf8 "go")).client
        sessionThreeBodies (utf8 "rust")).result
      = Except.ok
          { Query := utf8 "rust", Total := 0,
            Scraped := (collectJobs (sessionThreeBodies.arrivals 0)).length,
            Jobs := collectJobs (sessionThreeBodies.arrivals 0) } :=
  ⟨(c17_timeout_leaves_ready { ready := true } sessionSilent sessionThreeBodies (utf8 "go")
      (utf8 "rust") 200 rfl rfl rfl).1,
   (c17_timeout_leaves_ready { ready := true } sessionSilent sessionThreeBodies (utf8 "go")
      (utf8 "rust") 200 rfl rfl rfl).2.2.2.2.2.2.2.2.2.2.2.2.2 rfl rfl⟩

/-- C18: `extractJobs` is a total function of the body: for every body it
returns a list of records or an error, and none of its run-time checks
fails: the index `decoded[0]` is within the decoded bytes, the slice
`preview[:200]` within the body, and `structured.Hits` is not nil where it is
dereferenced.  The empty body and a body whose base64 decoding is empty are
answered with an error. -/
theorem c18_extract_total (body : Bytes) :
    extractJobsChecked body = some (extractJobs body) ∧
    ((∃ jobs, extractJobs body = Except.ok jobs) ∨ ∃ e, extractJobs body = Except.error e) ∧
    base64DecodeString [] = some [] ∧
    extractJobs [] = Except.error (utf8 "could not extract jobs: ") ∧
    base64DecodeString (utf8 "\r\n") = some [] ∧
    extractJobs (utf8 "\r\n") = Except.error (utf8 "could not extract jobs: \r\n") := by
  refine ⟨extractJobsChecked_eq body, ?_, by rfl, by rfl, by rfl, by rfl⟩
  cases extractJobs body with
  | ok jobs => exact Or.inl ⟨jobs, rfl⟩
  | error e => exact Or.inr ⟨e, rfl⟩

/-- C19: `doSearch` called at the time `now` returns the cached result of the
query, without a call of `SearchJobs` and without a change of the server, if
and only if the cache has an entry for the query whose age `now - CachedAt`
is strictly less than the TTL of the server, which `NewServer` sets to 15
minutes and `doSearch` never changes.  In every other case it calls
`SearchJobs` once with the query and returns what that call returns; when
the call succeeds, the entry of the query becomes the new result with the
time of the store, the entries of the other queries stay, and when it fails
the cache is unchanged.  An entry of age 15 minutes less a nanosecond is
served, an entry of age 15 minutes is not. -/
theorem c19_cache_ttl (s : Server) (env : Session) (now stored : Int) (query : Bytes) :
    ((doSearch s env now stored query).scrape = none ↔
      ∃ entry, mapGet s.cache query = some entry ∧ now - entry.CachedAt < s.cacheTTL) ∧
    (∀ entry, mapGet s.cache query = some entry → now - entry.CachedAt < s.cacheTTL →
      doSearch s env now stored query
        = { result := Except.ok entry.Result, server := s, scrape := none }) ∧
    ((¬ ∃ entry, mapGet s.cache query = some entry ∧ now - entry.CachedAt < s.cacheTTL) →
      (doSearch s env now stored query).scrape = some (SearchJobs s.client env query) ∧
      (doSearch s env now stored query).result = (SearchJobs s.client env query).result ∧
      (∀ r, (SearchJobs s.client env query).result = Except.ok r →
        mapGet (doSearch s env now stored query).server.cache query
          = some { Result := r, CachedAt := stored } ∧
        ∀ other, other ≠ query →
          mapGet (doSearch s env now stored query).server.cache other
            = mapGet s.cache other) ∧
      (∀ err, (SearchJobs s.client env query).result = Except.error err →
        (doSearch s env now stored query).server.cache = s.cache)) ∧
    (doSearch s env now stored query).server.cacheTTL = s.cacheTTL ∧
    NewServer.cacheTTL = 15 * 60 * 1000000000 ∧
    (doSearch serverCachedGo sessionThreeBodies (15 * 60 * 1000000000 - 1) 0
        (utf8 "go")).scrape = none ∧
    (doSearch serverCachedGo sessionThreeBodies (15 * 60 * 1000000000) 0
        (utf8 "go")).scrape = some (SearchJobs { ready := true } sessionThreeBodies (utf8 "go")) ∧
    (doSearch serverCachedGo sessionThreeBodies 0 0 (utf8 "rust")).scrape
      = some (SearchJobs { ready := true } sessionThreeBodies (utf8 "rust")) := by
  refine ⟨?_, ?_, ?_, ?_, by decide, by rfl, by rfl, by rfl⟩
  · rcases doSearch_cases s env now stored query with ⟨entry, hget, hage, heq⟩ | ⟨hno, heq⟩
    · rw [heq]
      exact ⟨fun _ => ⟨entry, hget, hage⟩, fun _ => rfl⟩
    · rw [heq, scrapeAndStore_scrape]
      exact ⟨fun h => (by cases h), fun h => absurd h hno⟩
  · intro entry hget hage
    rcases doSearch_cases s env now stored query with ⟨e, hget2, _, heq⟩ | ⟨hno, _⟩
    · rw [hget] at hget2
      cases hget2
      exact heq
    · exact absurd ⟨entry, hget, hage⟩ hno
  · intro hno
    rcases doSearch_cases s env now stored query with ⟨e, hget, hage, _⟩ | ⟨_, heq⟩
    · exact absurd ⟨e, hget, hage⟩ hno
    · rw [heq]
      refine ⟨scrapeAndStore_scrape s env stored query,
        scrapeAndStore_result s env stored query, ?_, ?_⟩
      · intro r hr
        rw [scrapeAndStore_cache, hr]
        exact ⟨mapGet_mapSet_self _ _ _, fun other hne => mapGet_mapSet_ne _ _ _ _ hne.symm⟩
      · intro err herr
        rw [scrapeAndStore_cache, herr]
  · rcases doSearch_cases s env now stored query with ⟨e, _, _, heq⟩ | ⟨_, heq⟩
    · rw [heq]
    · rw [heq, scrapeAndStore_cacheTTL]

/-- C20: when every call of the mutation that `PushToConvex` makes on `n` jobs
succeeds, it returns no error after exactly `ceil(n/50)` calls of
`jobs:bulkUpsert`, of which the call number `i` (from 0) carries
`jobs[50*i .. min(50*(i+1), n))`: the batches in order make up the input,
none is empty or has more than 50 jobs, and every batch but the last has 50.
The three totals are the sums, over the calls, of the inserted, updated and
skipped counts that the results report.  For 120 jobs there are 3 calls, of
50, 50 and 20 jobs; a second call that fails ends the sync after 2 calls. -/
theorem c20_batches (toInt : Bytes → Int)
    (callMutation : Nat → Bytes → List ConvexJob → Except Bytes JValue)
    (jobs : List ConvexJob)
    (hok : ∀ k, 50 * k < jobs.length → ∃ v,
      callMutation k (utf8 "jobs:bulkUpsert")
        ((jobs.take (min (50 * (k + 1)) jobs.length)).drop (50 * k)) = Except.ok v) :
    (PushToConvex toInt callMutation jobs).err = none ∧
    (PushToConvex toInt callMutation jobs).calls.length = (jobs.length + 49) / 50 ∧
    (jobs.length ≤ 50 * ((jobs.length + 49) / 50) ∧
      50 * ((jobs.length + 49) / 50) < jobs.length + 50) ∧
    (PushToConvex toInt callMutation jobs).calls
      = (List.range ((jobs.length + 49) / 50)).map (fun i =>
          (utf8 "jobs:bulkUpsert",
            (jobs.take (min (50 * (i + 1)) jobs.length)).drop (50 * i))) ∧
    (∀ i, i < (jobs.length + 49) / 50 →
      (PushToConvex toInt callMutation jobs).calls[i]?
        = some (utf8 "jobs:bulkUpsert",
            (jobs.take (min (50 * (i + 1)) jobs.length)).drop (50 * i))) ∧
    ((PushToConvex toInt callMutation jobs).calls.map Prod.snd).flatten = jobs ∧
    (∀ i, i < (jobs.length + 49) / 50 →
      0 < ((jobs.take (min (50 * (i + 1)) jobs.length)).drop (50 * i)).length ∧
      ((jobs.take (min (50 * (i + 1)) jobs.length)).drop (50 * i)).length ≤ 50) ∧
    (∀ i, i + 1 < (jobs.length + 49) / 50 →
      ((jobs.take (min (50 * (i + 1)) jobs.length)).drop (50 * i)).length = 50) ∧
    (PushToConvex toInt callMutation jobs).totalInserted
      = ((List.range ((jobs.length + 49) / 50)).map (fun i =>
          reportedCount toInt "inserted" (callMutation i (utf8 "jobs:bulkUpsert")
            ((jobs.take (min (50 * (i + 1)) jobs.length)).drop (50 * i))))).sum ∧
    (PushToConvex toInt callMutation jobs).totalUpdated
      = ((List.range ((jobs.length + 49) / 50)).map (fun i =>
          reportedCount toInt "updated" (callMutation i (utf8 "jobs:bulkUpsert")
            ((jobs.take (min (50 * (i + 1)) jobs.length)).drop (50 * i))))).sum ∧
    (PushToConvex toInt callMutation jobs).totalSkipped
      = ((List.range ((jobs.length + 49) / 50)).map (fun i =>
          reportedCount toInt "skipped" (callMutation i (utf8 "jobs:bulkUpsert")
            ((jobs.take (min (50 * (i + 1)) jobs.length)).drop (50 * i))))).sum ∧
    ((PushToConvex digitsToInt respondCounts (sampleJobs 120)).calls.map
        (fun call => (call.1, call.2.length))
      = [(utf8 "jobs:bulkUpsert", 50), (utf8 "jobs:bulkUpsert", 50),
         (utf8 "jobs:bulkUpsert", 20)]) ∧
    ((PushToConvex digitsToInt respondCounts (sampleJobs 120)).calls.map Prod.snd
      = [(sampleJobs 120).take 50, ((sampleJobs 120).drop 50).take 50,
         (sampleJobs 120).drop 100]) ∧
    ((PushToConvex digitsToInt respondCounts (sampleJobs 120)).err = none ∧
      (PushToConvex digitsToInt respondCounts (sampleJobs 120)).totalInserted = 117 ∧
      (PushToConvex digitsToInt respondCounts (sampleJobs 120)).totalUpdated = 3 ∧
      (PushToConvex digitsToInt respondCounts (sampleJobs 120)).totalSkipped = 3) ∧
    ((PushToConvex digitsToInt respondFailSecond (sampleJobs 120)).err
        = some (utf8 "batch 51-100 failed: boom") ∧
      (PushToConvex digitsToInt respondFailSecond (sampleJobs 120)).calls.length = 2) := by
  have hpush := pushBatches_ok toInt callMutation jobs hok jobs.length 0
    { err := none, calls := [], totalInserted := 0, totalUpdated := 0, totalSkipped := 0 }
    rfl rfl (by omega)
  simp only [Nat.mul_zero, Nat.sub_zero, List.nil_append, zero_add] at hpush
  rw [← List.range_eq_range'] at hpush
  have hcalls : (PushToConvex toInt callMutation jobs).calls
      = (List.range ((jobs.length + 49) / 50)).map (fun i =>
          (utf8 "jobs:bulkUpsert",
            (jobs.take (min (50 * (i + 1)) jobs.length)).drop (50 * i))) := by
    unfold PushToConvex
    rw [hpush]
  refine ⟨?_, ?_, ⟨by omega, by omega⟩, hcalls, ?_, ?_, ?_, ?_, ?_, ?_, ?_,
    by decide, by decide, by decide, by decide⟩
  · unfold PushToConvex
    rw [hpush]
  · rw [hcalls]
    simp
  · intro i hi
    rw [hcalls]
    simp [hi]
  · rw [hcalls, List.map_map]
    have hflat := flatten_batches jobs ((jobs.length + 49) / 50)
    rw [List.take_of_length_le (by omega)] at hflat
    exact hflat
  · intro i hi
    simp only [List.length_drop, List.length_take]
    omega
  · intro i hi
    simp only [List.length_drop, List.length_take]
    omega
  · unfold PushToConvex
    rw [hpush]
  · unfold PushToConvex
    rw [hpush]
  · unfold PushToConvex
    rw [hpush]

/-- A sync to which `c20_batches` applies: 120 jobs, every call answered. -/
theorem c20_batches_witness :
    (∀ k, 50 * k < (sampleJobs 120).length → ∃ v,
      respondCounts k (utf8 "jobs:bulkUpsert")
        (((sampleJobs 120).take (min (50 * (k + 1)) (sampleJobs 120).length)).drop (50 * k))
        = Except.ok v) ∧
    (PushToConvex digitsToInt respondCounts (sampleJobs 120)).calls.length
      = ((sampleJobs 120).length + 49) / 50 ∧
    ((sampleJobs 120).length + 49) / 50 = 3 :=
  ⟨fun _ _ => ⟨_, rfl⟩,
   (c20_batches digitsToInt respondCounts (sampleJobs 120) (fun _ _ => ⟨_, rfl⟩)).2.1,
   by decide⟩

/-- C27: for every raw job the `Description` of the result of `TransformJob`
is at most 10000 bytes long.  It is the string `description` of the map
`job_information` when that is not empty and has at most 10000 bytes, its
first 10000 bytes when it is longer, and nil when `job_information` is
missing or no map, or its `description` is missing, no string, or empty. -/
theorem c27_description_bound (now : Int) (raw : Job) :
    (∀ d, (TransformJob now raw).Description = some d → d.length ≤ 10000 ∧ d ≠ []) ∧
    (∀ info s, anyField raw "job_information" = some (JValue.object info) →
      mapGet info (utf8 "description") = some (JValue.string s) →
      (s ≠ [] → s.length ≤ 10000 → (TransformJob now raw).Description = some s) ∧
      (s.length > 10000 → (TransformJob now raw).Description = some (s.take 10000)) ∧
      (s = [] → (TransformJob now raw).Description = none)) ∧
    ((∀ info, anyField raw "job_information" ≠ some (JValue.object info)) →
      (TransformJob now raw).Description = none) ∧
    (∀ info, anyField raw "job_information" = some (JValue.object info) →
      (∀ s, mapGet info (utf8 "description") ≠ some (JValue.string s)) →
      (TransformJob now raw).Description = none) ∧
    (TransformJob now (recordDescription (utf8 "<p>Go</p>"))).Description
      = some (utf8 "<p>Go</p>") ∧
    (TransformJob now (recordDescription (List.replicate 10001 97))).Description
      = some (List.replicate 10000 97) ∧
    (TransformJob now (recordDescription [])).Description = none ∧
    (TransformJob now recordObjectID).Description = none := by
  have hfield : ∀ info, anyField raw "job_information" = some (JValue.object info) →
      mapField raw "job_information" = some info := by
    intro info h
    unfold mapField
    rw [h]
  have hstr : ∀ (info : GoMap JValue) s, mapGet info (utf8 "description") = some (JValue.string s) →
      getStringM (some info) "description" = s := by
    intro info s h
    unfold getStringM anyField
    simp only [h]
  have hlong : ∀ s : Bytes, (TransformJob now (recordDescription s)).Description
      = strPtr (if s.length > 10000 then s.take 10000 else s) := by
    intro s
    rw [TransformJob_Description]
    rfl
  refine ⟨?_, ?_, ?_, ?_, ?_, ?_, ?_, ?_⟩
  · intro d hd
    rw [TransformJob_Description] at hd
    cases hinfo : mapField raw "job_information" with
    | none =>
      rw [hinfo] at hd
      cases hd
    | some info =>
      rw [hinfo] at hd
      simp only at hd
      refine ⟨?_, ?_⟩
      · unfold strPtr at hd
        split_ifs at hd with h1 h2
        · cases hd
          rw [List.length_take]
          exact Nat.min_le_left _ _
        · cases hd
          omega
      · intro hnil
        rw [hnil] at hd
        exact strPtr_ne_empty _ hd
  · intro info s hinfo hs
    rw [TransformJob_Description, hfield info hinfo]
    simp only [hstr info s hs]
    refine ⟨?_, ?_, ?_⟩
    · intro hne hlen
      rw [if_neg (by omega)]
      unfold strPtr
      rw [if_neg hne]
    · intro hlen
      rw [if_pos hlen]
      unfold strPtr
      rw [if_neg]
      intro hnil
      have := congrArg List.length hnil
      rw [List.length_take] at this
      simp only [List.length_nil] at this
      omega
    · intro hnil
      rw [hnil]
      rfl
  · intro hno
    rw [TransformJob_Description]
    have : mapField raw "job_information" = none := by
      unfold mapField
      cases h : anyField raw "job_information" with
      | none => rfl
      | some v =>
        cases v with
        | object entries => exact absurd h (hno entries)
        | null => rfl
        | bool b => rfl
        | number t => rfl
        | string t => rfl
        | array t => rfl
    rw [this]
  · intro info hinfo hno
    rw [TransformJob_Description, hfield info hinfo]
    simp only
    have : getStringM (some info) "description" = [] := by
      unfold getStringM anyField
      split
      · rename_i v hv
        exact absurd hv (hno v)
      · rfl
    rw [this]
    rfl
  · rw [hlong]
    rfl
  · rw [hlong, if_pos (by rw [List.length_replicate]; omega), List.take_replicate]
    rfl
  · rw [hlong]
    rfl
  · rw [TransformJob_Description]
    rfl

/-- C29: `TransformJob` takes `ExternalID` from the field `id` alone, while
`jobID` and the key of `runSync` fall back to `objectID`.  The record
`{"objectID":"x"}` has the identifier `x`, is kept by `runSync` under `x`, and
gets the empty `ExternalID`; the two agree exactly on the records whose `id`
is a string that is not empty. -/
theorem c29_external_id_from_id_only :
    extractJobs (utf8 "[\x7b\"objectID\":\"x\"\x7d]") = Except.ok [recordObjectID] ∧
    jobID recordObjectID = utf8 "x" ∧
    syncKey recordObjectID = utf8 "x" ∧
    syncMerge [] [recordObjectID] = [(utf8 "x", recordObjectID)] ∧
    (TransformJob 0 recordObjectID).ExternalID = [] ∧
    (TransformJob 0 recordObjectID).ExternalID ≠ jobID recordObjectID ∧
    (∀ (now : Int) (raw : Job), (TransformJob now raw).ExternalID = getString raw "id") ∧
    (∀ (raw : Job), syncKey raw = jobID raw) ∧
    (∀ (now : Int) (raw : Job), getString raw "id" ≠ [] →
      (TransformJob now raw).ExternalID = jobID raw) ∧
    (∀ (now : Int) (raw : Job), getString raw "id" = [] → jobID raw ≠ [] →
      (TransformJob now raw).ExternalID ≠ jobID raw) := by
  refine ⟨by rfl, by rfl, by rfl, by rfl, by rfl, by decide, TransformJob_ExternalID,
    syncKey_eq_jobID, ?_, ?_⟩
  · intro now raw hid
    rw [TransformJob_ExternalID, ← syncKey_eq_jobID]
    unfold syncKey
    rw [if_neg hid]
  · intro now raw hid hne
    rw [TransformJob_ExternalID, hid]
    exact fun h => hne h.symm

/-- C30: the optional string fields of the result of `TransformJob` that are
assigned through `strPtr` and `strPtrM` are nil or a string that is not empty,
for every raw job.  `CompanyIndustry` is also assigned the first element of
`industries` as it is: for the record
`{"id":"a","v5_processed_company_data":{"industries":[""]}}` it is the empty
string, and it is the empty string in that way only. -/
theorem c30_empty_company_industry :
    extractJobs
        (utf8 "[\x7b\"id\":\"a\",\"v5_processed_company_data\":\x7b\"industries\":[\"\"]\x7d\x7d]")
      = Except.ok [recordEmptyIndustry] ∧
    (TransformJob 0 recordEmptyIndustry).CompanyIndustry = some [] ∧
    (∀ (now : Int) (raw : Job),
      (TransformJob now raw).SeniorityLevel ≠ some [] ∧
      (TransformJob now raw).Category ≠ some [] ∧
      (TransformJob now raw).RoleType ≠ some [] ∧
      (TransformJob now raw).Requirements ≠ some [] ∧
      (TransformJob now raw).Description ≠ some [] ∧
      (TransformJob now raw).SalaryCurrency ≠ some [] ∧
      (TransformJob now raw).SalaryFrequency ≠ some [] ∧
      (TransformJob now raw).CompanyLogo ≠ some [] ∧
      (TransformJob now raw).CompanyWebsite ≠ some [] ∧
      (TransformJob now raw).CompanyLinkedin ≠ some [] ∧
      (TransformJob now raw).CompanyTagline ≠ some [] ∧
      ((TransformJob now raw).CompanyIndustry = some [] →
        ∃ pcd, mapField raw "v5_processed_company_data" = some pcd ∧
          (getStringArrayM (some pcd) "industries").head? = some [])) := by
  refine ⟨by rfl, by rfl, TransformJob_optional⟩

/-- C28: whenever `extractJobs` succeeds, the list that it returns is not
empty.  The bodies `[]`, `{}`, `{"results":[]}` and a hits envelope none of
whose hits has a `_source` are answered with an error, not with an empty
list. -/
theorem c28_success_not_empty :
    (∀ (body : Bytes) (jobs : List Job), extractJobs body = Except.ok jobs →
      jobs ≠ [] ∧ jobs.length > 0) ∧
    extractJobs (utf8 "[]") = Except.error (utf8 "could not extract jobs: []") ∧
    extractJobs (utf8 "\x7b\x7d") = Except.error (utf8 "could not extract jobs: \x7b\x7d") ∧
    extractJobs (utf8 "\x7b\"results\":[]\x7d")
      = Except.error (utf8 "could not extract jobs: \x7b\"results\":[]\x7d") ∧
    extractJobs (utf8 "\x7b\"hits\":\x7b\"hits\":[\x7b\x7d,\x7b\"_id\":\"1\"\x7d]\x7d\x7d")
      = Except.error (utf8 "could not extract jobs: \x7b\"hits\":\x7b\"hits\":[\x7b\x7d,\x7b\"_id\":\"1\"\x7d]\x7d\x7d") ∧
    extractJobs (utf8 "\x7b\"hits\":\x7b\"hits\":[]\x7d\x7d")
      = Except.error (utf8 "could not extract jobs: \x7b\"hits\":\x7b\"hits\":[]\x7d\x7d") ∧
    extractJobs (utf8 "\x7b\"results\":[\x7b\"id\":\"a\"\x7d]\x7d") = Except.ok [idRecord "a"] := by
  refine ⟨?_, by rfl, by rfl, by rfl, by rfl, by rfl, by rfl⟩
  intro body jobs h
  have hlen := extractFrom_length (rawBody body) body jobs h
  refine ⟨?_, hlen⟩
  intro hnil
  rw [hnil] at hlen
  exact Nat.lt_irrefl _ hlen

/-- A body to which the general part of `c28_success_not_empty` applies. -/
theorem c28_success_not_empty_witness : [idRecord "a"] ≠ [] :=
  (c28_success_not_empty.1 (utf8 "\x7b\"results\":[\x7b\"id\":\"a\"\x7d]\x7d") [idRecord "a"]
    (by rfl)).1

/-- C21: if the call of `jobs:bulkUpsert` for the batch number `k` (from 0)
fails with the error `e` after the calls for the batches before it have
succeeded, `PushToConvex` makes no further call and returns the error
`batch <first>-<last> failed: e`, where `<first>` is the index from 1 of the
first job of the batch and `<last>` that of its last job.  The calls made are
those for the batches 0 to `k`, all of them upserts: nothing is sent to undo
the batches before `k`. -/
theorem c21_failed_batch (toInt : Bytes → Int)
    (callMutation : Nat → Bytes → List ConvexJob → Except Bytes JValue)
    (jobs : List ConvexJob) (k : Nat) (e : Bytes) (hlt : 50 * k < jobs.length)
    (hok : ∀ i, i < k → ∃ v,
      callMutation i (utf8 "jobs:bulkUpsert")
        ((jobs.take (min (50 * (i + 1)) jobs.length)).drop (50 * i)) = Except.ok v)
    (hfail : callMutation k (utf8 "jobs:bulkUpsert")
      ((jobs.take (min (50 * (k + 1)) jobs.length)).drop (50 * k)) = Except.error e) :
    (PushToConvex toInt callMutation jobs).err
      = some (utf8 "batch " ++ decimal (50 * k + 1) ++ utf8 "-"
          ++ decimal (min (50 * (k + 1)) jobs.length) ++ utf8 " failed: " ++ e) ∧
    (PushToConvex toInt callMutation jobs).calls
      = (List.range (k + 1)).map (fun i =>
          (utf8 "jobs:bulkUpsert",
            (jobs.take (min (50 * (i + 1)) jobs.length)).drop (50 * i))) ∧
    (PushToConvex toInt callMutation jobs).calls.length = k + 1 ∧
    (∀ call ∈ (PushToConvex toInt callMutation jobs).calls, call.1 = utf8 "jobs:bulkUpsert") ∧
    ((jobs.take (min (50 * (k + 1)) jobs.length)).drop (50 * k)).head? = jobs[50 * k + 1 - 1]? ∧
    ((jobs.take (min (50 * (k + 1)) jobs.length)).drop (50 * k)).getLast?
      = jobs[min (50 * (k + 1)) jobs.length - 1]? ∧
    50 * k + 1 ≤ min (50 * (k + 1)) jobs.length := by
  have h := pushBatches_fail toInt callMutation jobs k e hlt hok hfail jobs.length 0
    { err := none, calls := [], totalInserted := 0, totalUpdated := 0, totalSkipped := 0 }
    rfl rfl (Nat.zero_le _) (by omega)
  simp only [Nat.mul_zero, Nat.sub_zero, List.nil_append] at h
  rw [← List.range_eq_range'] at h
  have hcalls : (PushToConvex toInt callMutation jobs).calls
      = (List.range (k + 1)).map (fun i =>
          (utf8 "jobs:bulkUpsert",
            (jobs.take (min (50 * (i + 1)) jobs.length)).drop (50 * i))) := h.2
  refine ⟨h.1, hcalls, ?_, ?_, ?_, ?_, by omega⟩
  · rw [hcalls]
    simp
  · intro call hcall
    rw [hcalls, List.mem_map] at hcall
    obtain ⟨i, _, hi⟩ := hcall
    rw [← hi]
  · rw [List.head?_drop, List.getElem?_take]
    simp only [Nat.add_sub_cancel]
    rw [if_pos (by omega)]
  · rw [List.getLast?_eq_getElem?, List.length_drop, List.length_take, List.getElem?_drop,
      List.getElem?_take]
    have hidx : 50 * k + (min (min (50 * (k + 1)) jobs.length) jobs.length - 50 * k - 1)
        = min (50 * (k + 1)) jobs.length - 1 := by omega
    rw [hidx, if_pos (by omega)]

/-- A sync to which `c21_failed_batch` applies: of 120 jobs the second batch
fails with `boom`; the error names the jobs 51 to 100 and two calls are made. -/
theorem c21_failed_batch_witness :
    (PushToConvex digitsToInt respondFailSecond (sampleJobs 120)).err
      = some (utf8 "batch 51-100 failed: boom") ∧
    ((PushToConvex digitsToInt respondFailSecond (sampleJobs 120)).calls.map
        (fun call => call.2.length)) = [50, 50] :=
  ⟨(c21_failed_batch digitsToInt respondFailSecond (sampleJobs 120) 1 (utf8 "boom")
      (by decide) (fun i hi => ⟨_, by
        have h0 : i = 0 := by omega
        subst h0
        rfl⟩) (by rfl)).1.trans (by decide),
   by decide⟩

/-- C22: at a response-received event the listener records the request in
the table of pending requests, under its identifier and with its URL, if and
only if the URL of the response contains `/api/search-jobs`, does not contain
`get-total-count`, and the status is 200; a response that fails one of the
three conditions leaves the capture buffer as it is.  Bodies and signals are
never changed by this event. -/
theorem c22_pending_filter (nc : networkCapture) (e : NetworkResponseReceived) :
    (isSearchResponse e.Response = true ↔
      utf8 "/api/search-jobs" <:+: e.Response.URL ∧
        ¬ utf8 "get-total-count" <:+: e.Response.URL ∧ e.Response.Status = 200) ∧
    (isSearchResponse e.Response = true →
      (onResponseReceived nc e).pendingRequests
        = mapSet nc.pendingRequests e.RequestID e.Response.URL ∧
      mapGet (onResponseReceived nc e).pendingRequests e.RequestID = some e.Response.URL) ∧
    (isSearchResponse e.Response = false → onResponseReceived nc e = nc) ∧
    (mapGet nc.pendingRequests e.RequestID = none →
      (mapGet (onResponseReceived nc e).pendingRequests e.RequestID = some e.Response.URL ↔
        utf8 "/api/search-jobs" <:+: e.Response.URL ∧
          ¬ utf8 "get-total-count" <:+: e.Response.URL ∧ e.Response.Status = 200)) ∧
    (onResponseReceived nc e).bodies = nc.bodies ∧
    (onResponseReceived nc e).gotResult = nc.gotResult ∧
    (listen newNetworkCapture (received "r1" urlSearch 200)).pendingRequests
      = [(utf8 "r1", urlSearch)] ∧
    (listen newNetworkCapture (received "r1" urlCount 200)).pendingRequests = [] ∧
    (listen newNetworkCapture (received "r1" urlSearch 204)).pendingRequests = [] ∧
    (listen newNetworkCapture (received "r1" urlSearch 304)).pendingRequests = [] ∧
    (listen newNetworkCapture
      (received "r1" (utf8 "https://hiring.cafe/api/user") 200)).pendingRequests = [] := by
  refine ⟨isSearchResponse_iff _, ?_, ?_, ?_, ?_, ?_, by decide, by decide, by decide,
    by decide, by decide⟩
  · intro h
    unfold onResponseReceived
    rw [if_pos h]
    exact ⟨rfl, mapGet_mapSet_self _ _ _⟩
  · intro h
    unfold onResponseReceived
    rw [h]
    rfl
  · intro hnone
    rw [← isSearchResponse_iff]
    unfold onResponseReceived
    by_cases h : isSearchResponse e.Response = true
    · rw [if_pos h]
      exact ⟨fun _ => h, fun _ => mapGet_mapSet_self _ _ _⟩
    · rw [if_neg h, hnone]
      exact ⟨fun h2 => (by cases h2), fun h2 => absurd h2 h⟩
  · unfold onResponseReceived
    split_ifs <;> rfl
  · unfold onResponseReceived
    split_ifs <;> rfl

/-- The claim C23 fails for a request that is abandoned: after the response
of the request `r1` is received and its loading fails, the request is no
longer in flight and the table still holds it. -/
theorem c23_counterexample :
    ¬ ∀ (events : List NetworkEvent) (id url : Bytes),
      mapGet (listenAll newNetworkCapture events).pendingRequests id = some url →
      inFlight events id = true := by
  intro h
  have h1 := h [received "r1" urlSearch 200, NetworkEvent.loadingFailed (utf8 "r1")]
    (utf8 "r1") urlSearch (by decide)
  revert h1
  decide

/-- C23, amended: the entry of a request is removed when its loading-finished
event is handled, whether or not the fetch of the body succeeds, and no other
entry is; a fetch that fails appends no body and posts no signal.  The
listener does nothing at the event of a request that is abandoned.  After
every sequence of events the table holds a request exactly when the last
event that touches its entry is a matching response received, and when no
request of the sequence is abandoned, every request in the table is in
flight. -/
theorem c23_pending_entries :
    (∀ (nc : networkCapture) (e : NetworkLoadingFinished)
        (fetch : Except Bytes NetworkGetResponseBodyResult),
      mapGet (onLoadingFinished nc e fetch).pendingRequests e.RequestID = none ∧
      ∀ id, e.RequestID ≠ id →
        mapGet (onLoadingFinished nc e fetch).pendingRequests id
          = mapGet nc.pendingRequests id) ∧
    (∀ (nc : networkCapture) (e : NetworkLoadingFinished) (err : Bytes),
      (onLoadingFinished nc e (Except.error err)).bodies = nc.bodies ∧
      (onLoadingFinished nc e (Except.error err)).gotResult = nc.gotResult) ∧
    (∀ (nc : networkCapture) (requestID : Bytes),
      listen nc (NetworkEvent.loadingFailed requestID) = nc) ∧
    (∀ (events : List NetworkEvent) (id : Bytes),
      mapGet (listenAll newNetworkCapture events).pendingRequests id
        = match (events.filter (touches id)).getLast? with
          | some (NetworkEvent.responseReceived e) => some e.Response.URL
          | _ => none) ∧
    (∀ (events : List NetworkEvent),
      (∀ ev ∈ events, ∀ requestID, ev ≠ NetworkEvent.loadingFailed requestID) →
      ∀ id url, mapGet (listenAll newNetworkCapture events).pendingRequests id = some url →
        inFlight events id = true) ∧
    (listenAll newNetworkCapture
        [received "r1" urlSearch 200, received "r2" urlSearch 200,
         finished "r1" (Except.error (utf8 "no resource")),
         received "r3" urlSearch 200,
         finished "r3" (Except.ok { Body := utf8 "e30=", Base64Encoded := true })])
      = { pendingRequests := [(utf8 "r2", urlSearch)], bodies := [utf8 "\x7b\x7d"], gotResult := 1 } := by
  refine ⟨?_, ?_, fun _ _ => rfl, mapGet_listenAll, pending_inFlight, by rfl⟩
  · intro nc e fetch
    rw [onLoadingFinished_pending]
    exact ⟨mapGet_mapDelete_self _ _, fun id hne => mapGet_mapDelete_ne _ _ _ hne⟩
  · intro nc e err
    unfold onLoadingFinished
    cases mapGet nc.pendingRequests e.RequestID <;> exact ⟨rfl, rfl⟩

/-- A sequence of events to which the last general part of
`c23_pending_entries` applies: no request is abandoned, and the request left
in the table is in flight. -/
theorem c23_pending_entries_witness :
    inFlight [received "r1" urlSearch 200, received "r2" urlSearch 200,
      finished "r1" (Except.error (utf8 "no resource"))] (utf8 "r2") = true :=
  c23_pending_entries.2.2.2.2.1
    [received "r1" urlSearch 200, received "r2" urlSearch 200,
      finished "r1" (Except.error (utf8 "no resource"))]
    (by
      intro ev hev requestID
      simp only [List.mem_cons, List.mem_singleton, List.not_mem_nil, or_false] at hev
      rcases hev with h | h | h <;> rw [h] <;> simp [received, finished])
    (utf8 "r2") urlSearch (by decide)

/-- C24: after a navigation that succeeds, the loop of `Init` reads the title
of the page at most 30 times.  `Init` succeeds, with `ready` set, at the first
read that gives a title which is not empty and whose lower-case form contains
none of `vercel`, `security`, `checkpoint`, and then reads no further title.
If none of the 30 reads gives such a title, a read that fails counting as
none, `Init` returns the error `vercel challenge not solved within 30s` and
leaves the client as it is, with `ready` false for a new client. -/
theorem c24_challenge_loop (c : HiringCafeClient) (env : Launch)
    (hnav : env.navigate = none) :
    (Init c env).polls ≤ 30 ∧
    (∀ k t, k < 30 → env.titles k = Except.ok t → titleSolved t = true →
      (∀ j t2, j < k → env.titles j = Except.ok t2 → titleSolved t2 = false) →
      (Init c env).err = none ∧ (Init c env).polls = k + 1 ∧
        (Init c env).client.ready = true) ∧
    ((∀ j t, j < 30 → env.titles j = Except.ok t → titleSolved t = false) →
      (Init c env).err = some (utf8 "vercel challenge not solved within 30s") ∧
        (Init c env).client = c ∧ (Init c env).polls = 30) ∧
    ((Init c env).err ≠ none → (Init c env).client = c) ∧
    (∀ t, titleSolved t = true ↔
      t ≠ [] ∧ ¬ utf8 "vercel" <:+: ToLower t ∧ ¬ utf8 "security" <:+: ToLower t ∧
        ¬ utf8 "checkpoint" <:+: ToLower t) ∧
    NewHiringCafeClient.ready = false ∧
    (titleSolved (utf8 "HiringCafe - Find jobs") = true ∧
      titleSolved (utf8 "") = false ∧
      titleSolved (utf8 "Vercel Security Checkpoint") = false ∧
      titleSolved (utf8 "VERCEL") = false ∧
      titleSolved (utf8 "Job SeCuRiTy") = false ∧
      titleSolved (utf8 "checkPOINT passed") = false) ∧
    ((Init NewHiringCafeClient launchUnsolved).client.ready = false ∧
      (Init NewHiringCafeClient launchUnsolved).polls = 30) := by
  have hinit : Init c env
      = if !(pollTitles env.titles 30 0).2 then
          { err := some (utf8 "vercel challenge not solved within 30s"), client := c,
            polls := (pollTitles env.titles 30 0).1 }
        else { err := none, client := { c with ready := true },
               polls := (pollTitles env.titles 30 0).1 } := by
    unfold Init
    rw [hnav]
  refine ⟨?_, ?_, ?_, ?_, titleSolved_iff, rfl, by decide, by decide⟩
  · have hle := pollTitles_le env.titles 30 0
    rw [hinit]
    split_ifs
    · simpa using hle
    · simpa using hle
  · intro k t hk hkt hsolved hbefore
    have hp := pollTitles_solved env.titles k t hkt hsolved 30 0 (Nat.zero_le _) (by omega)
      (fun j t2 _ h2 h3 => hbefore j t2 h2 h3)
    rw [hinit, hp]
    exact ⟨rfl, rfl, rfl⟩
  · intro hnone
    have hp := pollTitles_unsolved env.titles 30 0
      (fun j t _ h2 h3 => hnone j t (by omega) h3)
    rw [hinit, hp]
    exact ⟨rfl, rfl, rfl⟩
  · intro herr
    rw [hinit] at herr ⊢
    split_ifs at herr ⊢ with h
    · rfl
    · exact absurd rfl herr

/-- A start to which `c24_challenge_loop` applies: the challenge is shown for
three reads, the fourth read fails, and the fifth gives the title of the
site. -/
theorem c24_challenge_loop_witness :
    (Init NewHiringCafeClient launchSolvedAtFifth).err = none ∧
    (Init NewHiringCafeClient launchSolvedAtFifth).polls = 4 + 1 ∧
    (Init NewHiringCafeClient launchSolvedAtFifth).client.ready = true :=
  (c24_challenge_loop NewHiringCafeClient launchSolvedAtFifth rfl).2.1 4 (utf8 "HiringCafe")
    (by decide) (by rfl) (by decide)
    (by
      intro j t2 hj ht
      have hcases : j = 0 ∨ j = 1 ∨ j = 2 ∨ j = 3 := by omega
      rcases hcases with h | h | h | h <;> subst h
      · cases ht
        decide
      · cases ht
        decide
      · cases ht
        decide
      · cases ht)

/-- C25: `handleSearch` answers a `GET` whose parameter `q` is missing or
empty, and a `POST` whose body the decoder rejects or decodes to an empty
`query`, as it does for an object with no member `query`, with the status 400
and the envelope of `httpError`, whose `error` is `Bad Request`, and it makes
no call of `doSearch`, the only way from the handler to the cache and to the
scraper: the server is left as it is. -/
theorem c25_missing_query (s : Server) (env : Session) (now stored : Int)
    (jsonError : Bytes → Bytes) (r : Request) :
    (r.Method = utf8 "GET" → (r.q = none ∨ r.q = some []) →
      (handleSearch s env now stored jsonError r).response
        = { status := 400,
            data := Payload.failure
              { Error := utf8 "Bad Request",
                Message :=
                  utf8 "query is required (GET: ?q=..., POST: \x7b\"query\":\"...\"\x7d)" } } ∧
      (handleSearch s env now stored jsonError r).searched = none ∧
      (handleSearch s env now stored jsonError r).server = s) ∧
    (r.Method = utf8 "POST" → (∀ req, decodeBody r.Body = some req → req.Query = []) →
      (handleSearch s env now stored jsonError r).response.status = 400 ∧
      (∃ msg, (handleSearch s env now stored jsonError r).response.data
        = Payload.failure { Error := utf8 "Bad Request", Message := msg }) ∧
      (handleSearch s env now stored jsonError r).searched = none ∧
      (handleSearch s env now stored jsonError r).server = s) ∧
    (∀ members, decoderValue r.Body = some (JValue.object members) →
      (∀ kv ∈ members, isField "query" kv.1 = false) →
      ∀ req, decodeBody r.Body = some req → req.Query = []) ∧
    ((handleSearch s env now stored jsonError (getRequest none)).response.status = 400 ∧
      (handleSearch s env now stored jsonError (getRequest (some []))).response.status = 400 ∧
      (handleSearch s env now stored jsonError (postRequest "\x7b\x7d")).response.status = 400 ∧
      (handleSearch s env now stored jsonError
        (postRequest "\x7b\"query\":\"\"\x7d")).response.status = 400 ∧
      (handleSearch s env now stored jsonError
        (postRequest "\x7b\"query\":null\x7d")).response.status = 400 ∧
      (handleSearch s env now stored jsonError
        (postRequest "\x7b\"location\":\"Berlin\"\x7d")).response.status = 400 ∧
      (handleSearch s env now stored jsonError
        (postRequest "\x7b\"query\":5\x7d")).response.data
        = Payload.failure
            { Error := utf8 "Bad Request",
              Message := utf8 "Invalid JSON: " ++ jsonError (utf8 "\x7b\"query\":5\x7d") } ∧
      (handleSearch s env now stored jsonError (postRequest "")).response.status = 400) ∧
    ((handleSearch serverReady sessionThreeBodies 0 0 jsonError
        (postRequest "\x7b\"query\":\"go\"\x7d")).response.status = 200 ∧
      (handleSearch serverReady sessionThreeBodies 0 0 jsonError
        (getRequest (some (utf8 "go")))).searched
        = some (doSearch serverReady sessionThreeBodies 0 0 (utf8 "go"))) := by
  refine ⟨?_, ?_, ?_, ⟨by rfl, by rfl, by rfl, by rfl, by rfl, by rfl, by rfl, by rfl⟩,
    ⟨by rfl, by rfl⟩⟩
  · intro hget hq
    have hquery : r.q.getD [] = [] := by
      rcases hq with h | h <;> rw [h] <;> rfl
    unfold handleSearch
    rw [if_pos hget, hquery, searchQuery_empty]
    exact ⟨rfl, rfl, rfl⟩
  · intro hpost hq
    have hne : r.Method ≠ utf8 "GET" := by
      rw [hpost]
      decide
    unfold handleSearch
    rw [if_neg hne, if_pos hpost]
    cases hdec : decodeBody r.Body with
    | none => exact ⟨rfl, ⟨_, rfl⟩, rfl, rfl⟩
    | some req =>
      simp only
      rw [hq req hdec, searchQuery_empty]
      exact ⟨rfl, ⟨_, rfl⟩, rfl, rfl⟩
  · intro members hval hkeys req hreq
    unfold decodeBody at hreq
    rw [hval] at hreq
    simp only [Option.some_bind, decodeSearchRequest] at hreq
    rw [foldlM_Query members _ req hreq hkeys]

/-- Requests to which the general parts of `c25_missing_query` apply. -/
theorem c25_missing_query_witness :
    (handleSearch serverReady sessionThreeBodies 0 0 (fun _ => utf8 "EOF")
        (getRequest none)).searched = none ∧
    (handleSearch serverReady sessionThreeBodies 0 0 (fun _ => utf8 "EOF")
        (postRequest "\x7b\"location\":\"Berlin\"\x7d")).searched = none :=
  ⟨((c25_missing_query serverReady sessionThreeBodies 0 0 (fun _ => utf8 "EOF")
      (getRequest none)).1 rfl (Or.inl rfl)).2.1,
   ((c25_missing_query serverReady sessionThreeBodies 0 0 (fun _ => utf8 "EOF")
      (postRequest "\x7b\"location\":\"Berlin\"\x7d")).2.1 rfl
        (fun req hreq =>
          (c25_missing_query serverReady sessionThreeBodies 0 0 (fun _ => utf8 "EOF")
            (postRequest "\x7b\"location\":\"Berlin\"\x7d")).2.2.1
            [(utf8 "location", JValue.string (utf8 "Berlin"))] (by rfl)
            (by
              intro kv hkv
              simp only [List.mem_singleton] at hkv
              rw [hkv]
              decide) req hreq)).2.2.1⟩

/-- C26: however the callers of `doSearch` are scheduled, at most one of them
is inside its call of `SearchJobs` at any time, and that one holds the lock
`s.mu`, which is held by one caller exactly when it is locked.  A caller that
misses the cache goes to the lock whatever its query is; while the lock is
held, a caller at the lock does nothing but wait, and it takes the lock when
it is free.  Of three callers that miss together, two of them with the same
query, each scrapes in its turn. -/
theorem c26_one_live_interaction (tick : Int) (s : Server) (now : Int)
    (calls : List (Bytes × Session)) (schedule : List Nat) :
    (Pool.run tick (Pool.start s now calls) schedule).liveCount ≤ 1 ∧
    (Pool.run tick (Pool.start s now calls) schedule).holders
      = (if (Pool.run tick (Pool.start s now calls) schedule).mu then 1 else 0) ∧
    (∀ c ∈ (Pool.run tick (Pool.start s now calls) schedule).callers,
      c.live = true → c.holds = true) ∧
    (∀ (p : Pool) (i : Nat) (c : Caller), p.callers[i]? = some c → c.phase = Phase.lock →
      p.mu = true →
      (Pool.step tick p i).callers = p.callers ∧ (Pool.step tick p i).mu = true ∧
        (Pool.step tick p i).server = p.server) ∧
    (∀ (p : Pool) (i : Nat) (c : Caller), p.callers[i]? = some c → c.phase = Phase.lock →
      p.mu = false →
      (Pool.step tick p i).callers = p.callers.set i { c with phase := Phase.locked } ∧
        (Pool.step tick p i).mu = true) ∧
    (∀ (srv : Server) (mu : Bool) (t : Int) (c : Caller), c.phase = Phase.check →
      (¬ ∃ entry, mapGet srv.cache c.query = some entry ∧ t - entry.CachedAt < srv.cacheTTL) →
      (advance srv mu t c).1.phase = Phase.lock) ∧
    (([0, 1, 2, 0, 1, 2, 0, 1, 0, 2, 0, 1, 2, 1, 1, 1, 2, 2, 2, 0].inits.map
        (fun pre => (Pool.run 1 poolThree pre).liveCount))
      = [0, 0, 0, 0, 0, 0, 0, 1, 1, 0, 0, 0, 0, 0, 1, 0, 0, 0, 1, 0, 0]) ∧
    ((Pool.run 1 poolThree [0, 1, 2, 0, 1, 2, 0, 1]).callers.map (fun c => c.phase.rank)
      = [3, 1, 1]) ∧
    ((Pool.run 1 poolThree
        [0, 1, 2, 0, 1, 2, 0, 1, 0, 2, 0, 1, 2, 1, 1, 1, 2, 2, 2, 0]).callers.map
        (fun c => c.phase.rank)
      = [5, 5, 5]) := by
  have hinv := run_holders tick schedule (Pool.start s now calls)
    (by rw [start_holders]; rfl)
  refine ⟨?_, hinv, fun c _ h => live_holds c h, ?_, ?_, ?_, by decide, by decide, by decide⟩
  · have hle := liveCount_le_holders (Pool.run tick (Pool.start s now calls) schedule)
    rw [hinv] at hle
    split_ifs at hle <;> omega
  · intro p i c hc hphase hmu
    unfold Pool.step
    rw [hc]
    have hadv : advance p.server p.mu p.now c = (c, p.server, p.mu) := by
      unfold advance
      rw [hphase, hmu]
      rfl
    simp only [hadv]
    refine ⟨?_, hmu, trivial⟩
    exact set_of_get p.callers i c hc
  · intro p i c hc hphase hmu
    unfold Pool.step
    rw [hc]
    have hadv : advance p.server p.mu p.now c
        = ({ c with phase := Phase.locked }, p.server, true) := by
      unfold advance
      rw [hphase, hmu]
      rfl
    simp only [hadv]
    exact ⟨trivial, trivial⟩
  · intro srv mu t c hphase hmiss
    unfold advance
    rw [hphase]
    simp only
    cases hget : mapGet srv.cache c.query with
    | none => rfl
    | some entry =>
      simp only
      rw [if_neg (fun hage => hmiss ⟨entry, hget, hage⟩)]

end Wingman
